import Mathlib

/-!
# O(N) model update engine (`ON_Model.cpp`, `ON_Model_Ngeq2.cpp`)

A shallow embedding of the Monte-Carlo update engine of the O(N) model: the
Metropolis single-spin update, the Wolff single-cluster update, sweeps, and
the total energy.

Conventions of the embedding.

* `double` is an arbitrary linearly ordered field `K` (exact arithmetic);
  `exp` and `sqrt` of the C library are parameters of the collaborators.
* Arrays of length `N_` (`spins_`, `inCluster_`, the three histograms) are
  functions on site indices; the entries of the array are the values at the
  indices below `N_`.
* `uint` values are natural numbers: the counters and histograms do not wrap
  around, and `N_ - 1`, `clustSize - 1` are truncated differences, which are
  the machine values on a lattice of at least one site.
* `MTRand` is a state of an arbitrary type `G`; its draws return the value
  drawn and the next state.
* The `while` loop of the cluster growth takes a bound on the number of its
  iterations and yields `none` when the bound is exceeded.
* Console output (the flag `pr`) has no effect on the state and is left out.
-/

set_option linter.unusedSectionVars false

namespace OPE

open Finset

/-! ## Loops -/

/-- The loop `for (uint i = 0; i < n; i++) acc = body i acc`. -/
def forLoop {σ : Type} (n : Nat) (body : Nat → σ → σ) (init : σ) : σ :=
  (List.range n).foldl (fun acc i => body i acc) init

/-- The loop `for (uint i = 0; i < v.size(); i++) acc = body v[i] acc` over a
`std::vector<uint>`. -/
def forEach {σ : Type} (v : List Nat) (body : Nat → σ → σ) (init : σ) : σ :=
  v.foldl (fun acc x => body x acc) init

/-! ## Vectors (`Vector_NDim`) -/

/-- A vector of `n` real components (`Vector_NDim::v_`). -/
abbrev Vector_NDim (K : Type) (n : Nat) := Fin n → K

section Vec

variable {K : Type} [LinearOrderedField K] {n : Nat}

/-- Modelled from the spec: `Vector_NDim(spinDim, 0)`, the vector whose
components are all zero. -/
def Vector_NDim.zero : Vector_NDim K n := fun _ => 0

/-- Modelled from the spec: `Vector_NDim::dot`, the inner product. -/
def Vector_NDim.dot (a b : Vector_NDim K n) : K := ∑ i, a i * b i

/-- Modelled from the spec: `Vector_NDim::add`, componentwise accumulation. -/
def Vector_NDim.add (a b : Vector_NDim K n) : Vector_NDim K n := fun i => a i + b i

/-- The component `v_[0]` of a vector. -/
def Vector_NDim.v0 (a : Vector_NDim K n) : K :=
  if h : 0 < n then a ⟨0, h⟩ else 0

/-- Modelled from the spec: renormalisation to unit length, every component
divided by the Euclidean norm `sqrt (v · v)`. -/
def Vector_NDim.normalize (sqrt : K → K) (v : Vector_NDim K n) : Vector_NDim K n :=
  fun i => v i / sqrt (Vector_NDim.dot v v)

/-- Modelled from the spec: `Vector_NDim::getReflectionAndNormalize`, the
reflected copy `s − 2 (s · r) r` renormalised to unit length. The in-place
`reflectOverUnitVecAndNormalize` stores this value. -/
def Vector_NDim.getReflectionAndNormalize (sqrt : K → K) (s r : Vector_NDim K n) :
    Vector_NDim K n :=
  Vector_NDim.normalize sqrt (fun i => s i - 2 * Vector_NDim.dot s r * r i)

end Vec

/-! ## Collaborators and the engine state -/

/-- The collaborators of the engine that live outside these two source
files: the random generator `MTRand`, the random constructor of
`Vector_NDim`, the geometry `Hyperrectangle`, and `exp`, `sqrt`. -/
structure Collab (G K : Type) (n : Nat) where
  /-- `MTRand::randInt(max)`: an integer in `[0, max]` and the next state. -/
  randInt : G → Nat → Nat × G
  /-- `MTRand::randDblExc()`: a real in `(0, 1)` and the next state. -/
  randDblExc : G → K × G
  /-- `Vector_NDim(spinDim, randomGen, start, end)`: a random vector and the
  next state. -/
  randVec : G → Nat → Nat → Vector_NDim K n × G
  /-- `Hyperrectangle::getNeighbour(site, direction)`. -/
  getNeighbour : Nat → Nat → Nat
  /-- The exponential of the C library. -/
  exp : K → K
  /-- The square root of the C library. -/
  sqrt : K → K

/-- The members of `ON_Model` and `ON_Model_Ngeq2` read or written by the
update engine; `spinDim_` is the index `n` of the type. -/
structure ON_Model_Ngeq2 (K : Type) (n : Nat) where
  J_ : K
  h_ : K
  T_ : K
  D_ : Nat
  N_ : Nat
  spins_ : Nat → Vector_NDim K n
  inCluster_ : Nat → Bool
  numAccept_local_ : Nat
  numAccept_clust_ : Nat
  writeClusts_ : Bool
  clustSizes_ : Nat → Nat
  clustSizes_accepted_ : Nat → Nat
  clustSizes_rejected_ : Nat → Nat
  warmupDone : Bool

section Engine

variable {G K : Type} [LinearOrderedField K] {n : Nat}

/-! ## `ON_Model.cpp` -/

/-- The body of the loop that zeroes the three histograms, in the
constructor and in `markWarmupDone`: `clustSizes_[i] = 0`,
`clustSizes_accepted_[i] = 0`, `clustSizes_rejected_[i] = 0`. -/
def ON_Model_Ngeq2.zeroEntry (i : Nat) (a : ON_Model_Ngeq2 K n) : ON_Model_Ngeq2 K n :=
  { a with clustSizes_ := Function.update a.clustSizes_ i 0,
           clustSizes_accepted_ := Function.update a.clustSizes_accepted_ i 0,
           clustSizes_rejected_ := Function.update a.clustSizes_rejected_ i 0 }

/-- The array initialisation of the constructor `ON_Model::ON_Model`:
`warmupDone = false`, `T_ = 1.0`, `inCluster_` all false, both acceptance
counters zero, and the three histograms zero when `writeClusts_` holds. -/
def ON_Model_Ngeq2.construct (m : ON_Model_Ngeq2 K n) : ON_Model_Ngeq2 K n :=
  let m1 := { m with warmupDone := false, T_ := 1 }
  let m2 := { m1 with inCluster_ := forLoop m1.N_ (fun i a => Function.update a i false)
                                      m1.inCluster_ }
  let m3 := { m2 with numAccept_local_ := 0, numAccept_clust_ := 0 }
  if m3.writeClusts_ then forLoop m3.N_ ON_Model_Ngeq2.zeroEntry m3 else m3

/-- `ON_Model::clearCluster`. -/
def ON_Model_Ngeq2.clearCluster (m : ON_Model_Ngeq2 K n) (cluster : List Nat) :
    ON_Model_Ngeq2 K n :=
  { m with inCluster_ := forEach cluster (fun x a => Function.update a x false) m.inCluster_ }

/-- `ON_Model::markWarmupDone`. -/
def ON_Model_Ngeq2.markWarmupDone (m : ON_Model_Ngeq2 K n) : ON_Model_Ngeq2 K n :=
  let m1 := { m with warmupDone := true }
  if m1.writeClusts_ then forLoop m1.N_ ON_Model_Ngeq2.zeroEntry m1 else m1

/-! ## `ON_Model_Ngeq2.cpp` -/

/-- `ON_Model_Ngeq2::flipCluster`. -/
def ON_Model_Ngeq2.flipCluster (c : Collab G K n) (m : ON_Model_Ngeq2 K n)
    (cluster : List Nat) (r : Vector_NDim K n) : ON_Model_Ngeq2 K n :=
  { m with spins_ := forEach cluster (fun x a =>
      Function.update a x (Vector_NDim.getReflectionAndNormalize c.sqrt (a x) r)) m.spins_ }

/-- `ON_Model_Ngeq2::getClusterOnSiteEnergy`. -/
def ON_Model_Ngeq2.getClusterOnSiteEnergy (m : ON_Model_Ngeq2 K n) (cluster : List Nat) : K :=
  let energyh := forEach cluster (fun latticeSite e => e + (m.spins_ latticeSite).v0) (0 : K)
  (-1) * m.h_ * energyh

/-- The first loop of `getEnergy`: the sum `energyJ` of the nearest-neighbour
term, over every site and every forward direction. -/
def ON_Model_Ngeq2.energyJ (c : Collab G K n) (m : ON_Model_Ngeq2 K n) : K :=
  forLoop m.N_ (fun i e =>
    forLoop m.D_ (fun j e1 =>
      e1 + Vector_NDim.dot (m.spins_ i) (m.spins_ (c.getNeighbour i j))) e) (0 : K)

/-- The second loop of `getEnergy`: the sum `energyh` of the field term. -/
def ON_Model_Ngeq2.energyh (m : ON_Model_Ngeq2 K n) : K :=
  forLoop m.N_ (fun i e => e + (m.spins_ i).v0) (0 : K)

/-- `ON_Model_Ngeq2::getEnergy`. -/
def ON_Model_Ngeq2.getEnergy (c : Collab G K n) (m : ON_Model_Ngeq2 K n) : K :=
  ((-1) * m.J_ * m.energyJ c) + ((-1) * m.h_ * m.energyh)

/-- The neighbour sum `nnSum` of `localUpdate`. -/
def ON_Model_Ngeq2.nnSum (c : Collab G K n) (m : ON_Model_Ngeq2 K n) (latticeSite : Nat) :
    Vector_NDim K n :=
  forLoop m.D_ (fun i s =>
    Vector_NDim.add
      (Vector_NDim.add s (m.spins_ (c.getNeighbour latticeSite i)))
      (m.spins_ (c.getNeighbour latticeSite (i + m.D_)))) Vector_NDim.zero

/-- The energy change `deltaE` that `localUpdate` computes for the proposal of
`spin_new` at `latticeSite`. -/
def ON_Model_Ngeq2.localDeltaE (c : Collab G K n) (m : ON_Model_Ngeq2 K n)
    (latticeSite : Nat) (spin_new : Vector_NDim K n) : K :=
  let spin_old := m.spins_ latticeSite
  let nnSum := m.nnSum c latticeSite
  (-1) * m.J_ * (Vector_NDim.dot nnSum spin_new - Vector_NDim.dot nnSum spin_old)
    - m.h_ * (spin_new.v0 - spin_old.v0)

/-- The candidate spin `spin_new` that `localUpdate` draws first, with the
generator after the draw. The default range of the random vector is the full
dimension, `start = 0` and `end = spinDim − 1`. -/
def ON_Model_Ngeq2.localCandidate (c : Collab G K n) (g : G) : Vector_NDim K n × G :=
  c.randVec g 0 (n - 1)

/-- The site `latticeSite` that `localUpdate` draws second, with the
generator after the draw. -/
def ON_Model_Ngeq2.localSite (c : Collab G K n) (m : ON_Model_Ngeq2 K n) (g : G) : Nat × G :=
  c.randInt (ON_Model_Ngeq2.localCandidate c g).2 (m.N_ - 1)

/-- `ON_Model_Ngeq2::localUpdate`. -/
def ON_Model_Ngeq2.localUpdate (c : Collab G K n) (m : ON_Model_Ngeq2 K n) (g : G) :
    ON_Model_Ngeq2 K n × G :=
  let spin_new := (ON_Model_Ngeq2.localCandidate c g).1
  let ig := m.localSite c g
  let latticeSite := ig.1
  let deltaE := m.localDeltaE c latticeSite spin_new
  if deltaE ≤ 0 then
    ({ m with spins_ := Function.update m.spins_ latticeSite spin_new,
              numAccept_local_ := m.numAccept_local_ + 1 }, ig.2)
  else
    let ug := c.randDblExc ig.2
    if ug.1 < c.exp (-deltaE / m.T_) then
      ({ m with spins_ := Function.update m.spins_ latticeSite spin_new,
                numAccept_local_ := m.numAccept_local_ + 1 }, ug.2)
    else (m, ug.2)

/-- The state of the growth loop of `wolffUpdate`: the marker array, the
vectors `cluster` and `buffer` (the back of a vector is the last element of
the list), and the generator. -/
structure GrowState (G : Type) where
  inCluster : Nat → Bool
  cluster : List Nat
  buffer : List Nat
  rng : G

/-- The body of the loop over the neighbours of `latticeSite` in
`wolffUpdate`, for the direction `i`. -/
def ON_Model_Ngeq2.tryNeighbour (c : Collab G K n) (m : ON_Model_Ngeq2 K n)
    (r : Vector_NDim K n) (rDotRef : K) (latticeSite i : Nat) (s : GrowState G) :
    GrowState G :=
  let neighSite := c.getNeighbour latticeSite i
  let exponent := (2 * m.J_ / m.T_) * rDotRef * Vector_NDim.dot r (m.spins_ neighSite)
  if exponent < 0 then
    let PAdd := 1 - c.exp exponent
    if s.inCluster neighSite then s
    else
      let ug := c.randDblExc s.rng
      if ug.1 < PAdd then
        { inCluster := Function.update s.inCluster neighSite true,
          cluster := s.cluster ++ [neighSite],
          buffer := s.buffer ++ [neighSite],
          rng := ug.2 }
      else { s with rng := ug.2 }
  else s

/-- One iteration of the `while` loop of `wolffUpdate` for the popped site
`latticeSite`, the buffer already popped. -/
def ON_Model_Ngeq2.expandSite (c : Collab G K n) (m : ON_Model_Ngeq2 K n)
    (r : Vector_NDim K n) (latticeSite : Nat) (s : GrowState G) : GrowState G :=
  let reflectedSpin := Vector_NDim.getReflectionAndNormalize c.sqrt (m.spins_ latticeSite) r
  let rDotRef := Vector_NDim.dot r reflectedSpin
  forLoop (2 * m.D_) (fun i a => m.tryNeighbour c r rDotRef latticeSite i a) s

/-- The loop `while (!buffer.empty())` of `wolffUpdate`, at most `fuel`
iterations. -/
def ON_Model_Ngeq2.growLoop (c : Collab G K n) (m : ON_Model_Ngeq2 K n)
    (r : Vector_NDim K n) : Nat → GrowState G → Option (GrowState G)
  | 0, s => if s.buffer.isEmpty then some s else none
  | fuel + 1, s =>
    match s.buffer.getLast? with
    | none => some s
    | some latticeSite =>
      ON_Model_Ngeq2.growLoop c m r fuel
        (m.expandSite c r latticeSite { s with buffer := s.buffer.dropLast })

/-- The seeding of the cluster in `wolffUpdate`: the seed site is marked and
pushed on `cluster` and `buffer`. -/
def ON_Model_Ngeq2.seedState (m : ON_Model_Ngeq2 K n) (latticeSite : Nat) (g : G) :
    GrowState G :=
  { inCluster := Function.update m.inCluster_ latticeSite true,
    cluster := [latticeSite],
    buffer := [latticeSite],
    rng := g }

/-- The first part of `wolffUpdate`: the axis `r` is drawn, the seed is
drawn, and the cluster is grown. The result is the axis and the state of the
loop at its exit. -/
def ON_Model_Ngeq2.growCluster (c : Collab G K n) (fuel : Nat) (m : ON_Model_Ngeq2 K n)
    (g : G) (start end_ : Nat) : Option (Vector_NDim K n × GrowState G) :=
  let vg := c.randVec g start end_
  let r := vg.1
  let ig := c.randInt vg.2 (m.N_ - 1)
  match ON_Model_Ngeq2.growLoop c m r fuel (m.seedState ig.1 ig.2) with
  | none => none
  | some s => some (r, s)

/-- The histogram increment `a[clustSize-1]++`. -/
def bump (a : Nat → Nat) (clustSize : Nat) : Nat → Nat :=
  Function.update a (clustSize - 1) (a (clustSize - 1) + 1)

/-- The second part of `wolffUpdate`: the onsite energies, the flip, the
histogram of generated clusters, the accept/reject step and `clearCluster`.
The model `m` carries the marker array of the loop's exit. -/
def ON_Model_Ngeq2.finishCluster (c : Collab G K n) (m : ON_Model_Ngeq2 K n)
    (r : Vector_NDim K n) (cluster : List Nat) (g : G) (pr : Bool) :
    ON_Model_Ngeq2 K n × G :=
  let onsiteEnergy_initial := m.getClusterOnSiteEnergy cluster
  let m1 := m.flipCluster c cluster r
  let onsiteEnergy_final := m1.getClusterOnSiteEnergy cluster
  let onsiteEnergy_diff := onsiteEnergy_final - onsiteEnergy_initial
  let clustSize := if pr || m1.writeClusts_ then cluster.length else 0
  let m2 := if m1.writeClusts_ then { m1 with clustSizes_ := bump m1.clustSizes_ clustSize }
            else m1
  if 0 < onsiteEnergy_diff then
    let PAcceptCluster := c.exp ((-1) * onsiteEnergy_diff / m2.T_)
    let ug := c.randDblExc g
    if PAcceptCluster ≤ ug.1 then
      let m3 := m2.flipCluster c cluster r
      let m4 := if m3.writeClusts_ then
                  { m3 with clustSizes_rejected_ := bump m3.clustSizes_rejected_ clustSize }
                else m3
      (m4.clearCluster cluster, ug.2)
    else
      let m3 := { m2 with numAccept_clust_ := m2.numAccept_clust_ + 1 }
      let m4 := if m3.writeClusts_ then
                  { m3 with clustSizes_accepted_ := bump m3.clustSizes_accepted_ clustSize }
                else m3
      (m4.clearCluster cluster, ug.2)
  else
    let m3 := { m2 with numAccept_clust_ := m2.numAccept_clust_ + 1 }
    let m4 := if m3.writeClusts_ then
                { m3 with clustSizes_accepted_ := bump m3.clustSizes_accepted_ clustSize }
              else m3
    (m4.clearCluster cluster, g)

/-- `ON_Model_Ngeq2::wolffUpdate`. -/
def ON_Model_Ngeq2.wolffUpdate (c : Collab G K n) (fuel : Nat) (m : ON_Model_Ngeq2 K n)
    (g : G) (start end_ : Nat) (pr : Bool) : Option (ON_Model_Ngeq2 K n × G) :=
  match m.growCluster c fuel g start end_ with
  | none => none
  | some (r, s) =>
    some (ON_Model_Ngeq2.finishCluster c { m with inCluster_ := s.inCluster } r s.cluster
      s.rng pr)

/-- The control flow of `ON_Model_Ngeq2::sweep` over any pair of update
operations: `N_/2` local updates, one Wolff update with `start = 0`,
`end = spinDim_ - 1` and the flag `pr`, and `N_ - N_/2` local updates. -/
def sweepWith {σ : Type} (N_ spinDim_ : Nat) (pr : Bool) (localUpdate : σ → σ)
    (wolffUpdate : Nat → Nat → Bool → σ → σ) (s : σ) : σ :=
  let N1 := N_ / 2
  let N2 := N_ - N1
  let s1 := forLoop N1 (fun _ a => localUpdate a) s
  let s2 := wolffUpdate 0 (spinDim_ - 1) pr s1
  forLoop N2 (fun _ a => localUpdate a) s2

/-- `ON_Model_Ngeq2::sweep`; every Wolff update of the sweep gets the bound
`fuel` for its growth loop. -/
def ON_Model_Ngeq2.sweep (c : Collab G K n) (fuel : Nat) (m : ON_Model_Ngeq2 K n) (g : G)
    (pr : Bool) : Option (ON_Model_Ngeq2 K n × G) :=
  sweepWith m.N_ n pr
    (fun o => o.map (fun p => ON_Model_Ngeq2.localUpdate c p.1 p.2))
    (fun start end_ b o =>
      o.bind (fun p => ON_Model_Ngeq2.wolffUpdate c fuel p.1 p.2 start end_ b))
    (some (m, g))

/-- A call of the update engine, as recorded in a trace of calls. -/
inductive Call where
  | localUpdate : Call
  | wolffUpdate : Nat → Nat → Bool → Call
  deriving DecidableEq, Repr

/-- The trace of calls that the control flow of `sweep` issues. -/
def sweepTrace (N_ spinDim_ : Nat) (pr : Bool) : List Call :=
  sweepWith N_ spinDim_ pr (fun t => t ++ [Call.localUpdate])
    (fun start end_ b t => t ++ [Call.wolffUpdate start end_ b]) []

/-- Whether a call is a Wolff update. -/
def Call.isWolff : Call → Bool
  | Call.localUpdate => false
  | Call.wolffUpdate _ _ _ => true

/-- One call of the update engine on a state and a generator. -/
def ON_Model_Ngeq2.runCall (c : Collab G K n) (fuel : Nat) (p : ON_Model_Ngeq2 K n × G) :
    Call → Option (ON_Model_Ngeq2 K n × G)
  | Call.localUpdate => some (ON_Model_Ngeq2.localUpdate c p.1 p.2)
  | Call.wolffUpdate start end_ pr => ON_Model_Ngeq2.wolffUpdate c fuel p.1 p.2 start end_ pr

/-- A sequence of calls of the update engine, from left to right. -/
def ON_Model_Ngeq2.runCalls (c : Collab G K n) (fuel : Nat) :
    List Call → ON_Model_Ngeq2 K n × G → Option (ON_Model_Ngeq2 K n × G)
  | [], p => some p
  | call :: calls, p =>
    match ON_Model_Ngeq2.runCall c fuel p call with
    | none => none
    | some q => ON_Model_Ngeq2.runCalls c fuel calls q

/-- The states that the growth loop of `wolffUpdate` passes through, for the
axis `r`, the seed `x` and the generator `g` after the seed draw, each with
the log of the sites pushed on `buffer` so far: the state after the seeding,
the state after a pop, and the state after the body of the neighbour loop
for a cluster site and one of the `2 D` directions. -/
inductive GrowReach (c : Collab G K n) (m : ON_Model_Ngeq2 K n) (r : Vector_NDim K n)
    (x : Nat) (g : G) : List Nat → GrowState G → Prop
  | seed : GrowReach c m r x g [x] (m.seedState x g)
  | pop (log : List Nat) (s : GrowState G) : GrowReach c m r x g log s →
      GrowReach c m r x g log { s with buffer := s.buffer.dropLast }
  | neighbour (log : List Nat) (s : GrowState G) (site i : Nat) (rDotRef : K) :
      GrowReach c m r x g log s → site ∈ s.cluster → i < 2 * m.D_ →
      GrowReach c m r x g
        (log ++ (m.tryNeighbour c r rDotRef site i s).buffer.drop s.buffer.length)
        (m.tryNeighbour c r rDotRef site i s)

/-! ## Well-formedness of the collaborators and of the state -/

/-- The contract of the collaborators for a lattice of `N` sites and `D`
dimensions: `randInt(max)` is at most `max`, and the neighbour of a site in
one of the `2 D` directions is a site. -/
structure Collab.WellFormed (c : Collab G K n) (N D : Nat) : Prop where
  randInt_le : ∀ g max, (c.randInt g max).1 ≤ max
  neighbour_lt : ∀ i d, i < N → d < 2 * D → c.getNeighbour i d < N

/-- Every entry of the marker array `inCluster_` is false. -/
def ON_Model_Ngeq2.AllClear (m : ON_Model_Ngeq2 K n) : Prop :=
  ∀ i, i < m.N_ → m.inCluster_ i = false

/-- The invariant of the growth loop on a lattice of `N` sites: the cluster
has no duplicate and holds sites only, a site is marked exactly when it is
in the cluster, and the buffer has no duplicate and holds cluster sites
only. -/
structure GrowInv (N : Nat) (s : GrowState G) : Prop where
  nodup : s.cluster.Nodup
  lt : ∀ i, i ∈ s.cluster → i < N
  marked : ∀ i, i < N → (s.inCluster i = true ↔ i ∈ s.cluster)
  buf_nodup : s.buffer.Nodup
  buf_sub : ∀ i, i ∈ s.buffer → i ∈ s.cluster

/-- A periodic geometry of `N` sites and `D` dimensions: the backward
direction `j + D` is the inverse of the forward direction `j`, and no site is
its own neighbour. -/
structure Collab.Periodic (c : Collab G K n) (N D : Nat) : Prop where
  back_fwd : ∀ i j, i < N → j < D → c.getNeighbour (c.getNeighbour i j) (j + D) = i
  fwd_back : ∀ i j, i < N → j < D → c.getNeighbour (c.getNeighbour i (j + D)) j = i
  ne_self : ∀ i d, i < N → d < 2 * D → c.getNeighbour i d ≠ i

/-- The standing assumptions of a call of the update engine: well-formed
collaborators, at least one site, `inCluster_` all false, and a bound of at
least `N_` iterations for the growth loop. -/
structure ON_Model_Ngeq2.Ready (c : Collab G K n) (fuel : Nat) (m : ON_Model_Ngeq2 K n) :
    Prop where
  wf : c.WellFormed m.N_ m.D_
  pos : 0 < m.N_
  clear : m.AllClear
  fuel_ge : m.N_ ≤ fuel

/-- The value `onsiteEnergy_diff` of `wolffUpdate`: the onsite energy of the
cluster after `flipCluster` minus its onsite energy before. -/
def ON_Model_Ngeq2.onsiteEnergyDiff (c : Collab G K n) (m : ON_Model_Ngeq2 K n)
    (cluster : List Nat) (r : Vector_NDim K n) : K :=
  (m.flipCluster c cluster r).getClusterOnSiteEnergy cluster - m.getClusterOnSiteEnergy cluster

/-- The value `exponent` of the growth loop of `wolffUpdate` for the popped
site `latticeSite` and the direction `i`:
`(2 J / T) (r · reflectedSpin) (r · spin (neighbour))`. -/
def ON_Model_Ngeq2.bondExponent (c : Collab G K n) (m : ON_Model_Ngeq2 K n)
    (r : Vector_NDim K n) (latticeSite i : Nat) : K :=
  (2 * m.J_ / m.T_) *
    Vector_NDim.dot r (Vector_NDim.getReflectionAndNormalize c.sqrt (m.spins_ latticeSite) r) *
    Vector_NDim.dot r (m.spins_ (c.getNeighbour latticeSite i))

/-- The number of unmarked sites of a lattice of `N` sites. -/
def unmarked (N : Nat) (inCluster : Nat → Bool) : Nat :=
  ((List.range N).filter (fun i => !inCluster i)).length

/-- The termination measure of the growth loop: the number of unmarked sites
plus the length of the buffer. -/
def GrowState.measure (N : Nat) (s : GrowState G) : Nat :=
  unmarked N s.inCluster + s.buffer.length

/-- A cluster list connected through lattice bonds: its first element is the
seed, and every later element is the neighbour, in one of the `2 D`
directions, of an element that appears earlier in the list. -/
def ClusterConnected (getNeighbour : Nat → Nat → Nat) (D seed : Nat) (cluster : List Nat) :
    Prop :=
  cluster.head? = some seed ∧
  ∀ k x, 0 < k → cluster[k]? = some x →
    ∃ j y i, j < k ∧ cluster[j]? = some y ∧ i < 2 * D ∧ x = getNeighbour y i

/-- The per-bucket equation of the histograms:
`clustSizes_[k] = clustSizes_accepted_[k] + clustSizes_rejected_[k]` for
every `k` in `[0, N_)`. -/
def ON_Model_Ngeq2.BucketsAgree (m : ON_Model_Ngeq2 K n) : Prop :=
  ∀ k, k < m.N_ → m.clustSizes_ k = m.clustSizes_accepted_ k + m.clustSizes_rejected_ k

/-- Every spin of the lattice has unit length: its inner product with itself
is 1. -/
def ON_Model_Ngeq2.UnitSpins (m : ON_Model_Ngeq2 K n) : Prop :=
  ∀ i, i < m.N_ → Vector_NDim.dot (m.spins_ i) (m.spins_ i) = 1

/-- Every freshly drawn vector (candidate spin or reflection axis) has unit
length. -/
def Collab.UnitDraws (c : Collab G K n) : Prop :=
  ∀ g start end_, Vector_NDim.dot (c.randVec g start end_).1 (c.randVec g start end_).1 = 1

/-- `ON_Model_Ngeq2::zeroMeasurements`: both acceptance counters are zeroed;
the call `measures.zero()` of `ON_Model::zeroMeasurements` resets the running
totals of the accumulator. -/
def ON_Model_Ngeq2.zeroMeasurements (m : ON_Model_Ngeq2 K n) : ON_Model_Ngeq2 K n :=
  { m with numAccept_local_ := 0, numAccept_clust_ := 0 }

/-- The value that `writeBin` accumulates under `AccRate_local`:
`numAccept_local_ / (1.0 * N_ * sweepsPerMeas)`. -/
def ON_Model_Ngeq2.accRateLocal (m : ON_Model_Ngeq2 K n) (sweepsPerMeas : Int) : K :=
  (m.numAccept_local_ : K) / (1 * (m.N_ : K) * (sweepsPerMeas : K))

/-- The value that `writeBin` accumulates under `AccRate_clust`:
`numAccept_clust_ / (1.0 * N_ * sweepsPerMeas)`. -/
def ON_Model_Ngeq2.accRateClust (m : ON_Model_Ngeq2 K n) (sweepsPerMeas : Int) : K :=
  (m.numAccept_clust_ : K) / (1 * (m.N_ : K) * (sweepsPerMeas : K))

/-- Modelled from the spec: `accumulate(name, value)` of the measurement
accumulator adds the value to the running total of the name. -/
def Measure.accumulate (total value : K) : K := total + value

/-- Modelled from the spec: `writeAverages(sink, count)` of the measurement
accumulator writes the running total divided by the count. -/
def Measure.average (total : K) (count : Int) : K := total / (count : K)

/-- The two averages that `writeBin` writes for `AccRate_local` and
`AccRate_clust` at the end of a bin: the running totals are zero at the
start of the bin, `writeBin` accumulates each value once, and
`writeAverages` divides by `numMeas`. -/
def ON_Model_Ngeq2.writtenAccRates (m : ON_Model_Ngeq2 K n) (numMeas sweepsPerMeas : Int) :
    K × K :=
  (Measure.average (Measure.accumulate 0 (m.accRateLocal sweepsPerMeas)) numMeas,
    Measure.average (Measure.accumulate 0 (m.accRateClust sweepsPerMeas)) numMeas)

/-- The run of `k` sweeps. -/
def ON_Model_Ngeq2.sweeps (c : Collab G K n) (fuel : Nat) (pr : Bool) :
    Nat → ON_Model_Ngeq2 K n × G → Option (ON_Model_Ngeq2 K n × G)
  | 0, p => some p
  | k + 1, p =>
    match p.1.sweep c fuel p.2 pr with
    | none => none
    | some q => ON_Model_Ngeq2.sweeps c fuel pr k q

/-- A bin of `numMeas * sweepsPerMeas` sweeps that starts with
`zeroMeasurements`. -/
def ON_Model_Ngeq2.runBin (c : Collab G K n) (fuel : Nat) (pr : Bool)
    (numMeas sweepsPerMeas : Nat) (m : ON_Model_Ngeq2 K n) (g : G) :
    Option (ON_Model_Ngeq2 K n × G) :=
  ON_Model_Ngeq2.sweeps c fuel pr (numMeas * sweepsPerMeas) (m.zeroMeasurements, g)

end Engine

/-! ## A concrete chain -/

/-- The neighbour table of the periodic chain of four sites: direction `0`
is forward, direction `1` is backward. -/
def chainNeighbour (i d : Nat) : Nat :=
  if d = 0 then (i + 1) % 4 else (i + 3) % 4

/-- Collaborators over the rationals for the chain of four sites: the
generator state is a counter, every real draw is `u`, every random vector is
the first unit vector, and `exp`, `sqrt` are rational stand-ins with
`exp 0 = 1` and `sqrt 1 = 1`. -/
def chainCollab (u : ℚ) : Collab Nat ℚ 2 where
  randInt := fun g max => (g % (max + 1), g + 1)
  randDblExc := fun g => (u, g + 1)
  randVec := fun g _ _ => (![1, 0], g + 1)
  getNeighbour := chainNeighbour
  exp := fun x => if x ≤ 0 then 1 / (1 - x) else 1 + x
  sqrt := fun x => (1 + x) / 2

/-- A planar model on the chain of four sites with `J = 1`, `h = 0`, `T = 1`,
the spins alternating between the two unit vectors, and cluster tracking
enabled. -/
def chainModel : ON_Model_Ngeq2 ℚ 2 where
  J_ := 1
  h_ := 0
  T_ := 1
  D_ := 1
  N_ := 4
  spins_ := fun i => if i % 2 = 0 then ![1, 0] else ![0, 1]
  inCluster_ := fun _ => false
  numAccept_local_ := 0
  numAccept_clust_ := 0
  writeClusts_ := true
  clustSizes_ := fun _ => 0
  clustSizes_accepted_ := fun _ => 0
  clustSizes_rejected_ := fun _ => 0
  warmupDone := false

/-- A planar model on the chain of four sites with `J = 1`, `h = 0`, `T = 1`
and the spins alternating between the first unit vector and its opposite. -/
def neelModel : ON_Model_Ngeq2 ℚ 2 where
  J_ := 1
  h_ := 0
  T_ := 1
  D_ := 1
  N_ := 4
  spins_ := fun i => if i % 2 = 0 then ![1, 0] else ![-1, 0]
  inCluster_ := fun _ => false
  numAccept_local_ := 0
  numAccept_clust_ := 0
  writeClusts_ := true
  clustSizes_ := fun _ => 0
  clustSizes_accepted_ := fun _ => 0
  clustSizes_rejected_ := fun _ => 0
  warmupDone := false

/-- The result of the second part of `wolffUpdate` on the alternating model
for the axis `(1, 0)`, the cluster `[1]` and the generator state `2`. -/
def neelResult : ON_Model_Ngeq2 ℚ 2 × Nat :=
  ON_Model_Ngeq2.finishCluster (chainCollab (1 / 2))
    { neelModel with inCluster_ := Function.update (fun _ => false) 1 true } ![1, 0] [1] 2 false

/-- The chain model without coupling and without field: `J = 0`, `h = 0`. -/
def freeModel : ON_Model_Ngeq2 ℚ 2 := { chainModel with J_ := 0 }

/-- The chain model without coupling and with the field `h = 1`. -/
def fieldModel : ON_Model_Ngeq2 ℚ 2 := { chainModel with J_ := 0, h_ := 1 }

/-! ## Loop lemmas -/

section LoopLemmas

theorem forLoop_zero {σ : Type} (body : Nat → σ → σ) (init : σ) :
    forLoop 0 body init = init := by
  simp [forLoop]

theorem forLoop_succ {σ : Type} (k : Nat) (body : Nat → σ → σ) (init : σ) :
    forLoop (k + 1) body init = body k (forLoop k body init) := by
  simp [forLoop, List.range_succ, List.foldl_append]

/-- An invariant of the body of a counted loop is an invariant of the loop. -/
theorem forLoop_inv {σ : Type} (P : σ → Prop) (k : Nat) (body : Nat → σ → σ) (init : σ)
    (h0 : P init) (hstep : ∀ i a, i < k → P a → P (body i a)) :
    P (forLoop k body init) := by
  induction k with
  | zero => simpa [forLoop_zero] using h0
  | succ k ih =>
    rw [forLoop_succ]
    exact hstep k _ (Nat.lt_succ_self k)
      (ih (fun i a hi ha => hstep i a (Nat.lt_succ_of_lt hi) ha))

theorem forEach_nil {σ : Type} (body : Nat → σ → σ) (init : σ) :
    forEach [] body init = init := rfl

theorem forEach_cons {σ : Type} (x : Nat) (v : List Nat) (body : Nat → σ → σ) (init : σ) :
    forEach (x :: v) body init = forEach v body (body x init) := rfl

theorem forEach_append {σ : Type} (v w : List Nat) (body : Nat → σ → σ) (init : σ) :
    forEach (v ++ w) body init = forEach w body (forEach v body init) := by
  simp [forEach, List.foldl_append]

/-- A counted loop that accumulates a sum from zero computes the sum over
the range. -/
theorem forLoop_add_eq_sum {K : Type} [LinearOrderedField K] (k : Nat) (f : Nat → K) (e : K) :
    forLoop k (fun i a => a + f i) e = e + ∑ i in Finset.range k, f i := by
  induction k with
  | zero => simp [forLoop_zero]
  | succ k ih => rw [forLoop_succ, ih, Finset.sum_range_succ]; ring

/-- A loop over a vector that accumulates a sum computes the sum of the
list of terms. -/
theorem forEach_add_eq_sum {K : Type} [LinearOrderedField K] (v : List Nat) (f : Nat → K)
    (e : K) : forEach v (fun x a => a + f x) e = e + (v.map f).sum := by
  induction v generalizing e with
  | nil => simp [forEach_nil]
  | cons x v ih => rw [forEach_cons, ih]; simp [add_assoc]

end LoopLemmas

/-! ## The growth loop -/

section Growth

variable {G K : Type} [LinearOrderedField K] {n : Nat}

/-- The body of the neighbour loop either leaves marker, cluster and buffer
as they are, or marks an unmarked neighbour and pushes it on both vectors. -/
theorem tryNeighbour_cases (c : Collab G K n) (m : ON_Model_Ngeq2 K n) (r : Vector_NDim K n)
    (rDotRef : K) (latticeSite i : Nat) (s : GrowState G) :
    ((m.tryNeighbour c r rDotRef latticeSite i s).inCluster = s.inCluster ∧
      (m.tryNeighbour c r rDotRef latticeSite i s).cluster = s.cluster ∧
      (m.tryNeighbour c r rDotRef latticeSite i s).buffer = s.buffer) ∨
    (s.inCluster (c.getNeighbour latticeSite i) = false ∧
      (m.tryNeighbour c r rDotRef latticeSite i s).inCluster =
        Function.update s.inCluster (c.getNeighbour latticeSite i) true ∧
      (m.tryNeighbour c r rDotRef latticeSite i s).cluster =
        s.cluster ++ [c.getNeighbour latticeSite i] ∧
      (m.tryNeighbour c r rDotRef latticeSite i s).buffer =
        s.buffer ++ [c.getNeighbour latticeSite i]) := by
  unfold ON_Model_Ngeq2.tryNeighbour
  simp only
  split_ifs with h1 h2 h3
  · exact Or.inl ⟨rfl, rfl, rfl⟩
  · refine Or.inr ⟨?_, rfl, rfl, rfl⟩
    simpa using h2
  · exact Or.inl ⟨rfl, rfl, rfl⟩
  · exact Or.inl ⟨rfl, rfl, rfl⟩

/-- Marking an unmarked site and pushing it on both vectors keeps the
invariant of the growth loop. -/
theorem GrowInv.push {N : Nat} {s s1 : GrowState G} (x : Nat) (h : GrowInv N s) (hx : x < N)
    (hun : s.inCluster x = false)
    (hin : s1.inCluster = Function.update s.inCluster x true)
    (hcl : s1.cluster = s.cluster ++ [x]) (hbuf : s1.buffer = s.buffer ++ [x]) :
    GrowInv N s1 := by
  have hxc : x ∉ s.cluster := by
    intro hmem
    have := (h.marked x hx).2 hmem
    rw [hun] at this
    exact Bool.false_ne_true this
  have hxb : x ∉ s.buffer := fun hmem => hxc (h.buf_sub x hmem)
  refine ⟨?_, ?_, ?_, ?_, ?_⟩
  · rw [hcl]
    exact List.Nodup.append h.nodup (List.nodup_singleton x) (by simpa using hxc)
  · intro i hi
    rw [hcl, List.mem_append, List.mem_singleton] at hi
    rcases hi with hi | hi
    · exact h.lt i hi
    · exact hi ▸ hx
  · intro i hi
    rw [hin, hcl, List.mem_append, List.mem_singleton]
    by_cases hix : i = x
    · subst hix; simp
    · rw [Function.update_noteq hix]
      constructor
      · intro hm; exact Or.inl ((h.marked i hi).1 hm)
      · intro hm
        rcases hm with hm | hm
        · exact (h.marked i hi).2 hm
        · exact absurd hm hix
  · rw [hbuf]
    exact List.Nodup.append h.buf_nodup (List.nodup_singleton x) (by simpa using hxb)
  · intro i hi
    rw [hbuf, List.mem_append, List.mem_singleton] at hi
    rw [hcl, List.mem_append, List.mem_singleton]
    rcases hi with hi | hi
    · exact Or.inl (h.buf_sub i hi)
    · exact Or.inr hi

/-- The invariant depends on marker, cluster and buffer only. -/
theorem GrowInv.congr {N : Nat} {s s1 : GrowState G} (h : GrowInv N s)
    (hin : s1.inCluster = s.inCluster) (hcl : s1.cluster = s.cluster)
    (hbuf : s1.buffer = s.buffer) : GrowInv N s1 := by
  refine ⟨?_, ?_, ?_, ?_, ?_⟩
  · rw [hcl]; exact h.nodup
  · rw [hcl]; exact h.lt
  · rw [hin, hcl]; exact h.marked
  · rw [hbuf]; exact h.buf_nodup
  · rw [hbuf, hcl]; exact h.buf_sub

/-- Popping the back of the buffer keeps the invariant. -/
theorem GrowInv.pop {N : Nat} {s : GrowState G} (h : GrowInv N s) :
    GrowInv N { s with buffer := s.buffer.dropLast } := by
  refine ⟨h.nodup, h.lt, h.marked, ?_, ?_⟩
  · exact List.Nodup.sublist (List.dropLast_sublist _) h.buf_nodup
  · intro i hi
    exact h.buf_sub i (List.mem_of_mem_dropLast hi)

/-- The invariant after the seeding of the cluster. -/
theorem seedState_inv (m : ON_Model_Ngeq2 K n) (x : Nat) (g : G) (hclear : m.AllClear)
    (hx : x < m.N_) : GrowInv m.N_ (m.seedState x g) := by
  refine ⟨by simp [ON_Model_Ngeq2.seedState], ?_, ?_, by simp [ON_Model_Ngeq2.seedState], ?_⟩
  · intro i hi
    simp [ON_Model_Ngeq2.seedState] at hi
    exact hi ▸ hx
  · intro i hi
    simp only [ON_Model_Ngeq2.seedState, List.mem_singleton]
    by_cases hix : i = x
    · subst hix; simp
    · rw [Function.update_noteq hix, hclear i hi]
      simp [hix]
  · intro i hi
    simpa [ON_Model_Ngeq2.seedState] using hi

/-- The body of the neighbour loop keeps the invariant, the number of pops
made so far (cluster length minus buffer length), and never shortens the
cluster. -/
theorem tryNeighbour_inv (c : Collab G K n) (m : ON_Model_Ngeq2 K n) (r : Vector_NDim K n)
    (rDotRef : K) (latticeSite i : Nat) (s : GrowState G) {N : Nat}
    (hnb : c.getNeighbour latticeSite i < N) (h : GrowInv N s) :
    GrowInv N (m.tryNeighbour c r rDotRef latticeSite i s) ∧
    (m.tryNeighbour c r rDotRef latticeSite i s).cluster.length + s.buffer.length =
      s.cluster.length + (m.tryNeighbour c r rDotRef latticeSite i s).buffer.length ∧
    s.cluster <+: (m.tryNeighbour c r rDotRef latticeSite i s).cluster := by
  rcases tryNeighbour_cases c m r rDotRef latticeSite i s with ⟨h1, h2, h3⟩ | ⟨h0, h1, h2, h3⟩
  · exact ⟨h.congr h1 h2 h3, by rw [h2, h3], by rw [h2]⟩
  · refine ⟨h.push _ hnb h0 h1 h2 h3, by rw [h2, h3]; simp; omega, ?_⟩
    rw [h2]; exact List.prefix_append _ _

/-- A list of sites without duplicate has at most `N` elements. -/
theorem length_le_of_nodup_lt {N : Nat} {l : List Nat} (hnd : l.Nodup)
    (hlt : ∀ i, i ∈ l → i < N) : l.length ≤ N := by
  have hsub : l.toFinset ⊆ Finset.range N := by
    intro i hi
    exact Finset.mem_range.2 (hlt i (List.mem_toFinset.1 hi))
  have hcard := Finset.card_le_card hsub
  rw [List.toFinset_card_of_nodup hnd, Finset.card_range] at hcard
  exact hcard

/-- The expansion of a popped cluster site keeps the invariant and any
property `P` that the body of the neighbour loop keeps, keeps the number of
pops made so far, and never shortens the cluster. -/
theorem expandSite_inv (c : Collab G K n) (m : ON_Model_Ngeq2 K n) (r : Vector_NDim K n)
    (hwf : c.WellFormed m.N_ m.D_) (P : GrowState G → Prop)
    (htry : ∀ (a : GrowState G) (site i : Nat) (rDotRef : K), GrowInv m.N_ a →
      site ∈ a.cluster → i < 2 * m.D_ → P a → P (m.tryNeighbour c r rDotRef site i a))
    (latticeSite : Nat) (s : GrowState G) (h : GrowInv m.N_ s) (hP : P s)
    (hsite : latticeSite ∈ s.cluster) :
    GrowInv m.N_ (m.expandSite c r latticeSite s) ∧ P (m.expandSite c r latticeSite s) ∧
    (m.expandSite c r latticeSite s).cluster.length + s.buffer.length =
      s.cluster.length + (m.expandSite c r latticeSite s).buffer.length ∧
    s.cluster <+: (m.expandSite c r latticeSite s).cluster := by
  unfold ON_Model_Ngeq2.expandSite
  simp only
  refine forLoop_inv
    (fun a => GrowInv m.N_ a ∧ P a ∧
      a.cluster.length + s.buffer.length = s.cluster.length + a.buffer.length ∧
      s.cluster <+: a.cluster) _ _ s ⟨h, hP, rfl, List.prefix_refl _⟩ ?_
  intro i a hi ha
  obtain ⟨ha1, haP, ha2, ha3⟩ := ha
  have hmem : latticeSite ∈ a.cluster := ha3.subset hsite
  have hnb : c.getNeighbour latticeSite i < m.N_ :=
    hwf.neighbour_lt latticeSite i (ha1.lt _ hmem) hi
  obtain ⟨hb1, hb2, hb3⟩ := tryNeighbour_inv c m r _ latticeSite i a hnb ha1
  exact ⟨hb1, htry a latticeSite i _ ha1 hmem hi haP, by omega, ha3.trans hb3⟩

/-- The growth loop returns when its bound is at least the number of
unmarked sites plus the length of the buffer; at its exit the buffer is
empty, and the invariant and any property `P` kept by a pop and by the body
of the neighbour loop hold. -/
theorem growLoop_run (c : Collab G K n) (m : ON_Model_Ngeq2 K n) (r : Vector_NDim K n)
    (hwf : c.WellFormed m.N_ m.D_) (P : GrowState G → Prop)
    (hpop : ∀ a : GrowState G, GrowInv m.N_ a → P a → P { a with buffer := a.buffer.dropLast })
    (htry : ∀ (a : GrowState G) (site i : Nat) (rDotRef : K), GrowInv m.N_ a →
      site ∈ a.cluster → i < 2 * m.D_ → P a → P (m.tryNeighbour c r rDotRef site i a))
    (fuel : Nat) (s : GrowState G) (h : GrowInv m.N_ s) (hP : P s)
    (hfuel : m.N_ + s.buffer.length ≤ fuel + s.cluster.length) :
    ∃ s1, ON_Model_Ngeq2.growLoop c m r fuel s = some s1 ∧ GrowInv m.N_ s1 ∧ P s1 ∧
      s1.buffer = [] ∧ s.cluster <+: s1.cluster := by
  induction fuel generalizing s with
  | zero =>
    have hlen := length_le_of_nodup_lt h.nodup h.lt
    have hb : s.buffer = [] := List.length_eq_zero.1 (by omega)
    exact ⟨s, by simp [ON_Model_Ngeq2.growLoop, hb], h, hP, hb, List.prefix_refl _⟩
  | succ fuel ih =>
    unfold ON_Model_Ngeq2.growLoop
    cases hlast : s.buffer.getLast? with
    | none =>
      have hb : s.buffer = [] := List.getLast?_eq_none_iff.1 hlast
      exact ⟨s, rfl, h, hP, hb, List.prefix_refl _⟩
    | some x =>
      have hxb : x ∈ s.buffer := List.mem_of_getLast?_eq_some hlast
      have hne : s.buffer ≠ [] := List.ne_nil_of_mem hxb
      have hpos : 0 < s.buffer.length := List.length_pos.2 hne
      have hdl : s.buffer.dropLast.length = s.buffer.length - 1 := List.length_dropLast _
      obtain ⟨e1, eP, e2, e3⟩ := expandSite_inv c m r hwf P htry x
        { s with buffer := s.buffer.dropLast } h.pop (hpop s h hP) (h.buf_sub x hxb)
      simp only at e2 e3
      obtain ⟨s1, g1, g2, gP, g3, g4⟩ := ih _ e1 eP (by omega)
      exact ⟨s1, g1, g2, gP, g3, e3.trans g4⟩

end Growth

/-! ## `clearCluster` and `flipCluster` -/

section Records

variable {G K : Type} [LinearOrderedField K] {n : Nat}

/-- The loop of `clearCluster`: the marker of every site of the vector is
false, every other marker is unchanged. -/
theorem clearLoop_eq (a : Nat → Bool) (cluster : List Nat) :
    forEach cluster (fun x a => Function.update a x false) a =
      fun i => if i ∈ cluster then false else a i := by
  induction cluster generalizing a with
  | nil => simp [forEach_nil]
  | cons x t ih =>
    rw [forEach_cons, ih]
    funext i
    by_cases hit : i ∈ t
    · simp [hit]
    · by_cases hix : i = x
      · subst hix; simp [hit]
      · simp [hit, hix, Function.update_noteq hix]

/-- The effect of `clearCluster` on the marker array. -/
theorem clearCluster_inCluster (m : ON_Model_Ngeq2 K n) (cluster : List Nat) :
    (m.clearCluster cluster).inCluster_ = fun i => if i ∈ cluster then false else m.inCluster_ i :=
  clearLoop_eq m.inCluster_ cluster

/-- The loop of `flipCluster` on a vector without duplicate: every site of
the vector holds its reflected spin, every other spin is unchanged. -/
theorem flipLoop_eq (sqrt : K → K) (r : Vector_NDim K n) (a : Nat → Vector_NDim K n)
    (cluster : List Nat) (hnd : cluster.Nodup) :
    forEach cluster (fun x a =>
      Function.update a x (Vector_NDim.getReflectionAndNormalize sqrt (a x) r)) a =
      fun i => if i ∈ cluster then Vector_NDim.getReflectionAndNormalize sqrt (a i) r
        else a i := by
  induction cluster generalizing a with
  | nil => simp [forEach_nil]
  | cons x t ih =>
    rw [forEach_cons, ih _ (List.nodup_cons.1 hnd).2]
    have hxt : x ∉ t := (List.nodup_cons.1 hnd).1
    funext i
    by_cases hit : i ∈ t
    · have hix : i ≠ x := fun e => hxt (e ▸ hit)
      simp [hit, hix, Function.update_noteq hix]
    · by_cases hix : i = x
      · subst hix; simp [hit]
      · simp [hit, hix, Function.update_noteq hix]

/-- The effect of `flipCluster` on the spins, for a vector without
duplicate. -/
theorem flipCluster_spins (c : Collab G K n) (m : ON_Model_Ngeq2 K n) (cluster : List Nat)
    (r : Vector_NDim K n) (hnd : cluster.Nodup) :
    (m.flipCluster c cluster r).spins_ = fun i =>
      if i ∈ cluster then Vector_NDim.getReflectionAndNormalize c.sqrt (m.spins_ i) r
      else m.spins_ i :=
  flipLoop_eq c.sqrt r m.spins_ cluster hnd

/-- The loop of `flipCluster` leaves the spin of a site outside the vector
unchanged. -/
theorem flipLoop_not_mem (sqrt : K → K) (r : Vector_NDim K n) (a : Nat → Vector_NDim K n)
    (cluster : List Nat) (i : Nat) (hi : i ∉ cluster) :
    forEach cluster (fun x a =>
      Function.update a x (Vector_NDim.getReflectionAndNormalize sqrt (a x) r)) a i = a i := by
  induction cluster generalizing a with
  | nil => simp [forEach_nil]
  | cons x t ih =>
    rw [forEach_cons, ih _ (fun h => hi (List.mem_cons_of_mem _ h))]
    exact Function.update_noteq (fun e : i = x => hi (by rw [e]; exact List.mem_cons_self _ _)) _ _

end Records

/-! ## The Wolff update -/

section Wolff

variable {G K : Type} [LinearOrderedField K] {n : Nat}

/-- The first part of `wolffUpdate` returns when the bound of the loop is at
least the number of sites: it yields the axis drawn first and a state of the
loop with an empty buffer, the invariant, and any property `P` that holds
after the seeding and is kept by a pop and by the body of the neighbour
loop. -/
theorem growCluster_run (c : Collab G K n) (m : ON_Model_Ngeq2 K n) (g : G)
    (start end_ fuel : Nat) (hwf : c.WellFormed m.N_ m.D_) (hN : 0 < m.N_)
    (hclear : m.AllClear) (hfuel : m.N_ ≤ fuel) (P : GrowState G → Prop)
    (hpop : ∀ a : GrowState G, GrowInv m.N_ a → P a → P { a with buffer := a.buffer.dropLast })
    (htry : ∀ (a : GrowState G) (site i : Nat) (rDotRef : K), GrowInv m.N_ a →
      site ∈ a.cluster → i < 2 * m.D_ → P a →
      P (m.tryNeighbour c (c.randVec g start end_).1 rDotRef site i a))
    (hP : P (m.seedState (c.randInt (c.randVec g start end_).2 (m.N_ - 1)).1
      (c.randInt (c.randVec g start end_).2 (m.N_ - 1)).2)) :
    ∃ s, m.growCluster c fuel g start end_ = some ((c.randVec g start end_).1, s) ∧
      GrowInv m.N_ s ∧ P s ∧ s.buffer = [] ∧
      [(c.randInt (c.randVec g start end_).2 (m.N_ - 1)).1] <+: s.cluster := by
  have hseed : (c.randInt (c.randVec g start end_).2 (m.N_ - 1)).1 < m.N_ := by
    have := hwf.randInt_le (c.randVec g start end_).2 (m.N_ - 1)
    omega
  obtain ⟨s1, h1, h2, h3, h4, h5⟩ := growLoop_run c m (c.randVec g start end_).1 hwf P hpop htry
    fuel _ (seedState_inv m _ (c.randInt (c.randVec g start end_).2 (m.N_ - 1)).2 hclear hseed)
    hP (by simp [ON_Model_Ngeq2.seedState]; omega)
  refine ⟨s1, ?_, h2, h3, h4, h5⟩
  unfold ON_Model_Ngeq2.growCluster
  simp only [h1]

/-- The members that the second part of `wolffUpdate` leaves unchanged, and
the marker array that it leaves. -/
theorem finishCluster_frame (c : Collab G K n) (m : ON_Model_Ngeq2 K n) (r : Vector_NDim K n)
    (cluster : List Nat) (g : G) (pr : Bool) :
    (ON_Model_Ngeq2.finishCluster c m r cluster g pr).1.N_ = m.N_ ∧
    (ON_Model_Ngeq2.finishCluster c m r cluster g pr).1.D_ = m.D_ ∧
    (ON_Model_Ngeq2.finishCluster c m r cluster g pr).1.J_ = m.J_ ∧
    (ON_Model_Ngeq2.finishCluster c m r cluster g pr).1.h_ = m.h_ ∧
    (ON_Model_Ngeq2.finishCluster c m r cluster g pr).1.T_ = m.T_ ∧
    (ON_Model_Ngeq2.finishCluster c m r cluster g pr).1.writeClusts_ = m.writeClusts_ ∧
    (ON_Model_Ngeq2.finishCluster c m r cluster g pr).1.warmupDone = m.warmupDone ∧
    (ON_Model_Ngeq2.finishCluster c m r cluster g pr).1.numAccept_local_ = m.numAccept_local_ ∧
    (ON_Model_Ngeq2.finishCluster c m r cluster g pr).1.inCluster_ =
      fun i => if i ∈ cluster then false else m.inCluster_ i := by
  unfold ON_Model_Ngeq2.finishCluster
  simp only
  split_ifs <;>
    simp [ON_Model_Ngeq2.clearCluster, ON_Model_Ngeq2.flipCluster, clearLoop_eq]

/-- The marker array is all false after the second part of `wolffUpdate`
when it marks cluster sites only. -/
theorem finishCluster_allClear (c : Collab G K n) (m : ON_Model_Ngeq2 K n)
    (r : Vector_NDim K n) (s : GrowState G) (pr : Bool) (h : GrowInv m.N_ s) :
    (ON_Model_Ngeq2.finishCluster c { m with inCluster_ := s.inCluster } r s.cluster s.rng
      pr).1.AllClear := by
  obtain ⟨hN, -, -, -, -, -, -, -, hin⟩ :=
    finishCluster_frame c { m with inCluster_ := s.inCluster } r s.cluster s.rng pr
  intro i hi
  rw [hN] at hi
  rw [hin]
  by_cases hic : i ∈ s.cluster
  · simp [hic]
  · simp only [hic, if_false]
    cases hb : s.inCluster i with
    | false => rfl
    | true => exact absurd ((h.marked i hi).1 hb) hic

/-- The result of `wolffUpdate`: it returns when the bound of the loop is at
least the number of sites, and its result is the second part of the update
run on a state `s` of the loop that has an empty buffer, satisfies the
invariant, and whose cluster starts with the seed. -/
theorem wolffUpdate_run (c : Collab G K n) (m : ON_Model_Ngeq2 K n) (g : G)
    (start end_ fuel : Nat) (pr : Bool) (hwf : c.WellFormed m.N_ m.D_) (hN : 0 < m.N_)
    (hclear : m.AllClear) (hfuel : m.N_ ≤ fuel) :
    ∃ s, GrowInv m.N_ s ∧ s.buffer = [] ∧
      [(c.randInt (c.randVec g start end_).2 (m.N_ - 1)).1] <+: s.cluster ∧
      m.growCluster c fuel g start end_ = some ((c.randVec g start end_).1, s) ∧
      m.wolffUpdate c fuel g start end_ pr =
        some (ON_Model_Ngeq2.finishCluster c { m with inCluster_ := s.inCluster }
          (c.randVec g start end_).1 s.cluster s.rng pr) := by
  obtain ⟨s, h1, h2, -, h4, h5⟩ := growCluster_run c m g start end_ fuel hwf hN hclear hfuel
    (fun _ => True) (fun _ _ _ => trivial) (fun _ _ _ _ _ _ _ _ => trivial) trivial
  refine ⟨s, h2, h4, h5, h1, ?_⟩
  unfold ON_Model_Ngeq2.wolffUpdate
  simp only [h1]

/-- The accept/reject step of `wolffUpdate`, by the sign of
`onsiteEnergy_diff`: when it is not positive no draw is consumed, the counter
is incremented and the cluster stays flipped; when it is positive one draw
`u` is consumed, and the counter is incremented and the cluster stays flipped
if `u < exp (-onsiteEnergy_diff / T)`, while the counter is unchanged and the
cluster is flipped back otherwise. -/
theorem finishCluster_cases (c : Collab G K n) (m : ON_Model_Ngeq2 K n) (r : Vector_NDim K n)
    (cluster : List Nat) (g : G) (pr : Bool) :
    (¬ 0 < m.onsiteEnergyDiff c cluster r →
      (ON_Model_Ngeq2.finishCluster c m r cluster g pr).2 = g ∧
      (ON_Model_Ngeq2.finishCluster c m r cluster g pr).1.numAccept_clust_ =
        m.numAccept_clust_ + 1 ∧
      (ON_Model_Ngeq2.finishCluster c m r cluster g pr).1.spins_ =
        (m.flipCluster c cluster r).spins_) ∧
    (0 < m.onsiteEnergyDiff c cluster r →
      (ON_Model_Ngeq2.finishCluster c m r cluster g pr).2 = (c.randDblExc g).2 ∧
      ((c.randDblExc g).1 < c.exp ((-1) * m.onsiteEnergyDiff c cluster r / m.T_) →
        (ON_Model_Ngeq2.finishCluster c m r cluster g pr).1.numAccept_clust_ =
          m.numAccept_clust_ + 1 ∧
        (ON_Model_Ngeq2.finishCluster c m r cluster g pr).1.spins_ =
          (m.flipCluster c cluster r).spins_) ∧
      (c.exp ((-1) * m.onsiteEnergyDiff c cluster r / m.T_) ≤ (c.randDblExc g).1 →
        (ON_Model_Ngeq2.finishCluster c m r cluster g pr).1.numAccept_clust_ =
          m.numAccept_clust_ ∧
        (ON_Model_Ngeq2.finishCluster c m r cluster g pr).1.spins_ =
          ((m.flipCluster c cluster r).flipCluster c cluster r).spins_)) := by
  unfold ON_Model_Ngeq2.finishCluster ON_Model_Ngeq2.onsiteEnergyDiff
  simp only
  refine ⟨fun hd => ?_, fun hd => ⟨?_, fun hu => ?_, fun hu => ?_⟩⟩
  · rw [if_neg hd]
    cases hw : m.writeClusts_ <;>
      simp [ON_Model_Ngeq2.clearCluster, ON_Model_Ngeq2.flipCluster, hw]
  · rw [if_pos hd]
    split_ifs <;> rfl
  · rw [if_pos hd]
    have hu1 : ¬ c.exp ((-1) * ((m.flipCluster c cluster r).getClusterOnSiteEnergy cluster -
        m.getClusterOnSiteEnergy cluster) / (if (m.flipCluster c cluster r).writeClusts_ = true
          then { (m.flipCluster c cluster r) with
                  clustSizes_ := bump (m.flipCluster c cluster r).clustSizes_
                    (if (pr || (m.flipCluster c cluster r).writeClusts_) = true
                      then cluster.length else 0) }
          else m.flipCluster c cluster r).T_) ≤ (c.randDblExc g).1 := by
      have hT : (if (m.flipCluster c cluster r).writeClusts_ = true
          then { (m.flipCluster c cluster r) with
                  clustSizes_ := bump (m.flipCluster c cluster r).clustSizes_
                    (if (pr || (m.flipCluster c cluster r).writeClusts_) = true
                      then cluster.length else 0) }
          else m.flipCluster c cluster r).T_ = m.T_ := by
        split_ifs <;> rfl
      rw [hT]
      exact not_le.2 hu
    rw [if_neg hu1]
    cases hw : m.writeClusts_ <;>
      simp [ON_Model_Ngeq2.clearCluster, ON_Model_Ngeq2.flipCluster, hw]
  · rw [if_pos hd]
    have hu1 : c.exp ((-1) * ((m.flipCluster c cluster r).getClusterOnSiteEnergy cluster -
        m.getClusterOnSiteEnergy cluster) / (if (m.flipCluster c cluster r).writeClusts_ = true
          then { (m.flipCluster c cluster r) with
                  clustSizes_ := bump (m.flipCluster c cluster r).clustSizes_
                    (if (pr || (m.flipCluster c cluster r).writeClusts_) = true
                      then cluster.length else 0) }
          else m.flipCluster c cluster r).T_) ≤ (c.randDblExc g).1 := by
      have hT : (if (m.flipCluster c cluster r).writeClusts_ = true
          then { (m.flipCluster c cluster r) with
                  clustSizes_ := bump (m.flipCluster c cluster r).clustSizes_
                    (if (pr || (m.flipCluster c cluster r).writeClusts_) = true
                      then cluster.length else 0) }
          else m.flipCluster c cluster r).T_ = m.T_ := by
        split_ifs <;> rfl
      rw [hT]
      exact hu
    rw [if_pos hu1]
    cases hw : m.writeClusts_ <;>
      simp [ON_Model_Ngeq2.clearCluster, ON_Model_Ngeq2.flipCluster, hw]

/-- The histograms after the second part of `wolffUpdate`. Without cluster
tracking nothing changes. With cluster tracking the histogram of generated
clusters is incremented at the index `cluster.size() - 1`, and so is exactly
one of the histograms of accepted and of rejected clusters. -/
theorem finishCluster_histo (c : Collab G K n) (m : ON_Model_Ngeq2 K n) (r : Vector_NDim K n)
    (cluster : List Nat) (g : G) (pr : Bool) :
    (m.writeClusts_ = false →
      (ON_Model_Ngeq2.finishCluster c m r cluster g pr).1.clustSizes_ = m.clustSizes_ ∧
      (ON_Model_Ngeq2.finishCluster c m r cluster g pr).1.clustSizes_accepted_ =
        m.clustSizes_accepted_ ∧
      (ON_Model_Ngeq2.finishCluster c m r cluster g pr).1.clustSizes_rejected_ =
        m.clustSizes_rejected_) ∧
    (m.writeClusts_ = true →
      (ON_Model_Ngeq2.finishCluster c m r cluster g pr).1.clustSizes_ =
        bump m.clustSizes_ cluster.length ∧
      (((ON_Model_Ngeq2.finishCluster c m r cluster g pr).1.clustSizes_accepted_ =
          bump m.clustSizes_accepted_ cluster.length ∧
        (ON_Model_Ngeq2.finishCluster c m r cluster g pr).1.clustSizes_rejected_ =
          m.clustSizes_rejected_) ∨
       ((ON_Model_Ngeq2.finishCluster c m r cluster g pr).1.clustSizes_accepted_ =
          m.clustSizes_accepted_ ∧
        (ON_Model_Ngeq2.finishCluster c m r cluster g pr).1.clustSizes_rejected_ =
          bump m.clustSizes_rejected_ cluster.length))) := by
  unfold ON_Model_Ngeq2.finishCluster
  simp only
  refine ⟨fun hw => ?_, fun hw => ?_⟩
  · split_ifs <;> simp_all [ON_Model_Ngeq2.clearCluster, ON_Model_Ngeq2.flipCluster]
  · split_ifs <;> simp_all [ON_Model_Ngeq2.clearCluster, ON_Model_Ngeq2.flipCluster]

/-- The members that `localUpdate` leaves unchanged. -/
theorem localUpdate_frame (c : Collab G K n) (m : ON_Model_Ngeq2 K n) (g : G) :
    (m.localUpdate c g).1.N_ = m.N_ ∧ (m.localUpdate c g).1.D_ = m.D_ ∧
    (m.localUpdate c g).1.J_ = m.J_ ∧ (m.localUpdate c g).1.h_ = m.h_ ∧
    (m.localUpdate c g).1.T_ = m.T_ ∧
    (m.localUpdate c g).1.writeClusts_ = m.writeClusts_ ∧
    (m.localUpdate c g).1.warmupDone = m.warmupDone ∧
    (m.localUpdate c g).1.inCluster_ = m.inCluster_ ∧
    (m.localUpdate c g).1.numAccept_clust_ = m.numAccept_clust_ ∧
    (m.localUpdate c g).1.clustSizes_ = m.clustSizes_ ∧
    (m.localUpdate c g).1.clustSizes_accepted_ = m.clustSizes_accepted_ ∧
    (m.localUpdate c g).1.clustSizes_rejected_ = m.clustSizes_rejected_ := by
  unfold ON_Model_Ngeq2.localUpdate
  simp only
  split_ifs <;> simp

/-- The standing assumptions hold again after `localUpdate`. -/
theorem Ready.localUpdate {c : Collab G K n} {fuel : Nat} {m : ON_Model_Ngeq2 K n}
    (h : m.Ready c fuel) (g : G) : (m.localUpdate c g).1.Ready c fuel := by
  obtain ⟨hN, hD, -, -, -, -, -, hin, -⟩ := localUpdate_frame c m g
  refine ⟨by rw [hN, hD]; exact h.wf, by rw [hN]; exact h.pos, ?_, by rw [hN]; exact h.fuel_ge⟩
  intro i hi
  rw [hN] at hi
  rw [hin]
  exact h.clear i hi

/-- Under the standing assumptions `wolffUpdate` returns, its result is the
second part of the update run on an exit state `s` of the growth loop, and
the standing assumptions hold again in the state it returns. -/
theorem Ready.wolffUpdate {c : Collab G K n} {fuel : Nat} {m : ON_Model_Ngeq2 K n}
    (h : m.Ready c fuel) (g : G) (start end_ : Nat) (pr : Bool) :
    ∃ s, GrowInv m.N_ s ∧ s.buffer = [] ∧
      [(c.randInt (c.randVec g start end_).2 (m.N_ - 1)).1] <+: s.cluster ∧
      m.growCluster c fuel g start end_ = some ((c.randVec g start end_).1, s) ∧
      m.wolffUpdate c fuel g start end_ pr =
        some (ON_Model_Ngeq2.finishCluster c { m with inCluster_ := s.inCluster }
          (c.randVec g start end_).1 s.cluster s.rng pr) ∧
      (ON_Model_Ngeq2.finishCluster c { m with inCluster_ := s.inCluster }
          (c.randVec g start end_).1 s.cluster s.rng pr).1.Ready c fuel := by
  obtain ⟨s, h1, h2, h3, h4, h5⟩ :=
    wolffUpdate_run c m g start end_ fuel pr h.wf h.pos h.clear h.fuel_ge
  refine ⟨s, h1, h2, h3, h4, h5, ?_⟩
  obtain ⟨hN, hD, -⟩ := finishCluster_frame c { m with inCluster_ := s.inCluster }
    (c.randVec g start end_).1 s.cluster s.rng pr
  exact ⟨by rw [hN, hD]; exact h.wf, by rw [hN]; exact h.pos,
    finishCluster_allClear c m _ s pr h1, by rw [hN]; exact h.fuel_ge⟩

/-- Without field the onsite energy of every cluster is zero. -/
theorem getClusterOnSiteEnergy_h0 (m : ON_Model_Ngeq2 K n) (cluster : List Nat)
    (hh : m.h_ = 0) : m.getClusterOnSiteEnergy cluster = 0 := by
  unfold ON_Model_Ngeq2.getClusterOnSiteEnergy
  simp [hh]

/-- Without field `onsiteEnergy_diff` is zero. -/
theorem onsiteEnergyDiff_h0 (c : Collab G K n) (m : ON_Model_Ngeq2 K n) (cluster : List Nat)
    (r : Vector_NDim K n) (hh : m.h_ = 0) : m.onsiteEnergyDiff c cluster r = 0 := by
  unfold ON_Model_Ngeq2.onsiteEnergyDiff
  rw [getClusterOnSiteEnergy_h0 m cluster hh,
    getClusterOnSiteEnergy_h0 (m.flipCluster c cluster r) cluster hh, sub_zero]

/-- Without field every Wolff update of a sequence of calls is accepted: the
sequence returns and the counter of accepted cluster moves has grown by the
number of Wolff updates of the sequence. -/
theorem runCalls_accept_h0 (c : Collab G K n) (fuel : Nat) (calls : List Call)
    (m : ON_Model_Ngeq2 K n) (g : G) (h : m.Ready c fuel) (hh : m.h_ = 0) :
    ∃ res, ON_Model_Ngeq2.runCalls c fuel calls (m, g) = some res ∧
      res.1.numAccept_clust_ = m.numAccept_clust_ + calls.countP Call.isWolff := by
  induction calls generalizing m g with
  | nil => exact ⟨(m, g), rfl, by simp⟩
  | cons call calls ih =>
    cases call with
    | localUpdate =>
      obtain ⟨-, -, -, h4, -, -, -, -, h9, -⟩ := localUpdate_frame c m g
      obtain ⟨res, r1, r2⟩ := ih (m.localUpdate c g).1 (m.localUpdate c g).2
        (Ready.localUpdate h g) (by rw [h4]; exact hh)
      refine ⟨res, ?_, ?_⟩
      · simp only [ON_Model_Ngeq2.runCalls, ON_Model_Ngeq2.runCall]
        exact r1
      · rw [r2, h9]
        simp [Call.isWolff]
    | wolffUpdate start end_ pr =>
      obtain ⟨s, -, -, -, -, w5, w6⟩ := Ready.wolffUpdate h g start end_ pr
      obtain ⟨-, -, -, f4, -⟩ := finishCluster_frame c { m with inCluster_ := s.inCluster }
        (c.randVec g start end_).1 s.cluster s.rng pr
      have hd : ¬ 0 < ON_Model_Ngeq2.onsiteEnergyDiff c { m with inCluster_ := s.inCluster }
          s.cluster (c.randVec g start end_).1 := by
        rw [onsiteEnergyDiff_h0 c { m with inCluster_ := s.inCluster } _ _ hh]
        exact lt_irrefl 0
      obtain ⟨-, a2, -⟩ := (finishCluster_cases c { m with inCluster_ := s.inCluster }
        (c.randVec g start end_).1 s.cluster s.rng pr).1 hd
      obtain ⟨res, r1, r2⟩ := ih _ (ON_Model_Ngeq2.finishCluster c
        { m with inCluster_ := s.inCluster } (c.randVec g start end_).1 s.cluster s.rng pr).2
        w6 (by rw [f4]; exact hh)
      refine ⟨res, ?_, ?_⟩
      · simp only [ON_Model_Ngeq2.runCalls, ON_Model_Ngeq2.runCall, w5]
        exact r1
      · rw [r2, a2]
        simp [Call.isWolff]
        omega

/-- The collaborators of the chain are well-formed for the chain. -/
theorem chainCollab_wf (u : ℚ) : (chainCollab u).WellFormed 4 1 := by
  refine ⟨?_, ?_⟩
  · intro g max
    exact Nat.le_of_lt_succ (Nat.mod_lt _ (Nat.succ_pos _))
  · intro i d _ _
    show chainNeighbour i d < 4
    unfold chainNeighbour
    split_ifs <;> omega

/-- The standing assumptions hold for the chain model and a bound of four
iterations. -/
theorem chainModel_ready (u : ℚ) : chainModel.Ready (chainCollab u) 4 :=
  ⟨chainCollab_wf u, by decide, fun _ _ => rfl, by decide⟩

/-- Every state that the growth loop passes through satisfies the invariant,
and its cluster is the log of the sites pushed on the buffer. -/
theorem GrowReach.inv (c : Collab G K n) (m : ON_Model_Ngeq2 K n) (r : Vector_NDim K n)
    (x : Nat) (g : G) (hwf : c.WellFormed m.N_ m.D_) (hclear : m.AllClear) (hx : x < m.N_)
    (log : List Nat) (s : GrowState G) (h : GrowReach c m r x g log s) :
    GrowInv m.N_ s ∧ s.cluster = log := by
  induction h with
  | seed => exact ⟨seedState_inv m x g hclear hx, rfl⟩
  | pop log s _ ih => exact ⟨ih.1.pop, ih.2⟩
  | neighbour log s site i rDotRef _ hsite hi ih =>
    have hnb : c.getNeighbour site i < m.N_ := hwf.neighbour_lt site i (ih.1.lt _ hsite) hi
    refine ⟨(tryNeighbour_inv c m r rDotRef site i s hnb ih.1).1, ?_⟩
    rcases tryNeighbour_cases c m r rDotRef site i s with ⟨-, h2, h3⟩ | ⟨-, -, h2, h3⟩
    · rw [h2, h3, ih.2]; simp
    · rw [h2, h3, ih.2]; simp

/-- The marker array of the chain model is all false. -/
theorem chainModel_allClear : chainModel.AllClear := fun _ _ => rfl

end Wolff

/-! ## The energy -/

section Energy

variable {G K : Type} [LinearOrderedField K] {n : Nat}

theorem dot_comm (a b : Vector_NDim K n) : Vector_NDim.dot a b = Vector_NDim.dot b a := by
  unfold Vector_NDim.dot
  exact Finset.sum_congr rfl (fun i _ => mul_comm _ _)

theorem dot_add_left (a b v : Vector_NDim K n) :
    Vector_NDim.dot (Vector_NDim.add a b) v = Vector_NDim.dot a v + Vector_NDim.dot b v := by
  unfold Vector_NDim.dot Vector_NDim.add
  rw [← Finset.sum_add_distrib]
  exact Finset.sum_congr rfl (fun i _ => add_mul _ _ _)

theorem dot_zero_left (v : Vector_NDim K n) :
    Vector_NDim.dot (Vector_NDim.zero : Vector_NDim K n) v = 0 := by
  unfold Vector_NDim.dot Vector_NDim.zero
  simp

/-- The sum `energyJ` as a double sum over sites and forward directions. -/
theorem energyJ_eq_sum (c : Collab G K n) (m : ON_Model_Ngeq2 K n) :
    m.energyJ c = ∑ i in Finset.range m.N_, ∑ j in Finset.range m.D_,
      Vector_NDim.dot (m.spins_ i) (m.spins_ (c.getNeighbour i j)) := by
  unfold ON_Model_Ngeq2.energyJ
  have hin : (fun (i : Nat) (e : K) => forLoop m.D_ (fun j e1 =>
      e1 + Vector_NDim.dot (m.spins_ i) (m.spins_ (c.getNeighbour i j))) e) =
      fun i e => e + ∑ j in Finset.range m.D_,
        Vector_NDim.dot (m.spins_ i) (m.spins_ (c.getNeighbour i j)) := by
    funext i e
    exact forLoop_add_eq_sum m.D_ _ e
  rw [hin, forLoop_add_eq_sum, zero_add]

/-- The sum `energyh` as a sum over sites. -/
theorem energyh_eq_sum (m : ON_Model_Ngeq2 K n) :
    m.energyh = ∑ i in Finset.range m.N_, (m.spins_ i).v0 := by
  unfold ON_Model_Ngeq2.energyh
  rw [forLoop_add_eq_sum, zero_add]

/-- The inner product of the neighbour sum with a vector. -/
theorem dot_nnSum (c : Collab G K n) (m : ON_Model_Ngeq2 K n) (a : Nat) (v : Vector_NDim K n) :
    Vector_NDim.dot (m.nnSum c a) v = ∑ j in Finset.range m.D_,
      (Vector_NDim.dot (m.spins_ (c.getNeighbour a j)) v +
        Vector_NDim.dot (m.spins_ (c.getNeighbour a (j + m.D_))) v) := by
  unfold ON_Model_Ngeq2.nnSum
  have key : ∀ k : Nat, Vector_NDim.dot (forLoop k (fun i s =>
      Vector_NDim.add (Vector_NDim.add s (m.spins_ (c.getNeighbour a i)))
        (m.spins_ (c.getNeighbour a (i + m.D_)))) Vector_NDim.zero) v =
      ∑ j in Finset.range k, (Vector_NDim.dot (m.spins_ (c.getNeighbour a j)) v +
        Vector_NDim.dot (m.spins_ (c.getNeighbour a (j + m.D_))) v) := by
    intro k
    induction k with
    | zero => simp [forLoop_zero, dot_zero_left]
    | succ k ih =>
      rw [forLoop_succ, dot_add_left, dot_add_left, ih, Finset.sum_range_succ]
      ring
  exact key m.D_

/-- The change of `energyJ` when the spin of one site `a` is replaced by `v`,
on a periodic geometry: the inner product of the neighbour sum of `a` with
`v` minus its inner product with the previous spin of `a`. -/
theorem energyJ_update (c : Collab G K n) (m : ON_Model_Ngeq2 K n) (a : Nat)
    (v : Vector_NDim K n) (hwf : c.WellFormed m.N_ m.D_) (hper : c.Periodic m.N_ m.D_)
    (ha : a < m.N_) :
    ON_Model_Ngeq2.energyJ c { m with spins_ := Function.update m.spins_ a v } - m.energyJ c =
      Vector_NDim.dot (m.nnSum c a) v - Vector_NDim.dot (m.nnSum c a) (m.spins_ a) := by
  rw [energyJ_eq_sum, energyJ_eq_sum, dot_nnSum, dot_nnSum]
  simp only
  simp only [← Finset.sum_sub_distrib]
  rw [Finset.sum_comm]
  refine Finset.sum_congr rfl (fun j hj => ?_)
  have hj1 : j < m.D_ := Finset.mem_range.1 hj
  have hjD : j + m.D_ < 2 * m.D_ := by omega
  have hj2 : j < 2 * m.D_ := by omega
  have hb : c.getNeighbour a (j + m.D_) < m.N_ := hwf.neighbour_lt a _ ha hjD
  have hba : c.getNeighbour a (j + m.D_) ≠ a := hper.ne_self a _ ha hjD
  have hfa : c.getNeighbour a j ≠ a := hper.ne_self a _ ha hj2
  have hterm : ∀ i, i ∈ Finset.range m.N_ →
      Vector_NDim.dot (Function.update m.spins_ a v i)
          (Function.update m.spins_ a v (c.getNeighbour i j)) -
        Vector_NDim.dot (m.spins_ i) (m.spins_ (c.getNeighbour i j)) =
      (if i = a then Vector_NDim.dot v (m.spins_ (c.getNeighbour a j)) -
          Vector_NDim.dot (m.spins_ a) (m.spins_ (c.getNeighbour a j)) else 0) +
      (if i = c.getNeighbour a (j + m.D_) then
          Vector_NDim.dot (m.spins_ (c.getNeighbour a (j + m.D_))) v -
          Vector_NDim.dot (m.spins_ (c.getNeighbour a (j + m.D_))) (m.spins_ a) else 0) := by
    intro i hi
    have hiN : i < m.N_ := Finset.mem_range.1 hi
    by_cases hia : i = a
    · subst hia
      rw [if_pos rfl, if_neg (Ne.symm hba), Function.update_same,
        Function.update_noteq hfa, add_zero]
    · by_cases hib : i = c.getNeighbour a (j + m.D_)
      · have hfi : c.getNeighbour i j = a := by
          rw [hib]
          exact hper.fwd_back a j ha hj1
        rw [if_neg hia, if_pos hib, Function.update_noteq hia, hfi, Function.update_same,
          zero_add, hib]
      · have hfi : c.getNeighbour i j ≠ a := by
          intro e
          apply hib
          rw [← e]
          exact (hper.back_fwd i j hiN hj1).symm
        rw [if_neg hia, if_neg hib, Function.update_noteq hia, Function.update_noteq hfi,
          sub_self, add_zero]
  rw [Finset.sum_congr rfl hterm, Finset.sum_add_distrib,
    Finset.sum_ite_eq' (Finset.range m.N_) a, Finset.sum_ite_eq' (Finset.range m.N_)
      (c.getNeighbour a (j + m.D_)),
    if_pos (Finset.mem_range.2 ha), if_pos (Finset.mem_range.2 hb),
    dot_comm v (m.spins_ (c.getNeighbour a j)),
    dot_comm (m.spins_ a) (m.spins_ (c.getNeighbour a j)),
    dot_comm (m.spins_ (c.getNeighbour a (j + m.D_))) (m.spins_ a)]
  ring

/-- The change of `energyh` when the spin of one site `a` is replaced by
`v`. -/
theorem energyh_update (m : ON_Model_Ngeq2 K n) (a : Nat) (v : Vector_NDim K n)
    (ha : a < m.N_) :
    ON_Model_Ngeq2.energyh { m with spins_ := Function.update m.spins_ a v } - m.energyh =
      v.v0 - (m.spins_ a).v0 := by
  rw [energyh_eq_sum, energyh_eq_sum]
  simp only
  rw [← Finset.sum_sub_distrib]
  have hterm : ∀ i, i ∈ Finset.range m.N_ →
      (Function.update m.spins_ a v i).v0 - (m.spins_ i).v0 =
      if i = a then v.v0 - (m.spins_ a).v0 else 0 := by
    intro i _
    by_cases hia : i = a
    · subst hia
      rw [if_pos rfl, Function.update_same]
    · rw [if_neg hia, Function.update_noteq hia, sub_self]
  rw [Finset.sum_congr rfl hterm, Finset.sum_ite_eq' (Finset.range m.N_) a,
    if_pos (Finset.mem_range.2 ha)]

/-- The inner product of `s − k r` with a vector. -/
theorem dot_sub_smul (s r v : Vector_NDim K n) (k : K) :
    Vector_NDim.dot (fun i => s i - k * r i) v =
      Vector_NDim.dot s v - k * Vector_NDim.dot r v := by
  unfold Vector_NDim.dot
  rw [Finset.mul_sum, ← Finset.sum_sub_distrib]
  exact Finset.sum_congr rfl (fun i _ => by ring)

/-- The reflection of a unit vector about a unit axis has unit length. -/
theorem dot_reflect_self (s r : Vector_NDim K n) (hs : Vector_NDim.dot s s = 1)
    (hr : Vector_NDim.dot r r = 1) :
    Vector_NDim.dot (fun i => s i - 2 * Vector_NDim.dot s r * r i)
      (fun i => s i - 2 * Vector_NDim.dot s r * r i) = 1 := by
  rw [dot_sub_smul, dot_comm s, dot_comm r, dot_sub_smul, dot_sub_smul, hs, hr, dot_comm r s]
  ring

/-- For a unit vector and a unit axis, and `sqrt 1 = 1`, the renormalised
reflection is the reflection `s − 2 (s · r) r`. -/
theorem getReflectionAndNormalize_unit (sqrt : K → K) (hsqrt : sqrt 1 = 1)
    (s r : Vector_NDim K n) (hs : Vector_NDim.dot s s = 1) (hr : Vector_NDim.dot r r = 1) :
    Vector_NDim.getReflectionAndNormalize sqrt s r =
      fun i => s i - 2 * Vector_NDim.dot s r * r i := by
  unfold Vector_NDim.getReflectionAndNormalize Vector_NDim.normalize
  rw [dot_reflect_self s r hs hr, hsqrt]
  funext i
  exact div_one _

/-- For a unit vector and a unit axis, and `sqrt 1 = 1`, the reflection
applied twice gives the vector back. -/
theorem getReflectionAndNormalize_twice (sqrt : K → K) (hsqrt : sqrt 1 = 1)
    (s r : Vector_NDim K n) (hs : Vector_NDim.dot s s = 1) (hr : Vector_NDim.dot r r = 1) :
    Vector_NDim.getReflectionAndNormalize sqrt
      (Vector_NDim.getReflectionAndNormalize sqrt s r) r = s := by
  rw [getReflectionAndNormalize_unit sqrt hsqrt s r hs hr,
    getReflectionAndNormalize_unit sqrt hsqrt _ r (dot_reflect_self s r hs hr) hr,
    dot_sub_smul, hr]
  funext i
  ring

/-- Two functions on sites that agree outside a list of sites without
duplicate: the difference of their sums over the lattice is the difference
of their sums over the list. -/
theorem sum_range_sub_eq_list (N : Nat) (f1 f : Nat → K) (l : List Nat) (hnd : l.Nodup)
    (hlt : ∀ i, i ∈ l → i < N) (hout : ∀ i, i ∉ l → f1 i = f i) :
    (∑ i in Finset.range N, f1 i) - ∑ i in Finset.range N, f i =
      (l.map f1).sum - (l.map f).sum := by
  rw [← List.sum_toFinset f1 hnd, ← List.sum_toFinset f hnd, ← Finset.sum_sub_distrib,
    ← Finset.sum_sub_distrib]
  symm
  refine Finset.sum_subset ?_ ?_
  · intro i hi
    exact Finset.mem_range.2 (hlt i (List.mem_toFinset.1 hi))
  · intro i _ hi
    rw [hout i (fun hmem => hi (List.mem_toFinset.2 hmem)), sub_self]

/-- The onsite energy of a cluster as a sum over the list of its sites. -/
theorem getClusterOnSiteEnergy_eq_sum (m : ON_Model_Ngeq2 K n) (cluster : List Nat) :
    m.getClusterOnSiteEnergy cluster =
      (-1) * m.h_ * (cluster.map (fun x => (m.spins_ x).v0)).sum := by
  unfold ON_Model_Ngeq2.getClusterOnSiteEnergy
  simp only
  rw [forEach_add_eq_sum, zero_add]

/-- The change of the field term of the energy under `flipCluster`, for a
cluster of sites without duplicate, is `onsiteEnergy_diff`. -/
theorem field_diff_eq_onsiteEnergyDiff (c : Collab G K n) (m : ON_Model_Ngeq2 K n)
    (cluster : List Nat) (r : Vector_NDim K n) (hnd : cluster.Nodup)
    (hlt : ∀ i, i ∈ cluster → i < m.N_) :
    (-1) * m.h_ * (∑ i in Finset.range m.N_, ((m.flipCluster c cluster r).spins_ i).v0) -
      (-1) * m.h_ * (∑ i in Finset.range m.N_, (m.spins_ i).v0) =
      m.onsiteEnergyDiff c cluster r := by
  unfold ON_Model_Ngeq2.onsiteEnergyDiff
  rw [getClusterOnSiteEnergy_eq_sum, getClusterOnSiteEnergy_eq_sum]
  have hsum := sum_range_sub_eq_list m.N_
    (fun i => ((m.flipCluster c cluster r).spins_ i).v0) (fun i => (m.spins_ i).v0) cluster hnd
    hlt (fun i hi => by
      show ((m.flipCluster c cluster r).spins_ i).v0 = (m.spins_ i).v0
      rw [show (m.flipCluster c cluster r).spins_ i = m.spins_ i from
        flipLoop_not_mem c.sqrt r m.spins_ cluster i hi])
  have hh : (m.flipCluster c cluster r).h_ = m.h_ := rfl
  rw [hh]
  linear_combination (-1) * m.h_ * hsum

end Energy

/-! ## The local update -/

section Local

variable {G K : Type} [LinearOrderedField K] {n : Nat}

/-- The three outcomes of `localUpdate`, by the sign of `deltaE` and the
draw `u`. -/
theorem localUpdate_cases (c : Collab G K n) (m : ON_Model_Ngeq2 K n) (g : G) :
    (m.localDeltaE c (m.localSite c g).1 (ON_Model_Ngeq2.localCandidate c g).1 ≤ 0 →
      m.localUpdate c g =
        ({ m with spins_ := Function.update m.spins_ (m.localSite c g).1
                    (ON_Model_Ngeq2.localCandidate c g).1,
                  numAccept_local_ := m.numAccept_local_ + 1 }, (m.localSite c g).2)) ∧
    (0 < m.localDeltaE c (m.localSite c g).1 (ON_Model_Ngeq2.localCandidate c g).1 →
      ((c.randDblExc (m.localSite c g).2).1 < c.exp
          (-m.localDeltaE c (m.localSite c g).1 (ON_Model_Ngeq2.localCandidate c g).1 / m.T_) →
        m.localUpdate c g =
          ({ m with spins_ := Function.update m.spins_ (m.localSite c g).1
                      (ON_Model_Ngeq2.localCandidate c g).1,
                    numAccept_local_ := m.numAccept_local_ + 1 },
            (c.randDblExc (m.localSite c g).2).2)) ∧
      (¬ (c.randDblExc (m.localSite c g).2).1 < c.exp
          (-m.localDeltaE c (m.localSite c g).1 (ON_Model_Ngeq2.localCandidate c g).1 / m.T_) →
        m.localUpdate c g = (m, (c.randDblExc (m.localSite c g).2).2))) := by
  unfold ON_Model_Ngeq2.localUpdate
  simp only
  refine ⟨fun hd => ?_, fun hd => ⟨fun hu => ?_, fun hu => ?_⟩⟩
  · rw [if_pos hd]
  · rw [if_neg (not_le.2 hd), if_pos hu]
  · rw [if_neg (not_le.2 hd), if_neg hu]

/-- The site that `localUpdate` selects is a site of the lattice. -/
theorem localSite_lt (c : Collab G K n) (m : ON_Model_Ngeq2 K n) (g : G)
    (hwf : c.WellFormed m.N_ m.D_) (hN : 0 < m.N_) : (m.localSite c g).1 < m.N_ := by
  have := hwf.randInt_le (ON_Model_Ngeq2.localCandidate c g).2 (m.N_ - 1)
  unfold ON_Model_Ngeq2.localSite
  omega

/-- The chain is a periodic geometry. -/
theorem chainCollab_periodic (u : ℚ) : (chainCollab u).Periodic 4 1 := by
  refine ⟨?_, ?_, ?_⟩
  · intro i j hi hj
    have hj0 : j = 0 := by omega
    subst hj0
    show (if (0 + 1 : Nat) = 0 then ((if (0 : Nat) = 0 then (i + 1) % 4 else (i + 3) % 4) + 1) % 4
      else ((if (0 : Nat) = 0 then (i + 1) % 4 else (i + 3) % 4) + 3) % 4) = i
    rw [if_neg (by decide), if_pos rfl]
    omega
  · intro i j hi hj
    have hj0 : j = 0 := by omega
    subst hj0
    show (if (0 : Nat) = 0 then ((if (0 + 1 : Nat) = 0 then (i + 1) % 4 else (i + 3) % 4) + 1) % 4
      else ((if (0 + 1 : Nat) = 0 then (i + 1) % 4 else (i + 3) % 4) + 3) % 4) = i
    rw [if_pos rfl, if_neg (by decide)]
    omega
  · intro i d hi hd
    show chainNeighbour i d ≠ i
    unfold chainNeighbour
    split_ifs <;> omega

theorem forLoop_one {σ : Type} (body : Nat → σ → σ) (init : σ) :
    forLoop 1 body init = body 0 init := rfl

theorem forLoop_two {σ : Type} (body : Nat → σ → σ) (init : σ) :
    forLoop 2 body init = body 1 (body 0 init) := rfl

/-- The neighbour sum of site `1` of the chain model. -/
theorem chainModel_nnSum (u : ℚ) : chainModel.nnSum (chainCollab u) 1 = ![2, 0] := by
  funext i
  fin_cases i
  · simp [ON_Model_Ngeq2.nnSum, chainModel, chainCollab, chainNeighbour, forLoop_one,
      Vector_NDim.add, Vector_NDim.zero]
    norm_num
  · simp [ON_Model_Ngeq2.nnSum, chainModel, chainCollab, chainNeighbour, forLoop_one,
      Vector_NDim.add, Vector_NDim.zero]

/-- The first local update of the chain model proposes the first unit vector
at site `1`, with `deltaE = -2`. -/
theorem chainModel_localDeltaE (u : ℚ) :
    chainModel.localDeltaE (chainCollab u) (chainModel.localSite (chainCollab u) 0).1
      (ON_Model_Ngeq2.localCandidate (chainCollab u) 0).1 = -2 := by
  show chainModel.localDeltaE (chainCollab u) 1 ![1, 0] = -2
  unfold ON_Model_Ngeq2.localDeltaE
  rw [chainModel_nnSum]
  simp [chainModel, Vector_NDim.dot, Vector_NDim.v0, Fin.sum_univ_two]

/-- The first local update of the chain model is accepted. -/
theorem chainModel_localUpdate_accepted (u : ℚ) :
    (chainModel.localUpdate (chainCollab u) 0).1.numAccept_local_ =
      chainModel.numAccept_local_ + 1 := by
  rw [(localUpdate_cases (chainCollab u) chainModel 0).1
    (by rw [chainModel_localDeltaE]; norm_num)]

/-- A sequence of calls run in two parts. -/
theorem runCalls_append (c : Collab G K n) (fuel : Nat) (a b : List Call)
    (p : ON_Model_Ngeq2 K n × G) :
    ON_Model_Ngeq2.runCalls c fuel (a ++ b) p =
      (ON_Model_Ngeq2.runCalls c fuel a p).bind (ON_Model_Ngeq2.runCalls c fuel b) := by
  induction a generalizing p with
  | nil => simp [ON_Model_Ngeq2.runCalls]
  | cons call a ih =>
    simp only [List.cons_append, ON_Model_Ngeq2.runCalls]
    cases ON_Model_Ngeq2.runCall c fuel p call with
    | none => simp
    | some q => simpa using ih q

/-- The loop of local updates of `sweep` is a sequence of calls of
`localUpdate`. -/
theorem forLoop_localUpdate (c : Collab G K n) (fuel k : Nat)
    (o : Option (ON_Model_Ngeq2 K n × G)) :
    forLoop k (fun _ a => a.map (fun p => ON_Model_Ngeq2.localUpdate c p.1 p.2)) o =
      o.bind (ON_Model_Ngeq2.runCalls c fuel (List.replicate k Call.localUpdate)) := by
  induction k with
  | zero =>
    cases o <;> simp [forLoop_zero, ON_Model_Ngeq2.runCalls]
  | succ k ih =>
    rw [forLoop_succ, ih, List.replicate_succ']
    cases o with
    | none => simp
    | some p =>
      simp only [Option.some_bind, runCalls_append]
      cases ON_Model_Ngeq2.runCalls c fuel (List.replicate k Call.localUpdate) p with
      | none => simp
      | some q => simp [ON_Model_Ngeq2.runCalls, ON_Model_Ngeq2.runCall]

/-- A loop that appends one call to a trace appends as many calls as it has
iterations. -/
theorem forLoop_trace (k : Nat) (x : Call) (t : List Call) :
    forLoop k (fun _ a => a ++ [x]) t = t ++ List.replicate k x := by
  induction k with
  | zero => simp [forLoop_zero]
  | succ k ih => rw [forLoop_succ, ih, List.replicate_succ', List.append_assoc]

/-- The trace of calls of `sweep`. -/
theorem sweepTrace_eq (N_ spinDim_ : Nat) (pr : Bool) :
    sweepTrace N_ spinDim_ pr =
      List.replicate (N_ / 2) Call.localUpdate ++ [Call.wolffUpdate 0 (spinDim_ - 1) pr] ++
        List.replicate (N_ - N_ / 2) Call.localUpdate := by
  unfold sweepTrace sweepWith
  simp only [forLoop_trace, List.nil_append]

/-- The function `sweep` runs the trace of calls of `sweep`. -/
theorem sweep_eq_runCalls (c : Collab G K n) (fuel : Nat) (m : ON_Model_Ngeq2 K n) (g : G)
    (pr : Bool) :
    m.sweep c fuel g pr = ON_Model_Ngeq2.runCalls c fuel (sweepTrace m.N_ n pr) (m, g) := by
  rw [sweepTrace_eq]
  unfold ON_Model_Ngeq2.sweep sweepWith
  simp only [forLoop_localUpdate c fuel, runCalls_append, Option.some_bind]
  cases ON_Model_Ngeq2.runCalls c fuel (List.replicate (m.N_ / 2) Call.localUpdate) (m, g) with
  | none => simp
  | some q =>
    simp only [Option.some_bind, ON_Model_Ngeq2.runCalls, ON_Model_Ngeq2.runCall]
    cases ON_Model_Ngeq2.wolffUpdate c fuel q.1 q.2 0 (n - 1) pr with
    | none => simp
    | some q1 => simp

end Local

/-! ## The histograms -/

section Histo

variable {G K : Type} [LinearOrderedField K] {n : Nat}

/-- The loop that zeroes the three histograms, in `ON_Model::ON_Model` and in
`markWarmupDone`: after `k` iterations the first `k` entries of the three
arrays are zero, and `N_`, `D_`, `inCluster_` and `writeClusts_` have not
changed. -/
theorem zeroLoop_spec (m : ON_Model_Ngeq2 K n) (k : Nat) :
    (forLoop k ON_Model_Ngeq2.zeroEntry m).N_ = m.N_ ∧
    (forLoop k ON_Model_Ngeq2.zeroEntry m).D_ = m.D_ ∧
    (forLoop k ON_Model_Ngeq2.zeroEntry m).inCluster_ = m.inCluster_ ∧
    (forLoop k ON_Model_Ngeq2.zeroEntry m).writeClusts_ = m.writeClusts_ ∧
    ∀ i, i < k →
      (forLoop k ON_Model_Ngeq2.zeroEntry m).clustSizes_ i = 0 ∧
      (forLoop k ON_Model_Ngeq2.zeroEntry m).clustSizes_accepted_ i = 0 ∧
      (forLoop k ON_Model_Ngeq2.zeroEntry m).clustSizes_rejected_ i = 0 := by
  induction k with
  | zero => exact ⟨rfl, rfl, rfl, rfl, fun i hi => absurd hi (Nat.not_lt_zero i)⟩
  | succ k ih =>
    rw [forLoop_succ]
    obtain ⟨h1, h2, h3, h4, h5⟩ := ih
    refine ⟨h1, h2, h3, h4, fun i hi => ?_⟩
    by_cases hik : i = k
    · subst hik
      exact ⟨Function.update_same _ _ _, Function.update_same _ _ _,
        Function.update_same _ _ _⟩
    · have hlt : i < k := by omega
      obtain ⟨a1, a2, a3⟩ := h5 i hlt
      exact ⟨(Function.update_noteq hik _ _).trans a1, (Function.update_noteq hik _ _).trans a2,
        (Function.update_noteq hik _ _).trans a3⟩

/-- The loop of the constructor that clears the marker array. -/
theorem clearAll_spec (a : Nat → Bool) (k : Nat) (i : Nat) (hi : i < k) :
    forLoop k (fun i a => Function.update a i false) a i = false := by
  induction k with
  | zero => exact absurd hi (Nat.not_lt_zero i)
  | succ k ih =>
    rw [forLoop_succ]
    by_cases hik : i = k
    · subst hik
      exact Function.update_same _ _ _
    · rw [Function.update_noteq hik]
      exact ih (by omega)

/-- After `markWarmupDone` with cluster tracking the histograms of accepted
and of rejected clusters are zero; the standing assumptions still hold. -/
theorem markWarmupDone_spec (c : Collab G K n) (fuel : Nat) (m : ON_Model_Ngeq2 K n)
    (h : m.Ready c fuel) (hw : m.writeClusts_ = true) :
    m.markWarmupDone.Ready c fuel ∧ m.markWarmupDone.writeClusts_ = true ∧
    m.markWarmupDone.N_ = m.N_ ∧
    ∀ i, i < m.N_ → m.markWarmupDone.clustSizes_accepted_ i = 0 ∧
      m.markWarmupDone.clustSizes_rejected_ i = 0 := by
  have hm : m.markWarmupDone =
      forLoop m.N_ ON_Model_Ngeq2.zeroEntry { m with warmupDone := true } := by
    unfold ON_Model_Ngeq2.markWarmupDone
    exact if_pos hw
  rw [hm]
  obtain ⟨h1, h2, h3, h4, h5⟩ := zeroLoop_spec { m with warmupDone := true } m.N_
  refine ⟨⟨by rw [h1, h2]; exact h.wf, by rw [h1]; exact h.pos, ?_, by rw [h1]; exact h.fuel_ge⟩,
    by rw [h4]; exact hw, h1, fun i hi => ⟨(h5 i hi).2.1, (h5 i hi).2.2⟩⟩
  intro i hi
  rw [h1] at hi
  rw [h3]
  exact h.clear i hi

/-- After the initialisation of the constructor with cluster tracking the
histograms of accepted and of rejected clusters are zero and the standing
assumptions hold. -/
theorem construct_spec (c : Collab G K n) (fuel : Nat) (m : ON_Model_Ngeq2 K n)
    (hwf : c.WellFormed m.N_ m.D_) (hN : 0 < m.N_) (hfuel : m.N_ ≤ fuel)
    (hw : m.writeClusts_ = true) :
    m.construct.Ready c fuel ∧ m.construct.writeClusts_ = true ∧ m.construct.N_ = m.N_ ∧
    ∀ i, i < m.N_ → m.construct.clustSizes_accepted_ i = 0 ∧
      m.construct.clustSizes_rejected_ i = 0 := by
  have hm : m.construct = forLoop m.N_ ON_Model_Ngeq2.zeroEntry
      { m with warmupDone := false, T_ := 1,
               inCluster_ := forLoop m.N_ (fun i a => Function.update a i false) m.inCluster_,
               numAccept_local_ := 0, numAccept_clust_ := 0 } := by
    unfold ON_Model_Ngeq2.construct
    exact if_pos hw
  rw [hm]
  obtain ⟨h1, h2, h3, h4, h5⟩ := zeroLoop_spec
    { m with warmupDone := false, T_ := 1,
             inCluster_ := forLoop m.N_ (fun i a => Function.update a i false) m.inCluster_,
             numAccept_local_ := 0, numAccept_clust_ := 0 } m.N_
  refine ⟨⟨by rw [h1, h2]; exact hwf, by rw [h1]; exact hN, ?_, by rw [h1]; exact hfuel⟩,
    by rw [h4]; exact hw, h1, fun i hi => ⟨(h5 i hi).2.1, (h5 i hi).2.2⟩⟩
  intro i hi
  rw [h1] at hi
  rw [h3]
  exact clearAll_spec m.inCluster_ m.N_ i hi

/-- The sum of a histogram after the increment of an entry inside it. -/
theorem sum_bump (N : Nat) (a : Nat → Nat) (k : Nat) (hk : k - 1 < N) :
    ∑ i in Finset.range N, bump a k i = (∑ i in Finset.range N, a i) + 1 := by
  have hterm : ∀ i, i ∈ Finset.range N → bump a k i = a i + if i = k - 1 then 1 else 0 := by
    intro i _
    unfold bump
    by_cases hik : i = k - 1
    · rw [if_pos hik, hik, Function.update_same]
    · rw [if_neg hik, Function.update_noteq hik, Nat.add_zero]
  rw [Finset.sum_congr rfl hterm, Finset.sum_add_distrib, Finset.sum_ite_eq' (Finset.range N),
    if_pos (Finset.mem_range.2 hk)]

/-- With cluster tracking every Wolff update of a sequence of calls adds one
to the total of the histograms of accepted and of rejected clusters, and no
local update changes it. -/
theorem runCalls_histo (c : Collab G K n) (fuel : Nat) (calls : List Call)
    (m : ON_Model_Ngeq2 K n) (g : G) (h : m.Ready c fuel) (hw : m.writeClusts_ = true) :
    ∃ res, ON_Model_Ngeq2.runCalls c fuel calls (m, g) = some res ∧ res.1.N_ = m.N_ ∧
      ∑ i in Finset.range m.N_, (res.1.clustSizes_accepted_ i + res.1.clustSizes_rejected_ i) =
        (∑ i in Finset.range m.N_, (m.clustSizes_accepted_ i + m.clustSizes_rejected_ i)) +
          calls.countP Call.isWolff := by
  induction calls generalizing m g with
  | nil => exact ⟨(m, g), rfl, rfl, by simp⟩
  | cons call calls ih =>
    cases call with
    | localUpdate =>
      obtain ⟨f1, -, -, -, -, f6, -, -, -, -, f11, f12⟩ := localUpdate_frame c m g
      obtain ⟨res, r1, r2, r3⟩ := ih (m.localUpdate c g).1 (m.localUpdate c g).2
        (Ready.localUpdate h g) (by rw [f6]; exact hw)
      refine ⟨res, ?_, by rw [r2, f1], ?_⟩
      · simp only [ON_Model_Ngeq2.runCalls, ON_Model_Ngeq2.runCall]
        exact r1
      · rw [f1, f11, f12] at r3
        rw [r3]
        simp [Call.isWolff]
    | wolffUpdate start end_ pr =>
      obtain ⟨s, w1, -, w3, -, w5, w6⟩ := Ready.wolffUpdate h g start end_ pr
      obtain ⟨f1, -, -, -, -, f6, -⟩ := finishCluster_frame c
        { m with inCluster_ := s.inCluster } (c.randVec g start end_).1 s.cluster s.rng pr
      obtain ⟨-, hh⟩ := finishCluster_histo c { m with inCluster_ := s.inCluster }
        (c.randVec g start end_).1 s.cluster s.rng pr
      obtain ⟨-, hcase⟩ := hh hw
      dsimp only at hcase
      have hlen1 : 1 ≤ s.cluster.length := by
        have := w3.length_le
        simpa using this
      have hlen2 : s.cluster.length ≤ m.N_ := length_le_of_nodup_lt w1.nodup w1.lt
      have hidx : s.cluster.length - 1 < m.N_ := by omega
      obtain ⟨res, r1, r2, r3⟩ := ih _ (ON_Model_Ngeq2.finishCluster c
        { m with inCluster_ := s.inCluster } (c.randVec g start end_).1 s.cluster s.rng pr).2
        w6 (by rw [f6]; exact hw)
      refine ⟨res, ?_, by rw [r2, f1], ?_⟩
      · simp only [ON_Model_Ngeq2.runCalls, ON_Model_Ngeq2.runCall, w5]
        exact r1
      · rw [f1] at r3
        rw [r3]
        have hstep : ∑ i in Finset.range m.N_,
            ((ON_Model_Ngeq2.finishCluster c { m with inCluster_ := s.inCluster }
                (c.randVec g start end_).1 s.cluster s.rng pr).1.clustSizes_accepted_ i +
              (ON_Model_Ngeq2.finishCluster c { m with inCluster_ := s.inCluster }
                (c.randVec g start end_).1 s.cluster s.rng pr).1.clustSizes_rejected_ i) =
            (∑ i in Finset.range m.N_,
              (m.clustSizes_accepted_ i + m.clustSizes_rejected_ i)) + 1 := by
          rcases hcase with ⟨e1, e2⟩ | ⟨e1, e2⟩
          · rw [e1, e2, Finset.sum_add_distrib, Finset.sum_add_distrib,
              sum_bump m.N_ _ _ hidx]
            omega
          · rw [e1, e2, Finset.sum_add_distrib, Finset.sum_add_distrib,
              sum_bump m.N_ _ _ hidx]
            omega
        rw [hstep]
        simp [Call.isWolff]
        omega

end Histo

/-! ## Evaluation on the chain -/

section Chain

variable {G K : Type} [LinearOrderedField K] {n : Nat}

/-- The growth loop returns at once on an empty buffer. -/
theorem growLoop_of_empty (c : Collab G K n) (m : ON_Model_Ngeq2 K n) (r : Vector_NDim K n)
    (fuel : Nat) (s : GrowState G) (hb : s.buffer = []) :
    ON_Model_Ngeq2.growLoop c m r fuel s = some s := by
  cases fuel <;> simp [ON_Model_Ngeq2.growLoop, hb]

/-- One iteration of the growth loop on a buffer with back `x`. -/
theorem growLoop_succ_of_last (c : Collab G K n) (m : ON_Model_Ngeq2 K n)
    (r : Vector_NDim K n) (fuel : Nat) (s : GrowState G) (x : Nat)
    (hb : s.buffer.getLast? = some x) :
    ON_Model_Ngeq2.growLoop c m r (fuel + 1) s =
      ON_Model_Ngeq2.growLoop c m r fuel
        (m.expandSite c r x { s with buffer := s.buffer.dropLast }) := by
  simp [ON_Model_Ngeq2.growLoop, hb]

/-- The first part of `wolffUpdate` as the growth loop run on the seeded
state. -/
theorem growCluster_eq (c : Collab G K n) (fuel : Nat) (m : ON_Model_Ngeq2 K n) (g : G)
    (start end_ : Nat) :
    m.growCluster c fuel g start end_ =
      (ON_Model_Ngeq2.growLoop c m (c.randVec g start end_).1 fuel
        (m.seedState (c.randInt (c.randVec g start end_).2 (m.N_ - 1)).1
          (c.randInt (c.randVec g start end_).2 (m.N_ - 1)).2)).map
        (fun s => ((c.randVec g start end_).1, s)) := by
  unfold ON_Model_Ngeq2.growCluster
  simp only
  cases ON_Model_Ngeq2.growLoop c m (c.randVec g start end_).1 fuel
        (m.seedState (c.randInt (c.randVec g start end_).2 (m.N_ - 1)).1
          (c.randInt (c.randVec g start end_).2 (m.N_ - 1)).2) <;> rfl

/-- The energy depends on `J_`, `h_`, `N_`, `D_` and the spins only. -/
theorem getEnergy_congr (c : Collab G K n) (m1 m2 : ON_Model_Ngeq2 K n) (hJ : m1.J_ = m2.J_)
    (hh : m1.h_ = m2.h_) (hN : m1.N_ = m2.N_) (hD : m1.D_ = m2.D_)
    (hs : m1.spins_ = m2.spins_) : m1.getEnergy c = m2.getEnergy c := by
  unfold ON_Model_Ngeq2.getEnergy
  rw [energyJ_eq_sum, energyJ_eq_sum, energyh_eq_sum, energyh_eq_sum, hJ, hh, hN, hD, hs]

/-- The spins of the chain model have unit length. -/
theorem chainModel_unit (i : Nat) :
    Vector_NDim.dot (chainModel.spins_ i) (chainModel.spins_ i) = 1 := by
  show Vector_NDim.dot (if i % 2 = 0 then ![1, 0] else ![0, 1])
    (if i % 2 = 0 then ![1, 0] else ![0, 1]) = (1 : ℚ)
  split_ifs <;> simp [Vector_NDim.dot, Fin.sum_univ_two]

/-- The axis of the chain collaborators has unit length. -/
theorem chainCollab_unit (u : ℚ) (g start end_ : Nat) :
    Vector_NDim.dot ((chainCollab u).randVec g start end_).1
      ((chainCollab u).randVec g start end_).1 = 1 := by
  show Vector_NDim.dot (![1, 0] : Vector_NDim ℚ 2) ![1, 0] = 1
  simp [Vector_NDim.dot, Fin.sum_univ_two]

/-- The square root of the chain collaborators maps `1` to `1`. -/
theorem chainCollab_sqrt_one (u : ℚ) : (chainCollab u).sqrt 1 = 1 := by
  show ((1 : ℚ) + 1) / 2 = 1
  norm_num

/-- The standing assumptions hold for the alternating model and a bound of
four iterations. -/
theorem neelModel_ready (u : ℚ) : neelModel.Ready (chainCollab u) 4 :=
  ⟨chainCollab_wf u, by decide, fun _ _ => rfl, by decide⟩

/-- The reflection of the spin of site `1` of the alternating model about
the first unit vector. -/
theorem neelModel_reflect (u : ℚ) :
    Vector_NDim.getReflectionAndNormalize (chainCollab u).sqrt (neelModel.spins_ 1) ![1, 0] =
      ![1, 0] := by
  funext i
  fin_cases i
  · simp [Vector_NDim.getReflectionAndNormalize, Vector_NDim.normalize, Vector_NDim.dot,
      Fin.sum_univ_two, neelModel, chainCollab]
    norm_num
  · simp [Vector_NDim.getReflectionAndNormalize, Vector_NDim.normalize, Vector_NDim.dot,
      Fin.sum_univ_two, neelModel, chainCollab]

/-- On the alternating model no neighbour of site `1` is added: every bond
exponent is positive. -/
theorem neelModel_expandSite (u : ℚ) (s : GrowState Nat) :
    neelModel.expandSite (chainCollab u) ![1, 0] 1 s = s := by
  unfold ON_Model_Ngeq2.expandSite
  simp only [neelModel_reflect]
  show forLoop 2 _ s = s
  rw [forLoop_two]
  have h : ∀ i a, neelModel.tryNeighbour (chainCollab u) ![1, 0]
      (Vector_NDim.dot ![1, 0] ![1, 0]) 1 i a = a := by
    intro i a
    unfold ON_Model_Ngeq2.tryNeighbour
    simp only
    rw [if_neg]
    simp [Vector_NDim.dot, Fin.sum_univ_two, neelModel, chainCollab, chainNeighbour]
    split_ifs <;> simp_all
  rw [h, h]

/-- The cluster that the first Wolff update grows on the alternating model
is the seed site `1` alone. -/
theorem neelModel_growCluster (u : ℚ) :
    neelModel.growCluster (chainCollab u) 4 0 0 1 =
      some (![1, 0], { inCluster := Function.update (fun _ => false) 1 true,
                       cluster := [1], buffer := [], rng := 2 }) := by
  have hl : ON_Model_Ngeq2.growLoop (chainCollab u) neelModel ![1, 0] 4
      (neelModel.seedState 1 2) =
      some { inCluster := Function.update (fun _ => false) 1 true,
             cluster := [1], buffer := [], rng := 2 } := by
    rw [growLoop_succ_of_last (chainCollab u) neelModel ![1, 0] 3 (neelModel.seedState 1 2) 1
      rfl, neelModel_expandSite, growLoop_of_empty _ _ _ _ _ rfl]
    rfl
  rw [growCluster_eq]
  show (ON_Model_Ngeq2.growLoop (chainCollab u) neelModel ![1, 0] 4
    (neelModel.seedState 1 2)).map (fun s => (![1, 0], s)) = _
  rw [hl]
  rfl

/-- The energy of the alternating model. -/
theorem neelModel_getEnergy (u : ℚ) : neelModel.getEnergy (chainCollab u) = 4 := by
  unfold ON_Model_Ngeq2.getEnergy
  rw [energyJ_eq_sum, energyh_eq_sum]
  simp [neelModel, chainCollab, chainNeighbour, Finset.sum_range_succ, Vector_NDim.dot,
    Fin.sum_univ_two]
  norm_num

/-- The energy of the alternating model after the flip of site `1`. -/
theorem neelModel_getEnergy_flipped (u : ℚ) :
    ON_Model_Ngeq2.getEnergy (chainCollab u)
      { neelModel with spins_ := Function.update neelModel.spins_ 1 ![1, 0] } = 0 := by
  unfold ON_Model_Ngeq2.getEnergy
  rw [energyJ_eq_sum, energyh_eq_sum]
  simp [neelModel, chainCollab, chainNeighbour, Finset.sum_range_succ, Vector_NDim.dot,
    Fin.sum_univ_two, Function.update]

/-- The first Wolff update of the alternating model returns `neelResult`. -/
theorem neelModel_wolffUpdate :
    neelModel.wolffUpdate (chainCollab (1 / 2)) 4 0 0 1 false = some neelResult := by
  unfold ON_Model_Ngeq2.wolffUpdate
  rw [neelModel_growCluster]
  rfl

/-- The value `onsiteEnergy_diff` of the first Wolff update of the alternating
model is zero. -/
theorem neelModel_onsiteEnergyDiff :
    ON_Model_Ngeq2.onsiteEnergyDiff (chainCollab (1 / 2))
      { neelModel with inCluster_ := Function.update (fun _ => false) 1 true } [1]
      ![1, 0] = 0 :=
  onsiteEnergyDiff_h0 (chainCollab (1 / 2))
    { neelModel with inCluster_ := Function.update (fun _ => false) 1 true } [1] ![1, 0] rfl

/-- The first Wolff update of the alternating model is accepted. -/
theorem neelResult_accepted :
    neelResult.1.numAccept_clust_ = neelModel.numAccept_clust_ + 1 := by
  have hd : ¬ 0 < ON_Model_Ngeq2.onsiteEnergyDiff (chainCollab (1 / 2))
      { neelModel with inCluster_ := Function.update (fun _ => false) 1 true } [1]
      ![1, 0] := by
    rw [neelModel_onsiteEnergyDiff]
    exact lt_irrefl 0
  exact ((finishCluster_cases (chainCollab (1 / 2))
    { neelModel with inCluster_ := Function.update (fun _ => false) 1 true }
    ![1, 0] [1] 2 false).1 hd).2.1

/-- The energy after the first Wolff update of the alternating model. -/
theorem neelResult_getEnergy :
    ON_Model_Ngeq2.getEnergy (chainCollab (1 / 2)) neelResult.1 = 0 := by
  have hd : ¬ 0 < ON_Model_Ngeq2.onsiteEnergyDiff (chainCollab (1 / 2))
      { neelModel with inCluster_ := Function.update (fun _ => false) 1 true } [1]
      ![1, 0] := by
    rw [neelModel_onsiteEnergyDiff]
    exact lt_irrefl 0
  obtain ⟨-, -, a3⟩ := (finishCluster_cases (chainCollab (1 / 2))
    { neelModel with inCluster_ := Function.update (fun _ => false) 1 true }
    ![1, 0] [1] 2 false).1 hd
  obtain ⟨f1, f2, f3, f4, -⟩ := finishCluster_frame (chainCollab (1 / 2))
    { neelModel with inCluster_ := Function.update (fun _ => false) 1 true }
    ![1, 0] [1] 2 false
  rw [getEnergy_congr (chainCollab (1 / 2)) neelResult.1
    { neelModel with spins_ := Function.update neelModel.spins_ 1 ![1, 0] } f3 f4 f1 f2
    (by
      show (ON_Model_Ngeq2.finishCluster (chainCollab (1 / 2))
        { neelModel with inCluster_ := Function.update (fun _ => false) 1 true }
        ![1, 0] [1] 2 false).1.spins_ = _
      rw [a3]
      show Function.update neelModel.spins_ 1
        (Vector_NDim.getReflectionAndNormalize (chainCollab (1 / 2)).sqrt
          (neelModel.spins_ 1) ![1, 0]) = _
      rw [neelModel_reflect]),
    neelModel_getEnergy_flipped]

end Chain

/-! ## Sequences of calls and the model without coupling -/

section Calls

variable {G K : Type} [LinearOrderedField K] {n : Nat}

/-- Under the standing assumptions every sequence of calls returns, the
standing assumptions hold in the state it returns, `N_` is unchanged, and so
is every property that `localUpdate` and `wolffUpdate` keep. -/
theorem runCalls_inv (c : Collab G K n) (fuel : Nat) (Inv : ON_Model_Ngeq2 K n → Prop)
    (hloc : ∀ (a : ON_Model_Ngeq2 K n) (g : G), a.Ready c fuel → Inv a →
      Inv (a.localUpdate c g).1)
    (hwolff : ∀ (a : ON_Model_Ngeq2 K n) (g : G) (start end_ : Nat) (pr : Bool)
      (res : ON_Model_Ngeq2 K n × G), a.Ready c fuel → Inv a →
      a.wolffUpdate c fuel g start end_ pr = some res → Inv res.1)
    (calls : List Call) (m : ON_Model_Ngeq2 K n) (g : G) (h : m.Ready c fuel) (hI : Inv m) :
    ∃ res, ON_Model_Ngeq2.runCalls c fuel calls (m, g) = some res ∧ res.1.Ready c fuel ∧
      Inv res.1 ∧ res.1.N_ = m.N_ := by
  induction calls generalizing m g with
  | nil => exact ⟨(m, g), rfl, h, hI, rfl⟩
  | cons call calls ih =>
    cases call with
    | localUpdate =>
      obtain ⟨f1, -⟩ := localUpdate_frame c m g
      obtain ⟨res, r1, r2, r3, r4⟩ := ih (m.localUpdate c g).1 (m.localUpdate c g).2
        (Ready.localUpdate h g) (hloc m g h hI)
      refine ⟨res, ?_, r2, r3, by rw [r4, f1]⟩
      simp only [ON_Model_Ngeq2.runCalls, ON_Model_Ngeq2.runCall]
      exact r1
    | wolffUpdate start end_ pr =>
      obtain ⟨s, -, -, -, -, w5, w6⟩ := Ready.wolffUpdate h g start end_ pr
      obtain ⟨f1, -⟩ := finishCluster_frame c { m with inCluster_ := s.inCluster }
        (c.randVec g start end_).1 s.cluster s.rng pr
      obtain ⟨res, r1, r2, r3, r4⟩ := ih _ (ON_Model_Ngeq2.finishCluster c
        { m with inCluster_ := s.inCluster } (c.randVec g start end_).1 s.cluster s.rng pr).2
        w6 (hwolff m g start end_ pr _ h hI w5)
      refine ⟨res, ?_, r2, r3, by rw [r4, f1]⟩
      simp only [ON_Model_Ngeq2.runCalls, ON_Model_Ngeq2.runCall, w5]
      exact r1

/-- The exponent of the body of the neighbour loop, when the loop is entered
from `expandSite`, is the bond exponent. -/
theorem expandSite_eq (c : Collab G K n) (m : ON_Model_Ngeq2 K n) (r : Vector_NDim K n)
    (latticeSite : Nat) (s : GrowState G) :
    m.expandSite c r latticeSite s =
      forLoop (2 * m.D_) (fun i a => m.tryNeighbour c r
        (Vector_NDim.dot r (Vector_NDim.getReflectionAndNormalize c.sqrt
          (m.spins_ latticeSite) r)) latticeSite i a) s := rfl

/-- The body of the neighbour loop by cases on the bond exponent, the marker
of the neighbour and the draw. -/
theorem tryNeighbour_spec (c : Collab G K n) (m : ON_Model_Ngeq2 K n) (r : Vector_NDim K n)
    (latticeSite i : Nat) (s : GrowState G) :
    (¬ m.bondExponent c r latticeSite i < 0 →
      m.tryNeighbour c r (Vector_NDim.dot r (Vector_NDim.getReflectionAndNormalize c.sqrt
        (m.spins_ latticeSite) r)) latticeSite i s = s) ∧
    (m.bondExponent c r latticeSite i < 0 →
      s.inCluster (c.getNeighbour latticeSite i) = true →
      m.tryNeighbour c r (Vector_NDim.dot r (Vector_NDim.getReflectionAndNormalize c.sqrt
        (m.spins_ latticeSite) r)) latticeSite i s = s) ∧
    (m.bondExponent c r latticeSite i < 0 →
      s.inCluster (c.getNeighbour latticeSite i) = false →
      (c.randDblExc s.rng).1 < 1 - c.exp (m.bondExponent c r latticeSite i) →
      m.tryNeighbour c r (Vector_NDim.dot r (Vector_NDim.getReflectionAndNormalize c.sqrt
        (m.spins_ latticeSite) r)) latticeSite i s =
        { inCluster := Function.update s.inCluster (c.getNeighbour latticeSite i) true,
          cluster := s.cluster ++ [c.getNeighbour latticeSite i],
          buffer := s.buffer ++ [c.getNeighbour latticeSite i],
          rng := (c.randDblExc s.rng).2 }) ∧
    (m.bondExponent c r latticeSite i < 0 →
      s.inCluster (c.getNeighbour latticeSite i) = false →
      ¬ (c.randDblExc s.rng).1 < 1 - c.exp (m.bondExponent c r latticeSite i) →
      m.tryNeighbour c r (Vector_NDim.dot r (Vector_NDim.getReflectionAndNormalize c.sqrt
        (m.spins_ latticeSite) r)) latticeSite i s =
        { s with rng := (c.randDblExc s.rng).2 }) := by
  unfold ON_Model_Ngeq2.tryNeighbour ON_Model_Ngeq2.bondExponent
  simp only
  refine ⟨fun he => ?_, fun he hin => ?_, fun he hin hu => ?_, fun he hin hu => ?_⟩
  · rw [if_neg he]
  · rw [if_pos he, if_pos hin]
  · rw [if_pos he, if_neg (by rw [hin]; exact Bool.false_ne_true), if_pos hu]
  · rw [if_pos he, if_neg (by rw [hin]; exact Bool.false_ne_true), if_neg hu]

/-- Without coupling every bond exponent is zero. -/
theorem bondExponent_J0 (c : Collab G K n) (m : ON_Model_Ngeq2 K n) (r : Vector_NDim K n)
    (latticeSite i : Nat) (hJ : m.J_ = 0) : m.bondExponent c r latticeSite i = 0 := by
  unfold ON_Model_Ngeq2.bondExponent
  rw [hJ]
  simp

/-- Without coupling the expansion of a site changes nothing: no draw, no
site added. -/
theorem expandSite_J0 (c : Collab G K n) (m : ON_Model_Ngeq2 K n) (r : Vector_NDim K n)
    (latticeSite : Nat) (s : GrowState G) (hJ : m.J_ = 0) :
    m.expandSite c r latticeSite s = s := by
  rw [expandSite_eq]
  refine forLoop_inv (fun a => a = s) _ _ s rfl ?_
  intro i a _ ha
  rw [ha]
  exact (tryNeighbour_spec c m r latticeSite i s).1
    (by rw [bondExponent_J0 c m r latticeSite i hJ]; exact lt_irrefl 0)

/-- Without coupling the first part of `wolffUpdate` returns after one
iteration of the growth loop: the cluster is the seed site alone and the
generator is the one after the seed draw. -/
theorem growCluster_J0 (c : Collab G K n) (fuel : Nat) (m : ON_Model_Ngeq2 K n) (g : G)
    (start end_ : Nat) (hJ : m.J_ = 0) (hfuel : 1 ≤ fuel) :
    m.growCluster c fuel g start end_ =
      some ((c.randVec g start end_).1,
        { inCluster := Function.update m.inCluster_
            (c.randInt (c.randVec g start end_).2 (m.N_ - 1)).1 true,
          cluster := [(c.randInt (c.randVec g start end_).2 (m.N_ - 1)).1],
          buffer := [],
          rng := (c.randInt (c.randVec g start end_).2 (m.N_ - 1)).2 }) := by
  obtain ⟨f, rfl⟩ : ∃ f, fuel = f + 1 := ⟨fuel - 1, by omega⟩
  rw [growCluster_eq, growLoop_succ_of_last c m _ f
    (m.seedState (c.randInt (c.randVec g start end_).2 (m.N_ - 1)).1
      (c.randInt (c.randVec g start end_).2 (m.N_ - 1)).2)
    (c.randInt (c.randVec g start end_).2 (m.N_ - 1)).1 rfl, expandSite_J0 c m _ _ _ hJ,
    growLoop_of_empty c m _ f _ rfl]
  rfl

/-- Without coupling `wolffUpdate` returns the second part of the update run
on the seed site alone. -/
theorem wolffUpdate_J0 (c : Collab G K n) (fuel : Nat) (m : ON_Model_Ngeq2 K n) (g : G)
    (start end_ : Nat) (pr : Bool) (hJ : m.J_ = 0) (hfuel : 1 ≤ fuel) :
    m.wolffUpdate c fuel g start end_ pr =
      some (ON_Model_Ngeq2.finishCluster c
        { m with inCluster_ := (Function.update m.inCluster_
            (c.randInt (c.randVec g start end_).2 (m.N_ - 1)).1 true) }
        (c.randVec g start end_).1 [(c.randInt (c.randVec g start end_).2 (m.N_ - 1)).1]
        (c.randInt (c.randVec g start end_).2 (m.N_ - 1)).2 pr) := by
  unfold ON_Model_Ngeq2.wolffUpdate
  rw [growCluster_J0 c fuel m g start end_ hJ hfuel]

end Calls

/-! ## Termination and connectedness of the growth -/

section Termination

variable {G K : Type} [LinearOrderedField K] {n : Nat}

/-- Under the invariant the unmarked sites are the sites outside the
cluster. -/
theorem unmarked_add_length {N : Nat} {s : GrowState G} (h : GrowInv N s) :
    unmarked N s.inCluster + s.cluster.length = N := by
  have hperm : ((List.range N).filter (fun i => s.inCluster i)).Perm s.cluster := by
    refine (List.perm_ext_iff_of_nodup ((List.nodup_range N).filter _) h.nodup).2 ?_
    intro a
    rw [List.mem_filter, List.mem_range]
    constructor
    · rintro ⟨ha, hm⟩
      exact (h.marked a ha).1 hm
    · intro ha
      exact ⟨h.lt a ha, (h.marked a (h.lt a ha)).2 ha⟩
  have hsplit := List.length_eq_countP_add_countP (fun i => s.inCluster i) (List.range N)
  rw [List.countP_eq_length_filter, List.countP_eq_length_filter, hperm.length_eq,
    List.length_range] at hsplit
  unfold unmarked
  have hf : (List.filter (fun i => !s.inCluster i) (List.range N)) =
      List.filter (fun a => decide ¬s.inCluster a = true) (List.range N) := by
    congr 1
    funext i
    cases s.inCluster i <;> rfl
  rw [hf]
  omega

/-- One iteration of the growth loop lowers the measure by exactly one. -/
theorem measure_expandSite (c : Collab G K n) (m : ON_Model_Ngeq2 K n) (r : Vector_NDim K n)
    (hwf : c.WellFormed m.N_ m.D_) (a : GrowState G) (x : Nat) (h : GrowInv m.N_ a)
    (hx : a.buffer.getLast? = some x) :
    GrowState.measure m.N_ (m.expandSite c r x { a with buffer := a.buffer.dropLast }) + 1 =
      GrowState.measure m.N_ a := by
  have hxb : x ∈ a.buffer := List.mem_of_getLast?_eq_some hx
  have hpos : 0 < a.buffer.length := List.length_pos.2 (List.ne_nil_of_mem hxb)
  have hdl : a.buffer.dropLast.length = a.buffer.length - 1 := List.length_dropLast _
  obtain ⟨e1, -, e2, -⟩ := expandSite_inv c m r hwf (fun _ => True)
    (fun _ _ _ _ _ _ _ _ => trivial) x { a with buffer := a.buffer.dropLast } h.pop trivial
    (h.buf_sub x hxb)
  have u1 := unmarked_add_length e1
  have u2 := unmarked_add_length h
  have hl := length_le_of_nodup_lt e1.nodup e1.lt
  simp only at e2
  unfold GrowState.measure
  omega

/-- The growth loop makes a definite number `k` of iterations from a state
that satisfies the invariant: it returns its exit state exactly for the
bounds of at least `k`, and `k` is the length of the buffer plus the number
of sites that join the cluster. -/
theorem growLoop_iterations (c : Collab G K n) (m : ON_Model_Ngeq2 K n) (r : Vector_NDim K n)
    (hwf : c.WellFormed m.N_ m.D_) (b : Nat) (s : GrowState G) (h : GrowInv m.N_ s)
    (hb : m.N_ + s.buffer.length ≤ b + s.cluster.length) :
    ∃ s1 k, k + s.cluster.length = s1.cluster.length + s.buffer.length ∧
      GrowInv m.N_ s1 ∧ s1.buffer = [] ∧
      ∀ fuel, ON_Model_Ngeq2.growLoop c m r fuel s = if k ≤ fuel then some s1 else none := by
  induction b generalizing s with
  | zero =>
    have hlen := length_le_of_nodup_lt h.nodup h.lt
    have hbuf : s.buffer = [] := List.length_eq_zero.1 (by omega)
    refine ⟨s, 0, by rw [hbuf]; simp, h, hbuf, fun fuel => ?_⟩
    rw [if_pos (Nat.zero_le _)]
    exact growLoop_of_empty c m r fuel s hbuf
  | succ b ih =>
    cases hlast : s.buffer.getLast? with
    | none =>
      have hbuf : s.buffer = [] := List.getLast?_eq_none_iff.1 hlast
      refine ⟨s, 0, by rw [hbuf]; simp, h, hbuf, fun fuel => ?_⟩
      rw [if_pos (Nat.zero_le _)]
      exact growLoop_of_empty c m r fuel s hbuf
    | some x =>
      have hxb : x ∈ s.buffer := List.mem_of_getLast?_eq_some hlast
      have hne : s.buffer ≠ [] := List.ne_nil_of_mem hxb
      have hpos : 0 < s.buffer.length := List.length_pos.2 hne
      have hdl : s.buffer.dropLast.length = s.buffer.length - 1 := List.length_dropLast _
      obtain ⟨e1, -, e2, -⟩ := expandSite_inv c m r hwf (fun _ => True)
        (fun _ _ _ _ _ _ _ _ => trivial) x { s with buffer := s.buffer.dropLast } h.pop trivial
        (h.buf_sub x hxb)
      simp only at e2
      obtain ⟨s1, k, g1, g2, g3, g4⟩ := ih _ e1 (by omega)
      refine ⟨s1, k + 1, by omega, g2, g3, fun fuel => ?_⟩
      cases fuel with
      | zero =>
        rw [if_neg (by omega)]
        simp [ON_Model_Ngeq2.growLoop, hne]
      | succ f =>
        rw [growLoop_succ_of_last c m r f s x hlast, g4 f]
        by_cases hk : k ≤ f
        · rw [if_pos hk, if_pos (by omega)]
        · rw [if_neg hk, if_neg (by omega)]

/-- Appending a neighbour of a cluster site keeps the cluster connected. -/
theorem ClusterConnected.append {getNeighbour : Nat → Nat → Nat} {D seed : Nat}
    {cluster : List Nat} (h : ClusterConnected getNeighbour D seed cluster) (site i : Nat)
    (hsite : site ∈ cluster) (hi : i < 2 * D) :
    ClusterConnected getNeighbour D seed (cluster ++ [getNeighbour site i]) := by
  obtain ⟨h1, h2⟩ := h
  refine ⟨?_, ?_⟩
  · cases cluster with
    | nil => simp at h1
    | cons a t => simpa using h1
  · intro k x hk hx
    by_cases hlt : k < cluster.length
    · rw [List.getElem?_append_left hlt] at hx
      obtain ⟨j, y, i1, hj, hy, hi1, hxy⟩ := h2 k x hk hx
      exact ⟨j, y, i1, hj, by rw [List.getElem?_append_left (by omega)]; exact hy, hi1, hxy⟩
    · have hkl : k = cluster.length := by
        by_contra hne
        have : (cluster ++ [getNeighbour site i]).length ≤ k := by
          simp
          omega
        rw [List.getElem?_eq_none this] at hx
        exact Option.noConfusion hx
      subst hkl
      rw [List.getElem?_concat_length] at hx
      obtain ⟨j, hj⟩ := List.getElem?_of_mem hsite
      have hjlt : j < cluster.length := by
        by_contra hge
        rw [List.getElem?_eq_none (by omega)] at hj
        exact Option.noConfusion hj
      exact ⟨j, site, i, hjlt, by rw [List.getElem?_append_left hjlt]; exact hj, hi,
        (Option.some.inj hx).symm⟩

end Termination

/-! ## Invariants of the updates -/

section Invariants

variable {G K : Type} [LinearOrderedField K] {n : Nat}

/-- The result of `wolffUpdate` as the second part of the update run on an
exit state of the growth loop that satisfies the invariant. -/
theorem wolffUpdate_result (c : Collab G K n) (fuel : Nat) (m : ON_Model_Ngeq2 K n) (g : G)
    (start end_ : Nat) (pr : Bool) (res : ON_Model_Ngeq2 K n × G) (h : m.Ready c fuel)
    (hres : m.wolffUpdate c fuel g start end_ pr = some res) :
    ∃ s, GrowInv m.N_ s ∧
      [(c.randInt (c.randVec g start end_).2 (m.N_ - 1)).1] <+: s.cluster ∧
      res = ON_Model_Ngeq2.finishCluster c { m with inCluster_ := s.inCluster }
        (c.randVec g start end_).1 s.cluster s.rng pr := by
  obtain ⟨s, w1, -, w3, -, w5, -⟩ := Ready.wolffUpdate h g start end_ pr
  exact ⟨s, w1, w3, Option.some.inj (hres.symm.trans w5)⟩

/-- The histogram increment at an index. -/
theorem bump_apply (a : Nat → Nat) (len k : Nat) :
    bump a len k = if k = len - 1 then a k + 1 else a k := by
  unfold bump
  by_cases hk : k = len - 1
  · rw [if_pos hk, hk, Function.update_same]
  · rw [if_neg hk, Function.update_noteq hk]

/-- With cluster tracking the second part of `wolffUpdate` keeps the
per-bucket equation. -/
theorem finishCluster_buckets (c : Collab G K n) (m : ON_Model_Ngeq2 K n)
    (r : Vector_NDim K n) (cluster : List Nat) (g : G) (pr : Bool)
    (hw : m.writeClusts_ = true) (hb : m.BucketsAgree) :
    (ON_Model_Ngeq2.finishCluster c m r cluster g pr).1.writeClusts_ = true ∧
    (ON_Model_Ngeq2.finishCluster c m r cluster g pr).1.BucketsAgree := by
  obtain ⟨f1, -, -, -, -, f6, -⟩ := finishCluster_frame c m r cluster g pr
  obtain ⟨e0, ecase⟩ := (finishCluster_histo c m r cluster g pr).2 hw
  refine ⟨by rw [f6]; exact hw, fun k hk => ?_⟩
  rw [f1] at hk
  have hbk := hb k hk
  rcases ecase with ⟨e1, e2⟩ | ⟨e1, e2⟩
  · rw [e0, e1, e2, bump_apply, bump_apply]
    split_ifs <;> omega
  · rw [e0, e1, e2, bump_apply, bump_apply]
    split_ifs <;> omega

/-- The per-bucket equation holds after the loop that zeroes the
histograms. -/
theorem zeroLoop_buckets (m : ON_Model_Ngeq2 K n) :
    (forLoop m.N_ ON_Model_Ngeq2.zeroEntry m).BucketsAgree := by
  obtain ⟨h1, -, -, -, h5⟩ := zeroLoop_spec m m.N_
  intro k hk
  rw [h1] at hk
  obtain ⟨a1, a2, a3⟩ := h5 k hk
  rw [a1, a2, a3]

/-- With cluster tracking the per-bucket equation holds after
`markWarmupDone`. -/
theorem markWarmupDone_buckets (m : ON_Model_Ngeq2 K n) (hw : m.writeClusts_ = true) :
    m.markWarmupDone.BucketsAgree := by
  have hm : m.markWarmupDone =
      forLoop m.N_ ON_Model_Ngeq2.zeroEntry { m with warmupDone := true } := by
    unfold ON_Model_Ngeq2.markWarmupDone
    exact if_pos hw
  rw [hm]
  exact zeroLoop_buckets { m with warmupDone := true }

/-- With cluster tracking the per-bucket equation holds after the
initialisation of the constructor. -/
theorem construct_buckets (m : ON_Model_Ngeq2 K n) (hw : m.writeClusts_ = true) :
    m.construct.BucketsAgree := by
  have hm : m.construct = forLoop m.N_ ON_Model_Ngeq2.zeroEntry
      { m with warmupDone := false, T_ := 1,
               inCluster_ := forLoop m.N_ (fun i a => Function.update a i false) m.inCluster_,
               numAccept_local_ := 0, numAccept_clust_ := 0 } := by
    unfold ON_Model_Ngeq2.construct
    exact if_pos hw
  rw [hm]
  exact zeroLoop_buckets _

/-- The local update keeps cluster tracking and the per-bucket equation. -/
theorem localUpdate_buckets (c : Collab G K n) (m : ON_Model_Ngeq2 K n) (g : G)
    (hw : m.writeClusts_ = true) (hb : m.BucketsAgree) :
    (m.localUpdate c g).1.writeClusts_ = true ∧ (m.localUpdate c g).1.BucketsAgree := by
  obtain ⟨f1, -, -, -, -, f6, -, -, -, f10, f11, f12⟩ := localUpdate_frame c m g
  refine ⟨by rw [f6]; exact hw, fun k hk => ?_⟩
  rw [f1] at hk
  rw [f10, f11, f12]
  exact hb k hk

/-- The spins after `flipCluster` have unit length when the spins before it
and the axis have, for a cluster of sites without duplicate. -/
theorem flipCluster_unit (c : Collab G K n) (m : ON_Model_Ngeq2 K n) (cluster : List Nat)
    (r : Vector_NDim K n) (hsqrt : c.sqrt 1 = 1) (hr : Vector_NDim.dot r r = 1)
    (hnd : cluster.Nodup) (hu : m.UnitSpins) : (m.flipCluster c cluster r).UnitSpins := by
  intro i hi
  have hi1 : i < m.N_ := hi
  rw [flipCluster_spins c m cluster r hnd]
  by_cases hic : i ∈ cluster
  · simp only [hic, if_true]
    rw [getReflectionAndNormalize_unit c.sqrt hsqrt _ _ (hu i hi1) hr]
    exact dot_reflect_self _ _ (hu i hi1) hr
  · simp only [hic, if_false]
    exact hu i hi1

/-- The spins after the second part of `wolffUpdate` have unit length when
the spins before it and the axis have. -/
theorem finishCluster_unit (c : Collab G K n) (m : ON_Model_Ngeq2 K n) (r : Vector_NDim K n)
    (cluster : List Nat) (g : G) (pr : Bool) (hsqrt : c.sqrt 1 = 1)
    (hr : Vector_NDim.dot r r = 1) (hnd : cluster.Nodup) (hu : m.UnitSpins) :
    (ON_Model_Ngeq2.finishCluster c m r cluster g pr).1.UnitSpins := by
  obtain ⟨f1, -⟩ := finishCluster_frame c m r cluster g pr
  obtain ⟨c1, c2⟩ := finishCluster_cases c m r cluster g pr
  have h1 := flipCluster_unit c m cluster r hsqrt hr hnd hu
  have h2 := flipCluster_unit c (m.flipCluster c cluster r) cluster r hsqrt hr hnd h1
  intro i hi
  rw [f1] at hi
  by_cases hd : 0 < m.onsiteEnergyDiff c cluster r
  · obtain ⟨-, d2, d3⟩ := c2 hd
    by_cases hx : (c.randDblExc g).1 < c.exp ((-1) * m.onsiteEnergyDiff c cluster r / m.T_)
    · rw [(d2 hx).2]
      exact h1 i hi
    · rw [(d3 (not_lt.1 hx)).2]
      exact h2 i hi
  · rw [(c1 hd).2.2]
    exact h1 i hi

/-- The spins after `localUpdate` have unit length when the spins before it
and the candidate have. -/
theorem localUpdate_unit (c : Collab G K n) (m : ON_Model_Ngeq2 K n) (g : G)
    (hdraw : c.UnitDraws) (hu : m.UnitSpins) : (m.localUpdate c g).1.UnitSpins := by
  obtain ⟨f1, -⟩ := localUpdate_frame c m g
  obtain ⟨h1, h2⟩ := localUpdate_cases c m g
  have hacc : ON_Model_Ngeq2.UnitSpins
      { m with spins_ := Function.update m.spins_ (m.localSite c g).1
                  (ON_Model_Ngeq2.localCandidate c g).1,
                numAccept_local_ := m.numAccept_local_ + 1 } := by
    intro i hi
    have hi1 : i < m.N_ := hi
    show Vector_NDim.dot (Function.update m.spins_ (m.localSite c g).1
      (ON_Model_Ngeq2.localCandidate c g).1 i) (Function.update m.spins_ (m.localSite c g).1
      (ON_Model_Ngeq2.localCandidate c g).1 i) = 1
    by_cases his : i = (m.localSite c g).1
    · rw [his, Function.update_same]
      exact hdraw g 0 (n - 1)
    · rw [Function.update_noteq his]
      exact hu i hi1
  rcases le_or_lt (m.localDeltaE c (m.localSite c g).1
    (ON_Model_Ngeq2.localCandidate c g).1) 0 with hd | hd
  · rw [h1 hd]
    exact hacc
  · by_cases hx : (c.randDblExc (m.localSite c g).2).1 < c.exp
        (-m.localDeltaE c (m.localSite c g).1 (ON_Model_Ngeq2.localCandidate c g).1 / m.T_)
    · rw [(h2 hd).1 hx]
      exact hacc
    · rw [(h2 hd).2 hx]
      exact hu

/-- Without field every sweep returns and accepts its Wolff update: after
`k` sweeps the counter of accepted cluster moves has grown by `k`, and `N_`
is unchanged. -/
theorem sweeps_accept_h0 (c : Collab G K n) (fuel : Nat) (pr : Bool) (k : Nat)
    (m : ON_Model_Ngeq2 K n) (g : G) (h : m.Ready c fuel) (hh : m.h_ = 0) :
    ∃ res, ON_Model_Ngeq2.sweeps c fuel pr k (m, g) = some res ∧
      res.1.numAccept_clust_ = m.numAccept_clust_ + k ∧ res.1.N_ = m.N_ := by
  induction k generalizing m g with
  | zero => exact ⟨(m, g), rfl, rfl, rfl⟩
  | succ k ih =>
    obtain ⟨q, q1, q2, q3, q4⟩ := runCalls_inv c fuel (fun a => a.h_ = 0)
      (fun a g1 _ ha => by
        obtain ⟨-, -, -, f4, -⟩ := localUpdate_frame c a g1
        rw [f4]; exact ha)
      (fun a g1 start end_ pr1 res ha hah hres => by
        obtain ⟨s, -, -, w3⟩ := wolffUpdate_result c fuel a g1 start end_ pr1 res ha hres
        obtain ⟨-, -, -, f4, -⟩ := finishCluster_frame c { a with inCluster_ := s.inCluster }
          (c.randVec g1 start end_).1 s.cluster s.rng pr1
        rw [w3, f4]; exact hah)
      (sweepTrace m.N_ n pr) m g h hh
    obtain ⟨q0, p1, p2⟩ := runCalls_accept_h0 c fuel (sweepTrace m.N_ n pr) m g h hh
    have hq : q0 = q := Option.some.inj (p1.symm.trans q1)
    subst hq
    have hcount : (sweepTrace m.N_ n pr).countP Call.isWolff = 1 := by
      rw [sweepTrace_eq]
      simp only [List.countP_append, List.countP_replicate, List.countP_cons, List.countP_nil,
        Call.isWolff]
      simp
    obtain ⟨res, r1, r2, r3⟩ := ih q0.1 q0.2 q2 q3
    refine ⟨res, ?_, by rw [r2, p2, hcount]; omega, by rw [r3, q4]⟩
    unfold ON_Model_Ngeq2.sweeps
    simp only
    rw [sweep_eq_runCalls, q1]
    exact r1

/-- The spins after two calls of `flipCluster`, for a cluster of sites
without duplicate: every cluster site holds the reflection of the reflection
of its spin, every other spin is unchanged. -/
theorem flipCluster_twice_spins (c : Collab G K n) (m : ON_Model_Ngeq2 K n)
    (cluster : List Nat) (r : Vector_NDim K n) (hnd : cluster.Nodup) (i : Nat) :
    ((m.flipCluster c cluster r).flipCluster c cluster r).spins_ i =
      if i ∈ cluster then
        Vector_NDim.getReflectionAndNormalize c.sqrt
          (Vector_NDim.getReflectionAndNormalize c.sqrt (m.spins_ i) r) r
      else m.spins_ i := by
  rw [flipCluster_spins c _ cluster r hnd]
  by_cases hi : i ∈ cluster
  · simp only [hi, if_true]
    rw [flipCluster_spins c m cluster r hnd]
    simp only [hi, if_true]
  · simp only [hi, if_false]
    rw [flipCluster_spins c m cluster r hnd]
    simp only [hi, if_false]

/-- The spins after `flipCluster` for unit spins and a unit axis: every
cluster site holds `s − 2 (s · r) r` of its spin `s`, every other spin is
unchanged. -/
theorem flipCluster_spins_unit (c : Collab G K n) (m : ON_Model_Ngeq2 K n)
    (cluster : List Nat) (r : Vector_NDim K n) (hsqrt : c.sqrt 1 = 1)
    (hr : Vector_NDim.dot r r = 1) (hnd : cluster.Nodup)
    (hlt : ∀ i, i ∈ cluster → i < m.N_) (hu : m.UnitSpins) (i : Nat) :
    (m.flipCluster c cluster r).spins_ i =
      if i ∈ cluster then
        fun k => m.spins_ i k - 2 * Vector_NDim.dot (m.spins_ i) r * r k
      else m.spins_ i := by
  rw [flipCluster_spins c m cluster r hnd]
  by_cases hi : i ∈ cluster
  · simp only [hi, if_true]
    exact getReflectionAndNormalize_unit c.sqrt hsqrt _ _ (hu i (hlt i hi)) hr
  · simp only [hi, if_false]

/-- The spins after two calls of `flipCluster` for unit spins and a unit
axis are the spins before them. -/
theorem flipCluster_twice_unit (c : Collab G K n) (m : ON_Model_Ngeq2 K n)
    (cluster : List Nat) (r : Vector_NDim K n) (hsqrt : c.sqrt 1 = 1)
    (hr : Vector_NDim.dot r r = 1) (hnd : cluster.Nodup)
    (hlt : ∀ i, i ∈ cluster → i < m.N_) (hu : m.UnitSpins) (i : Nat) :
    ((m.flipCluster c cluster r).flipCluster c cluster r).spins_ i = m.spins_ i := by
  rw [flipCluster_twice_spins c m cluster r hnd]
  by_cases hi : i ∈ cluster
  · simp only [hi, if_true]
    exact getReflectionAndNormalize_twice c.sqrt hsqrt _ _ (hu i (hlt i hi)) hr
  · simp only [hi, if_false]

/-- The spins that the first Wolff update of the alternating model leaves:
the spin `(-1, 0)` of site `1` is replaced by `(1, 0)`. -/
theorem neelResult_spins :
    neelResult.1.spins_ = Function.update neelModel.spins_ 1 ![1, 0] := by
  have hd : ¬ 0 < ON_Model_Ngeq2.onsiteEnergyDiff (chainCollab (1 / 2))
      { neelModel with inCluster_ := Function.update (fun _ => false) 1 true } [1]
      ![1, 0] := by
    rw [neelModel_onsiteEnergyDiff]
    exact lt_irrefl 0
  obtain ⟨-, -, a3⟩ := (finishCluster_cases (chainCollab (1 / 2))
    { neelModel with inCluster_ := Function.update (fun _ => false) 1 true }
    ![1, 0] [1] 2 false).1 hd
  show (ON_Model_Ngeq2.finishCluster (chainCollab (1 / 2))
    { neelModel with inCluster_ := Function.update (fun _ => false) 1 true }
    ![1, 0] [1] 2 false).1.spins_ = _
  rw [a3]
  show Function.update neelModel.spins_ 1
    (Vector_NDim.getReflectionAndNormalize (chainCollab (1 / 2)).sqrt
      (neelModel.spins_ 1) ![1, 0]) = _
  rw [neelModel_reflect]

/-- The standing assumptions hold for the chain model with field and a bound
of four iterations. -/
theorem fieldModel_ready (u : ℚ) : fieldModel.Ready (chainCollab u) 4 :=
  ⟨chainCollab_wf u, by decide, fun _ _ => rfl, by decide⟩

/-- The reflection of the spin `(1, 0)` of site `2` of the chain model with
field about the first unit vector is `(-1, 0)`. -/
theorem fieldModel_reflect (u : ℚ) :
    Vector_NDim.getReflectionAndNormalize (chainCollab u).sqrt (fieldModel.spins_ 2) ![1, 0] =
      ![-1, 0] := by
  funext i
  fin_cases i
  · simp [Vector_NDim.getReflectionAndNormalize, Vector_NDim.normalize, Vector_NDim.dot,
      Fin.sum_univ_two, fieldModel, chainModel, chainCollab]
    norm_num
  · simp [Vector_NDim.getReflectionAndNormalize, Vector_NDim.normalize, Vector_NDim.dot,
      Fin.sum_univ_two, fieldModel, chainModel, chainCollab]

/-- The cluster that the Wolff update of the chain model with field grows
from the generator state `1`: the seed site `2` alone. -/
theorem fieldModel_growCluster (u : ℚ) :
    fieldModel.growCluster (chainCollab u) 4 1 0 1 =
      some (![1, 0], { inCluster := Function.update (fun _ => false) 2 true,
                       cluster := [2], buffer := [], rng := 3 }) :=
  growCluster_J0 (chainCollab u) 4 fieldModel 1 0 1 rfl (by decide)

/-- The value `onsiteEnergy_diff` of this Wolff update is `2`. -/
theorem fieldModel_onsiteEnergyDiff (u : ℚ) :
    ON_Model_Ngeq2.onsiteEnergyDiff (chainCollab u)
      { fieldModel with inCluster_ := (Function.update (fun _ => false) 2 true) } [2]
      ![1, 0] = 2 := by
  unfold ON_Model_Ngeq2.onsiteEnergyDiff
  rw [getClusterOnSiteEnergy_eq_sum, getClusterOnSiteEnergy_eq_sum]
  simp only [ON_Model_Ngeq2.flipCluster, forEach_cons, forEach_nil, List.map_cons,
    List.map_nil, List.sum_cons, List.sum_nil, Function.update_same]
  rw [show Vector_NDim.getReflectionAndNormalize (chainCollab u).sqrt (fieldModel.spins_ 2)
    ![1, 0] = ![-1, 0] from fieldModel_reflect u]
  simp [Vector_NDim.v0, fieldModel, chainModel]
  norm_num

end Invariants

/-! ## The claims -/

section Claims

variable {G K : Type} [LinearOrderedField K] {n : Nat}

/-- C1: if every entry of `inCluster_` is false when `wolffUpdate` is called
on a lattice of at least one site with well-formed collaborators, then
`wolffUpdate` returns (for every bound of at least `N_` iterations of the
growth loop) and every entry of `inCluster_` is false again in the state it
returns, on the accepted and on the rejected path alike. -/
theorem wolffUpdate_restores_inCluster (c : Collab G K n) (m : ON_Model_Ngeq2 K n) (g : G)
    (start end_ fuel : Nat) (pr : Bool) (hwf : c.WellFormed m.N_ m.D_) (hN : 0 < m.N_)
    (hclear : m.AllClear) (hfuel : m.N_ ≤ fuel) :
    ∃ res, m.wolffUpdate c fuel g start end_ pr = some res ∧ res.1.AllClear := by
  obtain ⟨s, h1, h2, -, -, -⟩ := growCluster_run c m g start end_ fuel hwf hN hclear hfuel
    (fun _ => True) (fun _ _ _ => trivial) (fun _ _ _ _ _ _ _ _ => trivial) trivial
  refine ⟨_, ?_, finishCluster_allClear c m (c.randVec g start end_).1 s pr h2⟩
  unfold ON_Model_Ngeq2.wolffUpdate
  simp only [h1]

/-- Witness of C1 on the chain of four sites. -/
theorem wolffUpdate_restores_inCluster_witness :
    (chainCollab (1 / 2)).WellFormed chainModel.N_ chainModel.D_ ∧ 0 < chainModel.N_ ∧
    chainModel.AllClear ∧ chainModel.N_ ≤ 4 ∧
    ∃ res, chainModel.wolffUpdate (chainCollab (1 / 2)) 4 0 0 1 false = some res ∧
      res.1.AllClear :=
  ⟨chainCollab_wf _, by decide, chainModel_allClear, by decide,
    wolffUpdate_restores_inCluster (chainCollab (1 / 2)) chainModel 0 0 1 4 false
      (chainCollab_wf _) (by decide) chainModel_allClear (by decide)⟩

/-- C2: for a `wolffUpdate` call entered with `inCluster_` all false (at least
one site, well-formed collaborators), the growth loop returns in a state it
passes through, and at every state it passes through the log of the sites
pushed on the buffer has no duplicate and is the cluster list, the cluster
list has no duplicate, and `inCluster_[i]` is true exactly for the sites `i`
of the cluster list. -/
theorem wolffUpdate_cluster_nodup (c : Collab G K n) (m : ON_Model_Ngeq2 K n) (g : G)
    (start end_ fuel : Nat) (hwf : c.WellFormed m.N_ m.D_) (hN : 0 < m.N_)
    (hclear : m.AllClear) (hfuel : m.N_ ≤ fuel) :
    (∃ s log, m.growCluster c fuel g start end_ = some ((c.randVec g start end_).1, s) ∧
      GrowReach c m (c.randVec g start end_).1
        (c.randInt (c.randVec g start end_).2 (m.N_ - 1)).1
        (c.randInt (c.randVec g start end_).2 (m.N_ - 1)).2 log s) ∧
    ∀ log s, GrowReach c m (c.randVec g start end_).1
        (c.randInt (c.randVec g start end_).2 (m.N_ - 1)).1
        (c.randInt (c.randVec g start end_).2 (m.N_ - 1)).2 log s →
      log.Nodup ∧ s.cluster = log ∧ s.cluster.Nodup ∧
      ∀ i, i < m.N_ → (s.inCluster i = true ↔ i ∈ s.cluster) := by
  have hseed : (c.randInt (c.randVec g start end_).2 (m.N_ - 1)).1 < m.N_ := by
    have := hwf.randInt_le (c.randVec g start end_).2 (m.N_ - 1)
    omega
  constructor
  · obtain ⟨s, h1, -, ⟨log, h3⟩, -, -⟩ := growCluster_run c m g start end_ fuel hwf hN hclear
      hfuel
      (fun a => ∃ log, GrowReach c m (c.randVec g start end_).1
        (c.randInt (c.randVec g start end_).2 (m.N_ - 1)).1
        (c.randInt (c.randVec g start end_).2 (m.N_ - 1)).2 log a)
      (fun a _ ha => ha.elim fun log hl => ⟨log, GrowReach.pop log a hl⟩)
      (fun a site i rDotRef _ hsite hi ha =>
        ha.elim fun log hl => ⟨_, GrowReach.neighbour log a site i rDotRef hl hsite hi⟩)
      ⟨_, GrowReach.seed⟩
    exact ⟨s, log, h1, h3⟩
  · intro log s h
    obtain ⟨h1, h2⟩ := GrowReach.inv c m _ _ _ hwf hclear hseed log s h
    exact ⟨h2 ▸ h1.nodup, h2, h1.nodup, h1.marked⟩

/-- Witness of C2 on the chain of four sites. -/
theorem wolffUpdate_cluster_nodup_witness :
    (chainCollab (1 / 2)).WellFormed chainModel.N_ chainModel.D_ ∧ 0 < chainModel.N_ ∧
    chainModel.AllClear ∧ chainModel.N_ ≤ 4 ∧
    ((∃ s log, chainModel.growCluster (chainCollab (1 / 2)) 4 0 0 1 =
        some (((chainCollab (1 / 2)).randVec 0 0 1).1, s) ∧
      GrowReach (chainCollab (1 / 2)) chainModel ((chainCollab (1 / 2)).randVec 0 0 1).1
        ((chainCollab (1 / 2)).randInt ((chainCollab (1 / 2)).randVec 0 0 1).2
          (chainModel.N_ - 1)).1
        ((chainCollab (1 / 2)).randInt ((chainCollab (1 / 2)).randVec 0 0 1).2
          (chainModel.N_ - 1)).2 log s) ∧
    ∀ log s, GrowReach (chainCollab (1 / 2)) chainModel ((chainCollab (1 / 2)).randVec 0 0 1).1
        ((chainCollab (1 / 2)).randInt ((chainCollab (1 / 2)).randVec 0 0 1).2
          (chainModel.N_ - 1)).1
        ((chainCollab (1 / 2)).randInt ((chainCollab (1 / 2)).randVec 0 0 1).2
          (chainModel.N_ - 1)).2 log s →
      log.Nodup ∧ s.cluster = log ∧ s.cluster.Nodup ∧
      ∀ i, i < chainModel.N_ → (s.inCluster i = true ↔ i ∈ s.cluster)) :=
  ⟨chainCollab_wf _, by decide, chainModel_allClear, by decide,
    wolffUpdate_cluster_nodup (chainCollab (1 / 2)) chainModel 0 0 1 4
      (chainCollab_wf _) (by decide) chainModel_allClear (by decide)⟩

/-- C3: when `h = 0` (standing assumptions: well-formed collaborators, at
least one site, `inCluster_` all false on entry, loop bound at least `N_`),
`wolffUpdate` computes `onsiteEnergy_diff = 0`, returns without consuming an
accept/reject draw (the generator it returns is the generator at the exit of
the growth loop), increments `numAccept_clust_` by exactly 1 and leaves the
cluster flipped: every cluster site holds the reflection of its previous
spin, which is `s − 2 (s · r) r` for unit spins and a unit axis, and every
other site holds its previous spin; and after any sequence of calls from a
zeroed counter, `numAccept_clust_` is the number of Wolff updates of the
sequence. -/
theorem wolffUpdate_h0_accepts (c : Collab G K n) (fuel : Nat) (m : ON_Model_Ngeq2 K n)
    (g : G) (start end_ : Nat) (pr : Bool) (h : m.Ready c fuel) (hh : m.h_ = 0) :
    (∃ s res, m.growCluster c fuel g start end_ = some ((c.randVec g start end_).1, s) ∧
      ON_Model_Ngeq2.onsiteEnergyDiff c { m with inCluster_ := s.inCluster } s.cluster
        (c.randVec g start end_).1 = 0 ∧
      m.wolffUpdate c fuel g start end_ pr = some res ∧
      res.2 = s.rng ∧
      res.1.numAccept_clust_ = m.numAccept_clust_ + 1 ∧
      res.1.spins_ = (m.flipCluster c s.cluster (c.randVec g start end_).1).spins_ ∧
      (∀ i, res.1.spins_ i =
        if i ∈ s.cluster then
          Vector_NDim.getReflectionAndNormalize c.sqrt (m.spins_ i) (c.randVec g start end_).1
        else m.spins_ i) ∧
      (c.sqrt 1 = 1 →
        Vector_NDim.dot (c.randVec g start end_).1 (c.randVec g start end_).1 = 1 →
        m.UnitSpins →
        ∀ i, res.1.spins_ i =
          if i ∈ s.cluster then
            fun k => m.spins_ i k -
              2 * Vector_NDim.dot (m.spins_ i) (c.randVec g start end_).1 *
                (c.randVec g start end_).1 k
          else m.spins_ i)) ∧
    ∀ calls : List Call, m.numAccept_clust_ = 0 →
      ∃ res, ON_Model_Ngeq2.runCalls c fuel calls (m, g) = some res ∧
        res.1.numAccept_clust_ = calls.countP Call.isWolff := by
  constructor
  · obtain ⟨s, w1, -, -, w4, w5, -⟩ := Ready.wolffUpdate h g start end_ pr
    have h0 := onsiteEnergyDiff_h0 c { m with inCluster_ := s.inCluster } s.cluster
      (c.randVec g start end_).1 hh
    have hd : ¬ 0 < ON_Model_Ngeq2.onsiteEnergyDiff c { m with inCluster_ := s.inCluster }
        s.cluster (c.randVec g start end_).1 := by
      rw [h0]
      exact lt_irrefl 0
    obtain ⟨a1, a2, a3⟩ := (finishCluster_cases c { m with inCluster_ := s.inCluster }
      (c.randVec g start end_).1 s.cluster s.rng pr).1 hd
    refine ⟨s, _, w4, h0, w5, a1, a2, a3, fun i => ?_, fun hsqrt hr hu i => ?_⟩
    · rw [a3, flipCluster_spins c { m with inCluster_ := s.inCluster } s.cluster _ w1.nodup]
    · rw [a3]
      exact flipCluster_spins_unit c { m with inCluster_ := s.inCluster } s.cluster _ hsqrt hr
        w1.nodup w1.lt hu i
  · intro calls h0
    obtain ⟨res, r1, r2⟩ := runCalls_accept_h0 c fuel calls m g h hh
    exact ⟨res, r1, by rw [r2, h0, Nat.zero_add]⟩

/-- Witness of C3 on the alternating model of the chain of four sites, where
`h = 0`: the Wolff update returns `neelResult`, in which the spin `(-1, 0)`
of the cluster site `1` is replaced by `(1, 0)`. -/
theorem wolffUpdate_h0_accepts_witness :
    neelModel.Ready (chainCollab (1 / 2)) 4 ∧ neelModel.h_ = 0 ∧
    neelModel.wolffUpdate (chainCollab (1 / 2)) 4 0 0 1 false = some neelResult ∧
    neelModel.spins_ 1 = ![-1, 0] ∧ neelResult.1.spins_ 1 = ![1, 0] ∧
    ((∃ s res, neelModel.growCluster (chainCollab (1 / 2)) 4 0 0 1 =
        some (((chainCollab (1 / 2)).randVec 0 0 1).1, s) ∧
      ON_Model_Ngeq2.onsiteEnergyDiff (chainCollab (1 / 2))
        { neelModel with inCluster_ := s.inCluster } s.cluster
        ((chainCollab (1 / 2)).randVec 0 0 1).1 = 0 ∧
      neelModel.wolffUpdate (chainCollab (1 / 2)) 4 0 0 1 false = some res ∧
      res.2 = s.rng ∧
      res.1.numAccept_clust_ = neelModel.numAccept_clust_ + 1 ∧
      res.1.spins_ = (neelModel.flipCluster (chainCollab (1 / 2)) s.cluster
        ((chainCollab (1 / 2)).randVec 0 0 1).1).spins_ ∧
      (∀ i, res.1.spins_ i =
        if i ∈ s.cluster then
          Vector_NDim.getReflectionAndNormalize (chainCollab (1 / 2)).sqrt
            (neelModel.spins_ i) ((chainCollab (1 / 2)).randVec 0 0 1).1
        else neelModel.spins_ i) ∧
      ((chainCollab (1 / 2)).sqrt 1 = 1 →
        Vector_NDim.dot ((chainCollab (1 / 2)).randVec 0 0 1).1
          ((chainCollab (1 / 2)).randVec 0 0 1).1 = 1 →
        neelModel.UnitSpins →
        ∀ i, res.1.spins_ i =
          if i ∈ s.cluster then
            fun k => neelModel.spins_ i k -
              2 * Vector_NDim.dot (neelModel.spins_ i)
                ((chainCollab (1 / 2)).randVec 0 0 1).1 *
                ((chainCollab (1 / 2)).randVec 0 0 1).1 k
          else neelModel.spins_ i)) ∧
    ∀ calls : List Call, neelModel.numAccept_clust_ = 0 →
      ∃ res, ON_Model_Ngeq2.runCalls (chainCollab (1 / 2)) 4 calls (neelModel, 0) = some res ∧
        res.1.numAccept_clust_ = calls.countP Call.isWolff) :=
  ⟨neelModel_ready _, rfl, neelModel_wolffUpdate, rfl,
    by rw [neelResult_spins, Function.update_same],
    wolffUpdate_h0_accepts (chainCollab (1 / 2)) 4 neelModel 0 0 1 false
      (neelModel_ready _) rfl⟩

/-- C4: for every accepted local move on a periodic lattice (backward
direction `j + D` inverse of forward direction `j`, no site its own
neighbour, neighbours and the selected site inside the lattice), `getEnergy`
after `localUpdate` minus `getEnergy` before it equals the `deltaE` that
`localUpdate` computed, which is
`-J (nnSum · candidate − nnSum · current) − h (candidate[0] − current[0])`. -/
theorem localUpdate_energy_diff (c : Collab G K n) (m : ON_Model_Ngeq2 K n) (g : G)
    (hwf : c.WellFormed m.N_ m.D_) (hper : c.Periodic m.N_ m.D_) (hN : 0 < m.N_)
    (hacc : (m.localUpdate c g).1.numAccept_local_ = m.numAccept_local_ + 1) :
    ON_Model_Ngeq2.getEnergy c (m.localUpdate c g).1 - m.getEnergy c =
      m.localDeltaE c (m.localSite c g).1 (ON_Model_Ngeq2.localCandidate c g).1 ∧
    m.localDeltaE c (m.localSite c g).1 (ON_Model_Ngeq2.localCandidate c g).1 =
      (-1) * m.J_ *
        (Vector_NDim.dot (m.nnSum c (m.localSite c g).1)
            (ON_Model_Ngeq2.localCandidate c g).1 -
          Vector_NDim.dot (m.nnSum c (m.localSite c g).1) (m.spins_ (m.localSite c g).1)) -
      m.h_ * ((ON_Model_Ngeq2.localCandidate c g).1.v0 - (m.spins_ (m.localSite c g).1).v0) := by
  refine ⟨?_, rfl⟩
  have hsite := localSite_lt c m g hwf hN
  have hres : (m.localUpdate c g).1 =
      { m with spins_ := Function.update m.spins_ (m.localSite c g).1
                  (ON_Model_Ngeq2.localCandidate c g).1,
                numAccept_local_ := m.numAccept_local_ + 1 } := by
    obtain ⟨h1, h2⟩ := localUpdate_cases c m g
    rcases le_or_lt (m.localDeltaE c (m.localSite c g).1
      (ON_Model_Ngeq2.localCandidate c g).1) 0 with hd | hd
    · rw [h1 hd]
    · by_cases hu : (c.randDblExc (m.localSite c g).2).1 < c.exp
          (-m.localDeltaE c (m.localSite c g).1 (ON_Model_Ngeq2.localCandidate c g).1 / m.T_)
      · rw [(h2 hd).1 hu]
      · rw [(h2 hd).2 hu] at hacc
        exact absurd hacc (by simp)
  rw [hres]
  have hJ := energyJ_update c m (m.localSite c g).1 (ON_Model_Ngeq2.localCandidate c g).1
    hwf hper hsite
  have hh := energyh_update m (m.localSite c g).1 (ON_Model_Ngeq2.localCandidate c g).1 hsite
  unfold ON_Model_Ngeq2.getEnergy ON_Model_Ngeq2.localDeltaE
  simp only
  have eJ : ON_Model_Ngeq2.energyJ c
      { m with spins_ := Function.update m.spins_ (m.localSite c g).1
                  (ON_Model_Ngeq2.localCandidate c g).1,
                numAccept_local_ := m.numAccept_local_ + 1 } =
      ON_Model_Ngeq2.energyJ c
      { m with spins_ := Function.update m.spins_ (m.localSite c g).1
                  (ON_Model_Ngeq2.localCandidate c g).1 } := rfl
  have eh : ON_Model_Ngeq2.energyh
      { m with spins_ := Function.update m.spins_ (m.localSite c g).1
                  (ON_Model_Ngeq2.localCandidate c g).1,
                numAccept_local_ := m.numAccept_local_ + 1 } =
      ON_Model_Ngeq2.energyh
      { m with spins_ := Function.update m.spins_ (m.localSite c g).1
                  (ON_Model_Ngeq2.localCandidate c g).1 } := rfl
  rw [eJ, eh]
  linear_combination (-1) * m.J_ * hJ + (-1) * m.h_ * hh

/-- Witness of C4: the first local update of the chain model is accepted. -/
theorem localUpdate_energy_diff_witness :
    (chainCollab (1 / 2)).WellFormed chainModel.N_ chainModel.D_ ∧
    (chainCollab (1 / 2)).Periodic chainModel.N_ chainModel.D_ ∧ 0 < chainModel.N_ ∧
    (chainModel.localUpdate (chainCollab (1 / 2)) 0).1.numAccept_local_ =
      chainModel.numAccept_local_ + 1 ∧
    (ON_Model_Ngeq2.getEnergy (chainCollab (1 / 2))
        (chainModel.localUpdate (chainCollab (1 / 2)) 0).1 -
        chainModel.getEnergy (chainCollab (1 / 2)) =
      chainModel.localDeltaE (chainCollab (1 / 2))
        (chainModel.localSite (chainCollab (1 / 2)) 0).1
        (ON_Model_Ngeq2.localCandidate (chainCollab (1 / 2)) 0).1 ∧
    chainModel.localDeltaE (chainCollab (1 / 2))
        (chainModel.localSite (chainCollab (1 / 2)) 0).1
        (ON_Model_Ngeq2.localCandidate (chainCollab (1 / 2)) 0).1 =
      (-1) * chainModel.J_ *
        (Vector_NDim.dot (chainModel.nnSum (chainCollab (1 / 2))
              (chainModel.localSite (chainCollab (1 / 2)) 0).1)
            (ON_Model_Ngeq2.localCandidate (chainCollab (1 / 2)) 0).1 -
          Vector_NDim.dot (chainModel.nnSum (chainCollab (1 / 2))
              (chainModel.localSite (chainCollab (1 / 2)) 0).1)
            (chainModel.spins_ (chainModel.localSite (chainCollab (1 / 2)) 0).1)) -
      chainModel.h_ * ((ON_Model_Ngeq2.localCandidate (chainCollab (1 / 2)) 0).1.v0 -
        (chainModel.spins_ (chainModel.localSite (chainCollab (1 / 2)) 0).1).v0)) :=
  ⟨chainCollab_wf _, chainCollab_periodic _, by decide, chainModel_localUpdate_accepted _,
    localUpdate_energy_diff (chainCollab (1 / 2)) chainModel 0 (chainCollab_wf _)
      (chainCollab_periodic _) (by decide) (chainModel_localUpdate_accepted _)⟩

/-- C7: `localUpdate` accepts the move (the counter `numAccept_local_` is
incremented) if and only if `deltaE ≤ 0`, or `deltaE > 0` and the draw `u`
satisfies `u < exp (-deltaE / T)`; when `deltaE ≤ 0` the generator returned
is the generator after the site draw (no acceptance draw), and when
`deltaE > 0` it is the generator after exactly one more real draw. -/
theorem localUpdate_accept_iff (c : Collab G K n) (m : ON_Model_Ngeq2 K n) (g : G) :
    ((m.localUpdate c g).1.numAccept_local_ = m.numAccept_local_ + 1 ↔
      (m.localDeltaE c (m.localSite c g).1 (ON_Model_Ngeq2.localCandidate c g).1 ≤ 0 ∨
        (0 < m.localDeltaE c (m.localSite c g).1 (ON_Model_Ngeq2.localCandidate c g).1 ∧
          (c.randDblExc (m.localSite c g).2).1 < c.exp
            (-m.localDeltaE c (m.localSite c g).1 (ON_Model_Ngeq2.localCandidate c g).1 /
              m.T_)))) ∧
    (m.localDeltaE c (m.localSite c g).1 (ON_Model_Ngeq2.localCandidate c g).1 ≤ 0 →
      (m.localUpdate c g).2 = (m.localSite c g).2) ∧
    (0 < m.localDeltaE c (m.localSite c g).1 (ON_Model_Ngeq2.localCandidate c g).1 →
      (m.localUpdate c g).2 = (c.randDblExc (m.localSite c g).2).2) := by
  obtain ⟨h1, h2⟩ := localUpdate_cases c m g
  refine ⟨⟨fun hacc => ?_, fun hA => ?_⟩, fun hd => by rw [h1 hd], fun hd => ?_⟩
  · rcases le_or_lt (m.localDeltaE c (m.localSite c g).1
      (ON_Model_Ngeq2.localCandidate c g).1) 0 with hd | hd
    · exact Or.inl hd
    · by_cases hu : (c.randDblExc (m.localSite c g).2).1 < c.exp
          (-m.localDeltaE c (m.localSite c g).1 (ON_Model_Ngeq2.localCandidate c g).1 / m.T_)
      · exact Or.inr ⟨hd, hu⟩
      · rw [(h2 hd).2 hu] at hacc
        exact absurd hacc (by simp)
  · rcases hA with hd | ⟨hd, hu⟩
    · rw [h1 hd]
    · rw [(h2 hd).1 hu]
  · by_cases hu : (c.randDblExc (m.localSite c g).2).1 < c.exp
        (-m.localDeltaE c (m.localSite c g).1 (ON_Model_Ngeq2.localCandidate c g).1 / m.T_)
    · rw [(h2 hd).1 hu]
    · rw [(h2 hd).2 hu]

/-- C8: `localUpdate` changes at most the selected site. When the move is
accepted (`deltaE ≤ 0`, or `deltaE > 0` and `u < exp (-deltaE / T)`) the spin
of the selected site is the candidate, every other spin is unchanged and
`numAccept_local_` is incremented by exactly 1; otherwise every spin and
`numAccept_local_` are unchanged. In both cases `numAccept_clust_`,
`inCluster_`, `J`, `h` and `T` are unchanged. -/
theorem localUpdate_changes_one_site (c : Collab G K n) (m : ON_Model_Ngeq2 K n) (g : G) :
    ((m.localDeltaE c (m.localSite c g).1 (ON_Model_Ngeq2.localCandidate c g).1 ≤ 0 ∨
        (0 < m.localDeltaE c (m.localSite c g).1 (ON_Model_Ngeq2.localCandidate c g).1 ∧
          (c.randDblExc (m.localSite c g).2).1 < c.exp
            (-m.localDeltaE c (m.localSite c g).1 (ON_Model_Ngeq2.localCandidate c g).1 /
              m.T_))) →
      (m.localUpdate c g).1.spins_ (m.localSite c g).1 =
        (ON_Model_Ngeq2.localCandidate c g).1 ∧
      (∀ j, j ≠ (m.localSite c g).1 → (m.localUpdate c g).1.spins_ j = m.spins_ j) ∧
      (m.localUpdate c g).1.numAccept_local_ = m.numAccept_local_ + 1) ∧
    (¬ (m.localDeltaE c (m.localSite c g).1 (ON_Model_Ngeq2.localCandidate c g).1 ≤ 0 ∨
        (0 < m.localDeltaE c (m.localSite c g).1 (ON_Model_Ngeq2.localCandidate c g).1 ∧
          (c.randDblExc (m.localSite c g).2).1 < c.exp
            (-m.localDeltaE c (m.localSite c g).1 (ON_Model_Ngeq2.localCandidate c g).1 /
              m.T_))) →
      (m.localUpdate c g).1.spins_ = m.spins_ ∧
      (m.localUpdate c g).1.numAccept_local_ = m.numAccept_local_) ∧
    (m.localUpdate c g).1.numAccept_clust_ = m.numAccept_clust_ ∧
    (m.localUpdate c g).1.inCluster_ = m.inCluster_ ∧
    (m.localUpdate c g).1.J_ = m.J_ ∧ (m.localUpdate c g).1.h_ = m.h_ ∧
    (m.localUpdate c g).1.T_ = m.T_ := by
  obtain ⟨h1, h2⟩ := localUpdate_cases c m g
  obtain ⟨-, -, f3, f4, f5, -, -, f8, f9, -⟩ := localUpdate_frame c m g
  refine ⟨fun hA => ?_, fun hA => ?_, f9, f8, f3, f4, f5⟩
  · have hres : m.localUpdate c g =
        ({ m with spins_ := Function.update m.spins_ (m.localSite c g).1
                    (ON_Model_Ngeq2.localCandidate c g).1,
                  numAccept_local_ := m.numAccept_local_ + 1 }, (m.localUpdate c g).2) := by
      rcases hA with hd | ⟨hd, hu⟩
      · rw [h1 hd]
      · rw [(h2 hd).1 hu]
    rw [hres]
    exact ⟨Function.update_same _ _ _, fun j hj => Function.update_noteq hj _ _, rfl⟩
  · have hd : 0 < m.localDeltaE c (m.localSite c g).1 (ON_Model_Ngeq2.localCandidate c g).1 :=
      not_le.1 (fun hle => hA (Or.inl hle))
    have hu : ¬ (c.randDblExc (m.localSite c g).2).1 < c.exp
        (-m.localDeltaE c (m.localSite c g).1 (ON_Model_Ngeq2.localCandidate c g).1 / m.T_) :=
      fun hlt => hA (Or.inr ⟨hd, hlt⟩)
    rw [(h2 hd).2 hu]
    exact ⟨rfl, rfl⟩

/-- C9: for every `N`, the calls that `sweep` issues are, in this order,
`N / 2` calls of `localUpdate`, one call of `wolffUpdate` with `start = 0`
and `end = spinDim − 1`, and `N − N / 2` calls of `localUpdate`; these are `N`
local updates and one Wolff update, and `sweep` is the run of these calls. -/
theorem sweep_calls (c : Collab G K n) (fuel : Nat) (m : ON_Model_Ngeq2 K n) (g : G)
    (pr : Bool) :
    sweepTrace m.N_ n pr =
      List.replicate (m.N_ / 2) Call.localUpdate ++ [Call.wolffUpdate 0 (n - 1) pr] ++
        List.replicate (m.N_ - m.N_ / 2) Call.localUpdate ∧
    (sweepTrace m.N_ n pr).count Call.localUpdate = m.N_ ∧
    (sweepTrace m.N_ n pr).countP Call.isWolff = 1 ∧
    m.sweep c fuel g pr = ON_Model_Ngeq2.runCalls c fuel (sweepTrace m.N_ n pr) (m, g) := by
  refine ⟨sweepTrace_eq _ _ _, ?_, ?_, sweep_eq_runCalls c fuel m g pr⟩
  · rw [sweepTrace_eq]
    simp only [List.count_append, List.count_replicate_self, List.count_cons, List.count_nil]
    simp
    omega
  · rw [sweepTrace_eq]
    simp only [List.countP_append, List.countP_replicate, List.countP_cons, List.countP_nil,
      Call.isWolff]
    simp

/-- C6: for a lattice of unit spins and a unit reflection axis `r` (standing
assumptions, `sqrt 1 = 1`), `wolffUpdate` leaves the lattice in exactly one
of two configurations. Either the move is rejected (the counter of accepted
cluster moves is unchanged) and every spin equals its value before the call,
since the reflection applied twice gives a unit vector back; or it is
accepted (the counter is incremented) and every cluster site holds
`s − 2 (s · r) r` of its previous spin `s`, every site outside the cluster
being unchanged. -/
theorem wolffUpdate_flipped_or_original (c : Collab G K n) (fuel : Nat)
    (m : ON_Model_Ngeq2 K n) (g : G) (start end_ : Nat) (pr : Bool) (h : m.Ready c fuel)
    (hsqrt : c.sqrt 1 = 1)
    (hunit : ∀ i, i < m.N_ → Vector_NDim.dot (m.spins_ i) (m.spins_ i) = 1)
    (hr : Vector_NDim.dot (c.randVec g start end_).1 (c.randVec g start end_).1 = 1) :
    (∀ v : Vector_NDim K n, Vector_NDim.dot v v = 1 →
      Vector_NDim.getReflectionAndNormalize c.sqrt
        (Vector_NDim.getReflectionAndNormalize c.sqrt v (c.randVec g start end_).1)
        (c.randVec g start end_).1 = v) ∧
    ∃ s res, m.growCluster c fuel g start end_ = some ((c.randVec g start end_).1, s) ∧
      m.wolffUpdate c fuel g start end_ pr = some res ∧
      ((res.1.numAccept_clust_ = m.numAccept_clust_ ∧ ∀ i, res.1.spins_ i = m.spins_ i) ∨
       (res.1.numAccept_clust_ = m.numAccept_clust_ + 1 ∧
        ∀ i, res.1.spins_ i =
          if i ∈ s.cluster then
            fun k => m.spins_ i k -
              2 * Vector_NDim.dot (m.spins_ i) (c.randVec g start end_).1 *
                (c.randVec g start end_).1 k
          else m.spins_ i)) := by
  refine ⟨fun v hv => getReflectionAndNormalize_twice c.sqrt hsqrt v _ hv hr, ?_⟩
  obtain ⟨s, w1, -, -, w4, w5, -⟩ := Ready.wolffUpdate h g start end_ pr
  refine ⟨s, _, w4, w5, ?_⟩
  have hflip : ∀ i, (ON_Model_Ngeq2.flipCluster c { m with inCluster_ := s.inCluster } s.cluster
      (c.randVec g start end_).1).spins_ i =
      if i ∈ s.cluster then
        fun k => m.spins_ i k -
          2 * Vector_NDim.dot (m.spins_ i) (c.randVec g start end_).1 *
            (c.randVec g start end_).1 k
      else m.spins_ i := by
    intro i
    rw [flipCluster_spins c _ s.cluster _ w1.nodup]
    by_cases hi : i ∈ s.cluster
    · simp only [hi, if_true]
      exact getReflectionAndNormalize_unit c.sqrt hsqrt _ _ (hunit i (w1.lt i hi)) hr
    · simp only [hi, if_false]
  have hback : ∀ i, ((ON_Model_Ngeq2.flipCluster c { m with inCluster_ := s.inCluster }
      s.cluster (c.randVec g start end_).1).flipCluster c s.cluster
      (c.randVec g start end_).1).spins_ i = m.spins_ i := by
    intro i
    rw [flipCluster_spins c _ s.cluster _ w1.nodup]
    by_cases hi : i ∈ s.cluster
    · simp only [hi, if_true]
      rw [flipCluster_spins c _ s.cluster _ w1.nodup]
      simp only [hi, if_true]
      exact getReflectionAndNormalize_twice c.sqrt hsqrt _ _ (hunit i (w1.lt i hi)) hr
    · simp only [hi, if_false]
      rw [flipCluster_spins c _ s.cluster _ w1.nodup]
      simp only [hi, if_false]
  obtain ⟨c1, c2⟩ := finishCluster_cases c { m with inCluster_ := s.inCluster }
    (c.randVec g start end_).1 s.cluster s.rng pr
  by_cases hd : 0 < ON_Model_Ngeq2.onsiteEnergyDiff c { m with inCluster_ := s.inCluster }
      s.cluster (c.randVec g start end_).1
  · obtain ⟨-, d2, d3⟩ := c2 hd
    by_cases hu : (c.randDblExc s.rng).1 < c.exp ((-1) *
        ON_Model_Ngeq2.onsiteEnergyDiff c { m with inCluster_ := s.inCluster } s.cluster
          (c.randVec g start end_).1 / m.T_)
    · obtain ⟨e1, e2⟩ := d2 hu
      exact Or.inr ⟨e1, fun i => by rw [e2]; exact hflip i⟩
    · obtain ⟨e1, e2⟩ := d3 (not_lt.1 hu)
      exact Or.inl ⟨e1, fun i => by rw [e2]; exact hback i⟩
  · obtain ⟨-, e1, e2⟩ := c1 hd
    exact Or.inr ⟨e1, fun i => by rw [e2]; exact hflip i⟩

/-- Witness of C6 on the chain of four sites. -/
theorem wolffUpdate_flipped_or_original_witness :
    chainModel.Ready (chainCollab (1 / 2)) 4 ∧ (chainCollab (1 / 2)).sqrt 1 = 1 ∧
    (∀ i, i < chainModel.N_ →
      Vector_NDim.dot (chainModel.spins_ i) (chainModel.spins_ i) = 1) ∧
    Vector_NDim.dot ((chainCollab (1 / 2)).randVec 0 0 1).1
      ((chainCollab (1 / 2)).randVec 0 0 1).1 = 1 ∧
    ((∀ v : Vector_NDim ℚ 2, Vector_NDim.dot v v = 1 →
      Vector_NDim.getReflectionAndNormalize (chainCollab (1 / 2)).sqrt
        (Vector_NDim.getReflectionAndNormalize (chainCollab (1 / 2)).sqrt v
          ((chainCollab (1 / 2)).randVec 0 0 1).1)
        ((chainCollab (1 / 2)).randVec 0 0 1).1 = v) ∧
    ∃ s res, chainModel.growCluster (chainCollab (1 / 2)) 4 0 0 1 =
        some (((chainCollab (1 / 2)).randVec 0 0 1).1, s) ∧
      chainModel.wolffUpdate (chainCollab (1 / 2)) 4 0 0 1 false = some res ∧
      ((res.1.numAccept_clust_ = chainModel.numAccept_clust_ ∧
          ∀ i, res.1.spins_ i = chainModel.spins_ i) ∨
       (res.1.numAccept_clust_ = chainModel.numAccept_clust_ + 1 ∧
        ∀ i, res.1.spins_ i =
          if i ∈ s.cluster then
            fun k => chainModel.spins_ i k -
              2 * Vector_NDim.dot (chainModel.spins_ i)
                ((chainCollab (1 / 2)).randVec 0 0 1).1 *
                ((chainCollab (1 / 2)).randVec 0 0 1).1 k
          else chainModel.spins_ i))) :=
  ⟨chainModel_ready _, chainCollab_sqrt_one _, fun i _ => chainModel_unit i,
    chainCollab_unit _ 0 0 1,
    wolffUpdate_flipped_or_original (chainCollab (1 / 2)) 4 chainModel 0 0 1 false
      (chainModel_ready _) (chainCollab_sqrt_one _) (fun i _ => chainModel_unit i)
      (chainCollab_unit _ 0 0 1)⟩

/-- Counterexample to C5: on the chain of four sites with alternating spins
`(1, 0)` and `(-1, 0)`, `J = 1`, `h = 0`, `T = 1` and the axis `(1, 0)`, the
Wolff update grows the cluster `[1]`, computes `onsiteEnergy_diff = 0` and is
accepted, while `getEnergy` after the call minus `getEnergy` before it is
`-4`: the two bonds between the cluster and its exterior change. -/
theorem wolffUpdate_energy_diff_counterexample :
    ∃ s res, neelModel.growCluster (chainCollab (1 / 2)) 4 0 0 1 =
        some (((chainCollab (1 / 2)).randVec 0 0 1).1, s) ∧
      neelModel.wolffUpdate (chainCollab (1 / 2)) 4 0 0 1 false = some res ∧
      res.1.numAccept_clust_ = neelModel.numAccept_clust_ + 1 ∧
      ON_Model_Ngeq2.onsiteEnergyDiff (chainCollab (1 / 2))
        { neelModel with inCluster_ := s.inCluster } s.cluster
        ((chainCollab (1 / 2)).randVec 0 0 1).1 = 0 ∧
      ON_Model_Ngeq2.getEnergy (chainCollab (1 / 2)) res.1 -
        neelModel.getEnergy (chainCollab (1 / 2)) = -4 ∧
      ON_Model_Ngeq2.getEnergy (chainCollab (1 / 2)) res.1 -
        neelModel.getEnergy (chainCollab (1 / 2)) ≠
        ON_Model_Ngeq2.onsiteEnergyDiff (chainCollab (1 / 2))
          { neelModel with inCluster_ := s.inCluster } s.cluster
          ((chainCollab (1 / 2)).randVec 0 0 1).1 := by
  have hE : ON_Model_Ngeq2.getEnergy (chainCollab (1 / 2)) neelResult.1 -
      neelModel.getEnergy (chainCollab (1 / 2)) = -4 := by
    rw [neelResult_getEnergy, neelModel_getEnergy]
    norm_num
  refine ⟨_, _, neelModel_growCluster _, neelModel_wolffUpdate, neelResult_accepted,
    neelModel_onsiteEnergyDiff, hE, ?_⟩
  rw [hE]
  show (-4 : ℚ) ≠ ON_Model_Ngeq2.onsiteEnergyDiff (chainCollab (1 / 2))
      { neelModel with inCluster_ := Function.update (fun _ => false) 1 true } [1] ![1, 0]
  rw [neelModel_onsiteEnergyDiff]
  norm_num

/-- C5, amended: for every accepted cluster move (standing assumptions), the
field term of `getEnergy` changes by exactly the `onsiteEnergy_diff` that
`wolffUpdate` computed, so `getEnergy` after the call minus `getEnergy`
before it is `onsiteEnergy_diff − J (energyJ after − energyJ before)`; the
two differences agree when `J = 0`. -/
theorem wolffUpdate_field_energy_diff (c : Collab G K n) (fuel : Nat)
    (m : ON_Model_Ngeq2 K n) (g : G) (start end_ : Nat) (pr : Bool)
    (res : ON_Model_Ngeq2 K n × G) (h : m.Ready c fuel)
    (hres : m.wolffUpdate c fuel g start end_ pr = some res)
    (hacc : res.1.numAccept_clust_ = m.numAccept_clust_ + 1) :
    ∃ s, m.growCluster c fuel g start end_ = some ((c.randVec g start end_).1, s) ∧
      (-1) * res.1.h_ * res.1.energyh - (-1) * m.h_ * m.energyh =
        ON_Model_Ngeq2.onsiteEnergyDiff c { m with inCluster_ := s.inCluster } s.cluster
          (c.randVec g start end_).1 ∧
      ON_Model_Ngeq2.getEnergy c res.1 - m.getEnergy c =
        ON_Model_Ngeq2.onsiteEnergyDiff c { m with inCluster_ := s.inCluster } s.cluster
          (c.randVec g start end_).1 +
        (-1) * m.J_ * (ON_Model_Ngeq2.energyJ c res.1 - m.energyJ c) ∧
      (m.J_ = 0 → ON_Model_Ngeq2.getEnergy c res.1 - m.getEnergy c =
        ON_Model_Ngeq2.onsiteEnergyDiff c { m with inCluster_ := s.inCluster } s.cluster
          (c.randVec g start end_).1) := by
  obtain ⟨s, w1, -, -, w4, w5, -⟩ := Ready.wolffUpdate h g start end_ pr
  have hr : res = ON_Model_Ngeq2.finishCluster c { m with inCluster_ := s.inCluster }
      (c.randVec g start end_).1 s.cluster s.rng pr := Option.some.inj (hres.symm.trans w5)
  subst hr
  refine ⟨s, w4, ?_⟩
  obtain ⟨fN, -, fJ, fh, -⟩ := finishCluster_frame c { m with inCluster_ := s.inCluster }
    (c.randVec g start end_).1 s.cluster s.rng pr
  obtain ⟨c1, c2⟩ := finishCluster_cases c { m with inCluster_ := s.inCluster }
    (c.randVec g start end_).1 s.cluster s.rng pr
  have hsp : (ON_Model_Ngeq2.finishCluster c { m with inCluster_ := s.inCluster }
      (c.randVec g start end_).1 s.cluster s.rng pr).1.spins_ =
      (ON_Model_Ngeq2.flipCluster c { m with inCluster_ := s.inCluster } s.cluster
        (c.randVec g start end_).1).spins_ := by
    by_cases hd : 0 < ON_Model_Ngeq2.onsiteEnergyDiff c { m with inCluster_ := s.inCluster }
        s.cluster (c.randVec g start end_).1
    · obtain ⟨-, d2, d3⟩ := c2 hd
      by_cases hu : (c.randDblExc s.rng).1 < c.exp ((-1) *
          ON_Model_Ngeq2.onsiteEnergyDiff c { m with inCluster_ := s.inCluster } s.cluster
            (c.randVec g start end_).1 / m.T_)
      · exact (d2 hu).2
      · have hrej := (d3 (not_lt.1 hu)).1
        rw [hrej] at hacc
        exact absurd hacc (by simp)
    · exact (c1 hd).2.2
  have hfield : (-1) * (ON_Model_Ngeq2.finishCluster c { m with inCluster_ := s.inCluster }
      (c.randVec g start end_).1 s.cluster s.rng pr).1.h_ *
      (ON_Model_Ngeq2.finishCluster c { m with inCluster_ := s.inCluster }
      (c.randVec g start end_).1 s.cluster s.rng pr).1.energyh - (-1) * m.h_ * m.energyh =
      ON_Model_Ngeq2.onsiteEnergyDiff c { m with inCluster_ := s.inCluster } s.cluster
        (c.randVec g start end_).1 := by
    rw [energyh_eq_sum, energyh_eq_sum, fN, fh, hsp]
    exact field_diff_eq_onsiteEnergyDiff c { m with inCluster_ := s.inCluster } s.cluster
      (c.randVec g start end_).1 w1.nodup w1.lt
  have hfull : ON_Model_Ngeq2.getEnergy c (ON_Model_Ngeq2.finishCluster c
      { m with inCluster_ := s.inCluster } (c.randVec g start end_).1 s.cluster s.rng pr).1 -
      m.getEnergy c =
      ON_Model_Ngeq2.onsiteEnergyDiff c { m with inCluster_ := s.inCluster } s.cluster
        (c.randVec g start end_).1 +
      (-1) * m.J_ * (ON_Model_Ngeq2.energyJ c (ON_Model_Ngeq2.finishCluster c
        { m with inCluster_ := s.inCluster } (c.randVec g start end_).1 s.cluster s.rng pr).1 -
        m.energyJ c) := by
    unfold ON_Model_Ngeq2.getEnergy
    rw [fJ]
    show _ = _ + (-1) * m.J_ * _
    linear_combination hfield
  refine ⟨hfield, hfull, fun hJ0 => ?_⟩
  rw [hfull, hJ0]
  ring

/-- Witness of C5, amended: the accepted Wolff update of the alternating
model on the chain of four sites. -/
theorem wolffUpdate_field_energy_diff_witness :
    neelModel.Ready (chainCollab (1 / 2)) 4 ∧
    neelModel.wolffUpdate (chainCollab (1 / 2)) 4 0 0 1 false = some neelResult ∧
    neelResult.1.numAccept_clust_ = neelModel.numAccept_clust_ + 1 ∧
    ∃ s, neelModel.growCluster (chainCollab (1 / 2)) 4 0 0 1 =
        some (((chainCollab (1 / 2)).randVec 0 0 1).1, s) ∧
      (-1) * neelResult.1.h_ * neelResult.1.energyh -
          (-1) * neelModel.h_ * neelModel.energyh =
        ON_Model_Ngeq2.onsiteEnergyDiff (chainCollab (1 / 2))
          { neelModel with inCluster_ := s.inCluster } s.cluster
          ((chainCollab (1 / 2)).randVec 0 0 1).1 ∧
      ON_Model_Ngeq2.getEnergy (chainCollab (1 / 2)) neelResult.1 -
          neelModel.getEnergy (chainCollab (1 / 2)) =
        ON_Model_Ngeq2.onsiteEnergyDiff (chainCollab (1 / 2))
          { neelModel with inCluster_ := s.inCluster } s.cluster
          ((chainCollab (1 / 2)).randVec 0 0 1).1 +
        (-1) * neelModel.J_ * (ON_Model_Ngeq2.energyJ (chainCollab (1 / 2)) neelResult.1 -
          neelModel.energyJ (chainCollab (1 / 2))) ∧
      (neelModel.J_ = 0 → ON_Model_Ngeq2.getEnergy (chainCollab (1 / 2)) neelResult.1 -
          neelModel.getEnergy (chainCollab (1 / 2)) =
        ON_Model_Ngeq2.onsiteEnergyDiff (chainCollab (1 / 2))
          { neelModel with inCluster_ := s.inCluster } s.cluster
          ((chainCollab (1 / 2)).randVec 0 0 1).1) :=
  ⟨neelModel_ready _, neelModel_wolffUpdate, neelResult_accepted,
    wolffUpdate_field_energy_diff (chainCollab (1 / 2)) 4 neelModel 0 0 1 false neelResult
      (neelModel_ready _) neelModel_wolffUpdate neelResult_accepted⟩

/-- C10: with cluster-size tracking enabled (well-formed collaborators, at
least one site, loop bound at least `N_`), after `markWarmupDone` on a state
with `inCluster_` all false, or after the initialisation of the constructor,
every sequence of calls of `wolffUpdate` and `localUpdate` returns, and the
sum over all sizes of `clustSizes_accepted_[size-1] +
clustSizes_rejected_[size-1]` equals the number of Wolff updates of the
sequence. -/
theorem histogram_total_counts_wolff (c : Collab G K n) (fuel : Nat)
    (m : ON_Model_Ngeq2 K n) (g : G) (calls : List Call) (hwf : c.WellFormed m.N_ m.D_)
    (hN : 0 < m.N_) (hfuel : m.N_ ≤ fuel) (hw : m.writeClusts_ = true) :
    (m.AllClear →
      ∃ res, ON_Model_Ngeq2.runCalls c fuel calls (m.markWarmupDone, g) = some res ∧
        ∑ i in Finset.range res.1.N_,
          (res.1.clustSizes_accepted_ i + res.1.clustSizes_rejected_ i) =
          calls.countP Call.isWolff) ∧
    ∃ res, ON_Model_Ngeq2.runCalls c fuel calls (m.construct, g) = some res ∧
      ∑ i in Finset.range res.1.N_,
        (res.1.clustSizes_accepted_ i + res.1.clustSizes_rejected_ i) =
        calls.countP Call.isWolff := by
  constructor
  · intro hclear
    obtain ⟨h1, h2, h3, h4⟩ := markWarmupDone_spec c fuel m ⟨hwf, hN, hclear, hfuel⟩ hw
    obtain ⟨res, r1, r2, r3⟩ := runCalls_histo c fuel calls m.markWarmupDone g h1 h2
    refine ⟨res, r1, ?_⟩
    rw [r2, r3, h3, Finset.sum_eq_zero (fun i hi => by
      obtain ⟨a1, a2⟩ := h4 i (Finset.mem_range.1 hi)
      rw [a1, a2, Nat.zero_add]), Nat.zero_add]
  · obtain ⟨h1, h2, h3, h4⟩ := construct_spec c fuel m hwf hN hfuel hw
    obtain ⟨res, r1, r2, r3⟩ := runCalls_histo c fuel calls m.construct g h1 h2
    refine ⟨res, r1, ?_⟩
    rw [r2, r3, h3, Finset.sum_eq_zero (fun i hi => by
      obtain ⟨a1, a2⟩ := h4 i (Finset.mem_range.1 hi)
      rw [a1, a2, Nat.zero_add]), Nat.zero_add]

/-- Witness of C10 on the chain of four sites, for a local update, two Wolff
updates and a local update. -/
theorem histogram_total_counts_wolff_witness :
    (chainCollab (1 / 2)).WellFormed chainModel.N_ chainModel.D_ ∧ 0 < chainModel.N_ ∧
    chainModel.N_ ≤ 4 ∧ chainModel.writeClusts_ = true ∧
    ((chainModel.AllClear →
      ∃ res, ON_Model_Ngeq2.runCalls (chainCollab (1 / 2)) 4
          [Call.localUpdate, Call.wolffUpdate 0 1 false, Call.wolffUpdate 0 1 false,
            Call.localUpdate] (chainModel.markWarmupDone, 0) = some res ∧
        ∑ i in Finset.range res.1.N_,
          (res.1.clustSizes_accepted_ i + res.1.clustSizes_rejected_ i) =
          [Call.localUpdate, Call.wolffUpdate 0 1 false, Call.wolffUpdate 0 1 false,
            Call.localUpdate].countP Call.isWolff) ∧
    ∃ res, ON_Model_Ngeq2.runCalls (chainCollab (1 / 2)) 4
        [Call.localUpdate, Call.wolffUpdate 0 1 false, Call.wolffUpdate 0 1 false,
          Call.localUpdate] (chainModel.construct, 0) = some res ∧
      ∑ i in Finset.range res.1.N_,
        (res.1.clustSizes_accepted_ i + res.1.clustSizes_rejected_ i) =
        [Call.localUpdate, Call.wolffUpdate 0 1 false, Call.wolffUpdate 0 1 false,
          Call.localUpdate].countP Call.isWolff) :=
  ⟨chainCollab_wf _, by decide, by decide, rfl,
    histogram_total_counts_wolff (chainCollab (1 / 2)) 4 chainModel 0
      [Call.localUpdate, Call.wolffUpdate 0 1 false, Call.wolffUpdate 0 1 false,
        Call.localUpdate] (chainCollab_wf _) (by decide) (by decide) rfl⟩

/-- C11: in the accept/reject step of `wolffUpdate` (standing assumptions):
if `onsiteEnergy_diff ≤ 0` the move is accepted, no draw is consumed and
`numAccept_clust_` grows by 1; otherwise exactly one draw `u` is consumed,
whatever the cluster, and the move is rejected (cluster flipped back,
`numAccept_clust_` unchanged) if `u ≥ exp (-onsiteEnergy_diff / T)` and
accepted (flip kept, `numAccept_clust_ + 1`) if
`u < exp (-onsiteEnergy_diff / T)`. So `numAccept_clust_` grows by 0 or 1
and `numAccept_local_` is unchanged. When the flip is kept every cluster site
holds the reflection of its previous spin (`s − 2 (s · r) r` for unit spins
and a unit axis); when the cluster is flipped back every cluster site holds
the reflection of the reflection of its previous spin (the previous spin
itself for unit spins and a unit axis); every site outside the cluster holds
its previous spin. -/
theorem wolffUpdate_accept_step (c : Collab G K n) (fuel : Nat) (m : ON_Model_Ngeq2 K n)
    (g : G) (start end_ : Nat) (pr : Bool) (h : m.Ready c fuel) :
    ∃ s res, m.growCluster c fuel g start end_ = some ((c.randVec g start end_).1, s) ∧
      m.wolffUpdate c fuel g start end_ pr = some res ∧
      (ON_Model_Ngeq2.onsiteEnergyDiff c { m with inCluster_ := s.inCluster } s.cluster
          (c.randVec g start end_).1 ≤ 0 →
        res.2 = s.rng ∧ res.1.numAccept_clust_ = m.numAccept_clust_ + 1 ∧
        res.1.spins_ = (m.flipCluster c s.cluster (c.randVec g start end_).1).spins_ ∧
        (∀ i, res.1.spins_ i =
          if i ∈ s.cluster then
            Vector_NDim.getReflectionAndNormalize c.sqrt (m.spins_ i)
              (c.randVec g start end_).1
          else m.spins_ i)) ∧
      (0 < ON_Model_Ngeq2.onsiteEnergyDiff c { m with inCluster_ := s.inCluster } s.cluster
          (c.randVec g start end_).1 →
        res.2 = (c.randDblExc s.rng).2 ∧
        (c.exp (-ON_Model_Ngeq2.onsiteEnergyDiff c { m with inCluster_ := s.inCluster }
            s.cluster (c.randVec g start end_).1 / m.T_) ≤ (c.randDblExc s.rng).1 →
          res.1.numAccept_clust_ = m.numAccept_clust_ ∧
          res.1.spins_ = ((m.flipCluster c s.cluster (c.randVec g start end_).1).flipCluster c
            s.cluster (c.randVec g start end_).1).spins_ ∧
          (∀ i, res.1.spins_ i =
            if i ∈ s.cluster then
              Vector_NDim.getReflectionAndNormalize c.sqrt
                (Vector_NDim.getReflectionAndNormalize c.sqrt (m.spins_ i)
                  (c.randVec g start end_).1) (c.randVec g start end_).1
            else m.spins_ i)) ∧
        ((c.randDblExc s.rng).1 < c.exp
            (-ON_Model_Ngeq2.onsiteEnergyDiff c { m with inCluster_ := s.inCluster }
              s.cluster (c.randVec g start end_).1 / m.T_) →
          res.1.numAccept_clust_ = m.numAccept_clust_ + 1 ∧
          res.1.spins_ = (m.flipCluster c s.cluster (c.randVec g start end_).1).spins_ ∧
          (∀ i, res.1.spins_ i =
            if i ∈ s.cluster then
              Vector_NDim.getReflectionAndNormalize c.sqrt (m.spins_ i)
                (c.randVec g start end_).1
            else m.spins_ i))) ∧
      (res.1.numAccept_clust_ = m.numAccept_clust_ ∨
        res.1.numAccept_clust_ = m.numAccept_clust_ + 1) ∧
      res.1.numAccept_local_ = m.numAccept_local_ ∧
      (c.sqrt 1 = 1 →
        Vector_NDim.dot (c.randVec g start end_).1 (c.randVec g start end_).1 = 1 →
        m.UnitSpins →
        (res.1.numAccept_clust_ = m.numAccept_clust_ → ∀ i, res.1.spins_ i = m.spins_ i) ∧
        (res.1.numAccept_clust_ = m.numAccept_clust_ + 1 →
          ∀ i, res.1.spins_ i =
            if i ∈ s.cluster then
              fun k => m.spins_ i k -
                2 * Vector_NDim.dot (m.spins_ i) (c.randVec g start end_).1 *
                  (c.randVec g start end_).1 k
            else m.spins_ i)) := by
  obtain ⟨s, w1, -, -, w4, w5, -⟩ := Ready.wolffUpdate h g start end_ pr
  obtain ⟨c1, c2⟩ := finishCluster_cases c { m with inCluster_ := s.inCluster }
    (c.randVec g start end_).1 s.cluster s.rng pr
  obtain ⟨-, -, -, -, -, -, -, f8, -⟩ := finishCluster_frame c
    { m with inCluster_ := s.inCluster } (c.randVec g start end_).1 s.cluster s.rng pr
  have hexp : (-1) * ON_Model_Ngeq2.onsiteEnergyDiff c { m with inCluster_ := s.inCluster }
      s.cluster (c.randVec g start end_).1 =
      -ON_Model_Ngeq2.onsiteEnergyDiff c { m with inCluster_ := s.inCluster }
      s.cluster (c.randVec g start end_).1 := neg_one_mul _
  rw [hexp] at c2
  have hone : ∀ i, (ON_Model_Ngeq2.flipCluster c { m with inCluster_ := s.inCluster }
      s.cluster (c.randVec g start end_).1).spins_ i =
      if i ∈ s.cluster then
        Vector_NDim.getReflectionAndNormalize c.sqrt (m.spins_ i) (c.randVec g start end_).1
      else m.spins_ i := by
    intro i
    rw [flipCluster_spins c { m with inCluster_ := s.inCluster } s.cluster _ w1.nodup]
  have htwo : ∀ i, ((ON_Model_Ngeq2.flipCluster c { m with inCluster_ := s.inCluster }
      s.cluster (c.randVec g start end_).1).flipCluster c s.cluster
      (c.randVec g start end_).1).spins_ i =
      if i ∈ s.cluster then
        Vector_NDim.getReflectionAndNormalize c.sqrt
          (Vector_NDim.getReflectionAndNormalize c.sqrt (m.spins_ i)
            (c.randVec g start end_).1) (c.randVec g start end_).1
      else m.spins_ i :=
    fun i => flipCluster_twice_spins c { m with inCluster_ := s.inCluster } s.cluster _
      w1.nodup i
  refine ⟨s, _, w4, w5, fun hd => ?_, fun hd => ?_, ?_, f8, fun hsqrt hr hu => ⟨?_, ?_⟩⟩
  · obtain ⟨a1, a2, a3⟩ := c1 (not_lt.2 hd)
    exact ⟨a1, a2, a3, fun i => by rw [a3]; exact hone i⟩
  · obtain ⟨d1, d2, d3⟩ := c2 hd
    refine ⟨d1, fun hu => ?_, fun hu => ?_⟩
    · obtain ⟨e1, e2⟩ := d3 hu
      exact ⟨e1, e2, fun i => by rw [e2]; exact htwo i⟩
    · obtain ⟨e1, e2⟩ := d2 hu
      exact ⟨e1, e2, fun i => by rw [e2]; exact hone i⟩
  · by_cases hd : 0 < ON_Model_Ngeq2.onsiteEnergyDiff c { m with inCluster_ := s.inCluster }
        s.cluster (c.randVec g start end_).1
    · obtain ⟨-, d2, d3⟩ := c2 hd
      by_cases hu : (c.randDblExc s.rng).1 < c.exp
          (-ON_Model_Ngeq2.onsiteEnergyDiff c { m with inCluster_ := s.inCluster }
            s.cluster (c.randVec g start end_).1 / m.T_)
      · exact Or.inr (d2 hu).1
      · exact Or.inl (d3 (not_lt.1 hu)).1
    · exact Or.inr (c1 hd).2.1
  · intro hrej i
    have hsp : (ON_Model_Ngeq2.finishCluster c { m with inCluster_ := s.inCluster }
        (c.randVec g start end_).1 s.cluster s.rng pr).1.spins_ =
        ((ON_Model_Ngeq2.flipCluster c { m with inCluster_ := s.inCluster } s.cluster
          (c.randVec g start end_).1).flipCluster c s.cluster
          (c.randVec g start end_).1).spins_ := by
      by_cases hd : 0 < ON_Model_Ngeq2.onsiteEnergyDiff c
          { m with inCluster_ := s.inCluster } s.cluster (c.randVec g start end_).1
      · obtain ⟨-, d2, d3⟩ := c2 hd
        by_cases hx : (c.randDblExc s.rng).1 < c.exp
            (-ON_Model_Ngeq2.onsiteEnergyDiff c { m with inCluster_ := s.inCluster }
              s.cluster (c.randVec g start end_).1 / m.T_)
        · have hacc := (d2 hx).1
          rw [hrej] at hacc
          exact absurd hacc (by simp)
        · exact (d3 (not_lt.1 hx)).2
      · have hacc := (c1 hd).2.1
        rw [hrej] at hacc
        exact absurd hacc (by simp)
    rw [hsp]
    exact flipCluster_twice_unit c { m with inCluster_ := s.inCluster } s.cluster _ hsqrt hr
      w1.nodup w1.lt hu i
  · intro hacc i
    have hsp : (ON_Model_Ngeq2.finishCluster c { m with inCluster_ := s.inCluster }
        (c.randVec g start end_).1 s.cluster s.rng pr).1.spins_ =
        (ON_Model_Ngeq2.flipCluster c { m with inCluster_ := s.inCluster } s.cluster
          (c.randVec g start end_).1).spins_ := by
      by_cases hd : 0 < ON_Model_Ngeq2.onsiteEnergyDiff c
          { m with inCluster_ := s.inCluster } s.cluster (c.randVec g start end_).1
      · obtain ⟨-, d2, d3⟩ := c2 hd
        by_cases hx : (c.randDblExc s.rng).1 < c.exp
            (-ON_Model_Ngeq2.onsiteEnergyDiff c { m with inCluster_ := s.inCluster }
              s.cluster (c.randVec g start end_).1 / m.T_)
        · exact (d2 hx).2
        · have hrej := (d3 (not_lt.1 hx)).1
          rw [hrej] at hacc
          exact absurd hacc (by simp)
      · exact (c1 hd).2.2
    rw [hsp]
    exact flipCluster_spins_unit c { m with inCluster_ := s.inCluster } s.cluster _ hsqrt hr
      w1.nodup w1.lt hu i

/-- Witness of C11 on the chain model with field, from the generator state
`1` and with every real draw `1/2`: the cluster is the site `2` alone,
`onsiteEnergy_diff = 2` is positive, the draw `1/2` is at least
`exp (-2) = 1/3`, and the move is rejected. -/
theorem wolffUpdate_accept_step_witness :
    fieldModel.Ready (chainCollab (1 / 2)) 4 ∧
    fieldModel.growCluster (chainCollab (1 / 2)) 4 1 0 1 =
      some (![1, 0], { inCluster := Function.update (fun _ => false) 2 true,
                       cluster := [2], buffer := [], rng := 3 }) ∧
    0 < ON_Model_Ngeq2.onsiteEnergyDiff (chainCollab (1 / 2))
      { fieldModel with inCluster_ := (Function.update (fun _ => false) 2 true) } [2]
      ![1, 0] ∧
    (chainCollab (1 / 2)).exp (-ON_Model_Ngeq2.onsiteEnergyDiff (chainCollab (1 / 2))
      { fieldModel with inCluster_ := (Function.update (fun _ => false) 2 true) } [2]
      ![1, 0] / fieldModel.T_) ≤ ((chainCollab (1 / 2)).randDblExc 3).1 ∧
    (∃ s res, fieldModel.growCluster (chainCollab (1 / 2)) 4 1 0 1 = some (((chainCollab (1 / 2)).randVec 1 0 1).1, s) ∧
      fieldModel.wolffUpdate (chainCollab (1 / 2)) 4 1 0 1 false = some res ∧
      (ON_Model_Ngeq2.onsiteEnergyDiff (chainCollab (1 / 2)) { fieldModel with inCluster_ := s.inCluster } s.cluster
          ((chainCollab (1 / 2)).randVec 1 0 1).1 ≤ 0 →
        res.2 = s.rng ∧ res.1.numAccept_clust_ = fieldModel.numAccept_clust_ + 1 ∧
        res.1.spins_ = (fieldModel.flipCluster (chainCollab (1 / 2)) s.cluster ((chainCollab (1 / 2)).randVec 1 0 1).1).spins_ ∧
        (∀ i, res.1.spins_ i =
          if i ∈ s.cluster then
            Vector_NDim.getReflectionAndNormalize (chainCollab (1 / 2)).sqrt (fieldModel.spins_ i)
              ((chainCollab (1 / 2)).randVec 1 0 1).1
          else fieldModel.spins_ i)) ∧
      (0 < ON_Model_Ngeq2.onsiteEnergyDiff (chainCollab (1 / 2)) { fieldModel with inCluster_ := s.inCluster } s.cluster
          ((chainCollab (1 / 2)).randVec 1 0 1).1 →
        res.2 = ((chainCollab (1 / 2)).randDblExc s.rng).2 ∧
        ((chainCollab (1 / 2)).exp (-ON_Model_Ngeq2.onsiteEnergyDiff (chainCollab (1 / 2)) { fieldModel with inCluster_ := s.inCluster }
            s.cluster ((chainCollab (1 / 2)).randVec 1 0 1).1 / fieldModel.T_) ≤ ((chainCollab (1 / 2)).randDblExc s.rng).1 →
          res.1.numAccept_clust_ = fieldModel.numAccept_clust_ ∧
          res.1.spins_ = ((fieldModel.flipCluster (chainCollab (1 / 2)) s.cluster ((chainCollab (1 / 2)).randVec 1 0 1).1).flipCluster (chainCollab (1 / 2))
            s.cluster ((chainCollab (1 / 2)).randVec 1 0 1).1).spins_ ∧
          (∀ i, res.1.spins_ i =
            if i ∈ s.cluster then
              Vector_NDim.getReflectionAndNormalize (chainCollab (1 / 2)).sqrt
                (Vector_NDim.getReflectionAndNormalize (chainCollab (1 / 2)).sqrt (fieldModel.spins_ i)
                  ((chainCollab (1 / 2)).randVec 1 0 1).1) ((chainCollab (1 / 2)).randVec 1 0 1).1
            else fieldModel.spins_ i)) ∧
        (((chainCollab (1 / 2)).randDblExc s.rng).1 < (chainCollab (1 / 2)).exp
            (-ON_Model_Ngeq2.onsiteEnergyDiff (chainCollab (1 / 2)) { fieldModel with inCluster_ := s.inCluster }
              s.cluster ((chainCollab (1 / 2)).randVec 1 0 1).1 / fieldModel.T_) →
          res.1.numAccept_clust_ = fieldModel.numAccept_clust_ + 1 ∧
          res.1.spins_ = (fieldModel.flipCluster (chainCollab (1 / 2)) s.cluster ((chainCollab (1 / 2)).randVec 1 0 1).1).spins_ ∧
          (∀ i, res.1.spins_ i =
            if i ∈ s.cluster then
              Vector_NDim.getReflectionAndNormalize (chainCollab (1 / 2)).sqrt (fieldModel.spins_ i)
                ((chainCollab (1 / 2)).randVec 1 0 1).1
            else fieldModel.spins_ i))) ∧
      (res.1.numAccept_clust_ = fieldModel.numAccept_clust_ ∨
        res.1.numAccept_clust_ = fieldModel.numAccept_clust_ + 1) ∧
      res.1.numAccept_local_ = fieldModel.numAccept_local_ ∧
      ((chainCollab (1 / 2)).sqrt 1 = 1 →
        Vector_NDim.dot ((chainCollab (1 / 2)).randVec 1 0 1).1 ((chainCollab (1 / 2)).randVec 1 0 1).1 = 1 →
        fieldModel.UnitSpins →
        (res.1.numAccept_clust_ = fieldModel.numAccept_clust_ → ∀ i, res.1.spins_ i = fieldModel.spins_ i) ∧
        (res.1.numAccept_clust_ = fieldModel.numAccept_clust_ + 1 →
          ∀ i, res.1.spins_ i =
            if i ∈ s.cluster then
              fun k => fieldModel.spins_ i k -
                2 * Vector_NDim.dot (fieldModel.spins_ i) ((chainCollab (1 / 2)).randVec 1 0 1).1 *
                  ((chainCollab (1 / 2)).randVec 1 0 1).1 k
            else fieldModel.spins_ i))) :=
  ⟨fieldModel_ready _, fieldModel_growCluster _,
    by rw [fieldModel_onsiteEnergyDiff]; norm_num,
    by
      rw [fieldModel_onsiteEnergyDiff]
      show (if (-2 : ℚ) / 1 ≤ 0 then 1 / (1 - (-2 : ℚ) / 1) else 1 + (-2 : ℚ) / 1) ≤ 1 / 2
      norm_num,
    wolffUpdate_accept_step (chainCollab (1 / 2)) 4 fieldModel 1 0 1 false
      (fieldModel_ready _)⟩

/-- C12: with `J = 0` and `h = 0`, for every state and generator, `localUpdate`
computes `deltaE = 0` and accepts without an acceptance draw (the selected
site holds the candidate, `numAccept_local_` grows by 1, the generator
returned is the one after the site draw), and `wolffUpdate` returns and
accepts without an accept/reject draw (`numAccept_clust_` grows by 1, the
generator returned is the one after the seed draw). -/
theorem updates_accept_J0_h0 (c : Collab G K n) (fuel : Nat) (m : ON_Model_Ngeq2 K n) (g : G)
    (start end_ : Nat) (pr : Bool) (hJ : m.J_ = 0) (hh : m.h_ = 0) (hfuel : 1 ≤ fuel) :
    (m.localDeltaE c (m.localSite c g).1 (ON_Model_Ngeq2.localCandidate c g).1 = 0 ∧
      m.localUpdate c g =
        ({ m with spins_ := Function.update m.spins_ (m.localSite c g).1
                    (ON_Model_Ngeq2.localCandidate c g).1,
                  numAccept_local_ := m.numAccept_local_ + 1 }, (m.localSite c g).2)) ∧
    ∃ res, m.wolffUpdate c fuel g start end_ pr = some res ∧
      res.1.numAccept_clust_ = m.numAccept_clust_ + 1 ∧
      res.2 = (c.randInt (c.randVec g start end_).2 (m.N_ - 1)).2 := by
  have hd : m.localDeltaE c (m.localSite c g).1 (ON_Model_Ngeq2.localCandidate c g).1 = 0 := by
    unfold ON_Model_Ngeq2.localDeltaE
    rw [hJ, hh]
    simp
  refine ⟨⟨hd, (localUpdate_cases c m g).1 (le_of_eq hd)⟩, _,
    wolffUpdate_J0 c fuel m g start end_ pr hJ hfuel, ?_⟩
  have hn : ¬ 0 < ON_Model_Ngeq2.onsiteEnergyDiff c
      { m with inCluster_ := (Function.update m.inCluster_
          (c.randInt (c.randVec g start end_).2 (m.N_ - 1)).1 true) }
      [(c.randInt (c.randVec g start end_).2 (m.N_ - 1)).1] (c.randVec g start end_).1 := by
    rw [onsiteEnergyDiff_h0 c { m with inCluster_ := (Function.update m.inCluster_
          (c.randInt (c.randVec g start end_).2 (m.N_ - 1)).1 true) } _ _ hh]
    exact lt_irrefl 0
  obtain ⟨a1, a2, -⟩ := (finishCluster_cases c
    { m with inCluster_ := (Function.update m.inCluster_
        (c.randInt (c.randVec g start end_).2 (m.N_ - 1)).1 true) }
    (c.randVec g start end_).1 [(c.randInt (c.randVec g start end_).2 (m.N_ - 1)).1]
    (c.randInt (c.randVec g start end_).2 (m.N_ - 1)).2 pr).1 hn
  exact ⟨a2, a1⟩

/-- Witness of C12 on the chain model without coupling and without field. -/
theorem updates_accept_J0_h0_witness :
    freeModel.J_ = 0 ∧ freeModel.h_ = 0 ∧ 1 ≤ 4 ∧
    ((freeModel.localDeltaE (chainCollab (1 / 2))
          (freeModel.localSite (chainCollab (1 / 2)) 0).1
          (ON_Model_Ngeq2.localCandidate (chainCollab (1 / 2)) 0).1 = 0 ∧
      freeModel.localUpdate (chainCollab (1 / 2)) 0 =
        ({ freeModel with
            spins_ := Function.update freeModel.spins_
              (freeModel.localSite (chainCollab (1 / 2)) 0).1
              (ON_Model_Ngeq2.localCandidate (chainCollab (1 / 2)) 0).1,
            numAccept_local_ := freeModel.numAccept_local_ + 1 },
          (freeModel.localSite (chainCollab (1 / 2)) 0).2)) ∧
    ∃ res, freeModel.wolffUpdate (chainCollab (1 / 2)) 4 0 0 1 false = some res ∧
      res.1.numAccept_clust_ = freeModel.numAccept_clust_ + 1 ∧
      res.2 = ((chainCollab (1 / 2)).randInt ((chainCollab (1 / 2)).randVec 0 0 1).2
        (freeModel.N_ - 1)).2) :=
  ⟨rfl, rfl, by decide,
    updates_accept_J0_h0 (chainCollab (1 / 2)) 4 freeModel 0 0 1 false rfl rfl (by decide)⟩

/-- C15: in the growth loop of `wolffUpdate`, for every popped site and each
direction, with `exponent = (2 J / T) (r · reflectedCopy (spin s, r))
(r · spin (neighbour))`: the neighbour is marked, appended to the cluster and
pushed on the buffer if and only if `exponent < 0`, the neighbour is not yet
marked, and the draw `u` satisfies `u < 1 − exp exponent`, and otherwise
marker, cluster and buffer are unchanged; exactly one draw is consumed when
`exponent < 0` and the neighbour is not yet marked, and none otherwise. -/
theorem tryNeighbour_activation (c : Collab G K n) (m : ON_Model_Ngeq2 K n)
    (r : Vector_NDim K n) (latticeSite i : Nat) (s : GrowState G) :
    (∀ a : GrowState G, m.expandSite c r latticeSite a =
      forLoop (2 * m.D_) (fun i a => m.tryNeighbour c r
        (Vector_NDim.dot r (Vector_NDim.getReflectionAndNormalize c.sqrt
          (m.spins_ latticeSite) r)) latticeSite i a) a) ∧
    ((m.bondExponent c r latticeSite i < 0 ∧
        s.inCluster (c.getNeighbour latticeSite i) = false ∧
        (c.randDblExc s.rng).1 < 1 - c.exp (m.bondExponent c r latticeSite i)) ↔
      ((m.tryNeighbour c r (Vector_NDim.dot r (Vector_NDim.getReflectionAndNormalize c.sqrt
          (m.spins_ latticeSite) r)) latticeSite i s).inCluster =
          Function.update s.inCluster (c.getNeighbour latticeSite i) true ∧
        (m.tryNeighbour c r (Vector_NDim.dot r (Vector_NDim.getReflectionAndNormalize c.sqrt
          (m.spins_ latticeSite) r)) latticeSite i s).cluster =
          s.cluster ++ [c.getNeighbour latticeSite i] ∧
        (m.tryNeighbour c r (Vector_NDim.dot r (Vector_NDim.getReflectionAndNormalize c.sqrt
          (m.spins_ latticeSite) r)) latticeSite i s).buffer =
          s.buffer ++ [c.getNeighbour latticeSite i])) ∧
    (¬ (m.bondExponent c r latticeSite i < 0 ∧
        s.inCluster (c.getNeighbour latticeSite i) = false ∧
        (c.randDblExc s.rng).1 < 1 - c.exp (m.bondExponent c r latticeSite i)) →
      (m.tryNeighbour c r (Vector_NDim.dot r (Vector_NDim.getReflectionAndNormalize c.sqrt
          (m.spins_ latticeSite) r)) latticeSite i s).inCluster = s.inCluster ∧
      (m.tryNeighbour c r (Vector_NDim.dot r (Vector_NDim.getReflectionAndNormalize c.sqrt
          (m.spins_ latticeSite) r)) latticeSite i s).cluster = s.cluster ∧
      (m.tryNeighbour c r (Vector_NDim.dot r (Vector_NDim.getReflectionAndNormalize c.sqrt
          (m.spins_ latticeSite) r)) latticeSite i s).buffer = s.buffer) ∧
    ((m.bondExponent c r latticeSite i < 0 ∧
        s.inCluster (c.getNeighbour latticeSite i) = false) →
      (m.tryNeighbour c r (Vector_NDim.dot r (Vector_NDim.getReflectionAndNormalize c.sqrt
          (m.spins_ latticeSite) r)) latticeSite i s).rng = (c.randDblExc s.rng).2) ∧
    (¬ (m.bondExponent c r latticeSite i < 0 ∧
        s.inCluster (c.getNeighbour latticeSite i) = false) →
      (m.tryNeighbour c r (Vector_NDim.dot r (Vector_NDim.getReflectionAndNormalize c.sqrt
          (m.spins_ latticeSite) r)) latticeSite i s).rng = s.rng) := by
  obtain ⟨t1, t2, t3, t4⟩ := tryNeighbour_spec c m r latticeSite i s
  have hnot : ¬ (m.bondExponent c r latticeSite i < 0 ∧
        s.inCluster (c.getNeighbour latticeSite i) = false ∧
        (c.randDblExc s.rng).1 < 1 - c.exp (m.bondExponent c r latticeSite i)) →
      (m.tryNeighbour c r (Vector_NDim.dot r (Vector_NDim.getReflectionAndNormalize c.sqrt
          (m.spins_ latticeSite) r)) latticeSite i s).inCluster = s.inCluster ∧
      (m.tryNeighbour c r (Vector_NDim.dot r (Vector_NDim.getReflectionAndNormalize c.sqrt
          (m.spins_ latticeSite) r)) latticeSite i s).cluster = s.cluster ∧
      (m.tryNeighbour c r (Vector_NDim.dot r (Vector_NDim.getReflectionAndNormalize c.sqrt
          (m.spins_ latticeSite) r)) latticeSite i s).buffer = s.buffer := by
    intro hc
    by_cases he : m.bondExponent c r latticeSite i < 0
    · cases hin : s.inCluster (c.getNeighbour latticeSite i) with
      | true => rw [t2 he hin]; exact ⟨rfl, rfl, rfl⟩
      | false =>
        have hu : ¬ (c.randDblExc s.rng).1 < 1 - c.exp (m.bondExponent c r latticeSite i) :=
          fun hu => hc ⟨he, hin, hu⟩
        rw [t4 he hin hu]
        exact ⟨rfl, rfl, rfl⟩
    · rw [t1 he]; exact ⟨rfl, rfl, rfl⟩
  refine ⟨fun a => rfl, ⟨fun hc => ?_, fun hp => ?_⟩, hnot, fun hc => ?_, fun hc => ?_⟩
  · rw [t3 hc.1 hc.2.1 hc.2.2]
    exact ⟨rfl, rfl, rfl⟩
  · by_contra hc
    have hcl := (hnot hc).2.1
    rw [hp.2.1] at hcl
    have hlen := congrArg List.length hcl
    simp at hlen
  · by_cases hu : (c.randDblExc s.rng).1 < 1 - c.exp (m.bondExponent c r latticeSite i)
    · rw [t3 hc.1 hc.2 hu]
    · rw [t4 hc.1 hc.2 hu]
  · by_cases he : m.bondExponent c r latticeSite i < 0
    · cases hin : s.inCluster (c.getNeighbour latticeSite i) with
      | true => rw [t2 he hin]
      | false => exact absurd ⟨he, hin⟩ hc
    · rw [t1 he]

/-- C16: for every `wolffUpdate` call on a lattice of at least one site,
entered with `inCluster_` all false and neighbour indices below `N_`
(standing assumptions), the final cluster size satisfies
`1 ≤ clustSize ≤ N_`, so the index `clustSize − 1` of the three histograms
lies in `[0, N_)`; with cluster tracking the histogram of generated clusters
is incremented at exactly this index. -/
theorem wolffUpdate_clustSize_bounds (c : Collab G K n) (fuel : Nat) (m : ON_Model_Ngeq2 K n)
    (g : G) (start end_ : Nat) (pr : Bool) (h : m.Ready c fuel) :
    ∃ s res, m.growCluster c fuel g start end_ = some ((c.randVec g start end_).1, s) ∧
      m.wolffUpdate c fuel g start end_ pr = some res ∧
      1 ≤ s.cluster.length ∧ s.cluster.length ≤ m.N_ ∧ s.cluster.length - 1 < m.N_ ∧
      (m.writeClusts_ = true → res.1.clustSizes_ = bump m.clustSizes_ s.cluster.length) := by
  obtain ⟨s, w1, -, w3, w4, w5, -⟩ := Ready.wolffUpdate h g start end_ pr
  have hlen1 : 1 ≤ s.cluster.length := by
    have := w3.length_le
    simpa using this
  have hlen2 : s.cluster.length ≤ m.N_ := length_le_of_nodup_lt w1.nodup w1.lt
  refine ⟨s, _, w4, w5, hlen1, hlen2, by omega, fun hw => ?_⟩
  exact ((finishCluster_histo c { m with inCluster_ := s.inCluster }
    (c.randVec g start end_).1 s.cluster s.rng pr).2 hw).1

/-- Witness of C16 on the chain of four sites. -/
theorem wolffUpdate_clustSize_bounds_witness :
    chainModel.Ready (chainCollab (1 / 2)) 4 ∧
    ∃ s res, chainModel.growCluster (chainCollab (1 / 2)) 4 0 0 1 =
        some (((chainCollab (1 / 2)).randVec 0 0 1).1, s) ∧
      chainModel.wolffUpdate (chainCollab (1 / 2)) 4 0 0 1 false = some res ∧
      1 ≤ s.cluster.length ∧ s.cluster.length ≤ chainModel.N_ ∧
      s.cluster.length - 1 < chainModel.N_ ∧
      (chainModel.writeClusts_ = true →
        res.1.clustSizes_ = bump chainModel.clustSizes_ s.cluster.length) :=
  ⟨chainModel_ready _,
    wolffUpdate_clustSize_bounds (chainCollab (1 / 2)) 4 chainModel 0 0 1 false
      (chainModel_ready _)⟩

/-- C19: with `J = 0` (any `h`, any `T`), for every state and generator the
bond exponent is 0 for every bond, `wolffUpdate` consumes no bond-activation
draw (the generator at the exit of the growth loop is the one after the seed
draw) and the cluster is the seed site alone; the outcome is the accept/reject
step run on this single site, whose `onsiteEnergy_diff` is
`-h (reflected spin of the seed)[0] + h (spin of the seed)[0]`. -/
theorem wolffUpdate_J0_single_site (c : Collab G K n) (fuel : Nat) (m : ON_Model_Ngeq2 K n)
    (g : G) (start end_ : Nat) (pr : Bool) (hJ : m.J_ = 0) (hfuel : 1 ≤ fuel) :
    (∀ r latticeSite i, m.bondExponent c r latticeSite i = 0) ∧
    m.growCluster c fuel g start end_ =
      some ((c.randVec g start end_).1,
        { inCluster := Function.update m.inCluster_
            (c.randInt (c.randVec g start end_).2 (m.N_ - 1)).1 true,
          cluster := [(c.randInt (c.randVec g start end_).2 (m.N_ - 1)).1],
          buffer := [],
          rng := (c.randInt (c.randVec g start end_).2 (m.N_ - 1)).2 }) ∧
    m.wolffUpdate c fuel g start end_ pr =
      some (ON_Model_Ngeq2.finishCluster c
        { m with inCluster_ := (Function.update m.inCluster_
            (c.randInt (c.randVec g start end_).2 (m.N_ - 1)).1 true) }
        (c.randVec g start end_).1 [(c.randInt (c.randVec g start end_).2 (m.N_ - 1)).1]
        (c.randInt (c.randVec g start end_).2 (m.N_ - 1)).2 pr) ∧
    ON_Model_Ngeq2.onsiteEnergyDiff c
        { m with inCluster_ := (Function.update m.inCluster_
            (c.randInt (c.randVec g start end_).2 (m.N_ - 1)).1 true) }
        [(c.randInt (c.randVec g start end_).2 (m.N_ - 1)).1] (c.randVec g start end_).1 =
      (-1) * m.h_ * (Vector_NDim.getReflectionAndNormalize c.sqrt
          (m.spins_ (c.randInt (c.randVec g start end_).2 (m.N_ - 1)).1)
          (c.randVec g start end_).1).v0 -
        (-1) * m.h_ * (m.spins_ (c.randInt (c.randVec g start end_).2 (m.N_ - 1)).1).v0 := by
  refine ⟨fun r latticeSite i => bondExponent_J0 c m r latticeSite i hJ,
    growCluster_J0 c fuel m g start end_ hJ hfuel,
    wolffUpdate_J0 c fuel m g start end_ pr hJ hfuel, ?_⟩
  unfold ON_Model_Ngeq2.onsiteEnergyDiff
  rw [getClusterOnSiteEnergy_eq_sum, getClusterOnSiteEnergy_eq_sum]
  simp [ON_Model_Ngeq2.flipCluster, forEach_cons, forEach_nil]

/-- Witness of C19 on the chain model without coupling and with field. -/
theorem wolffUpdate_J0_single_site_witness :
    fieldModel.J_ = 0 ∧ 1 ≤ 4 ∧
    ((∀ r latticeSite i, fieldModel.bondExponent (chainCollab (1 / 2)) r latticeSite i = 0) ∧
    fieldModel.growCluster (chainCollab (1 / 2)) 4 0 0 1 =
      some (((chainCollab (1 / 2)).randVec 0 0 1).1,
        { inCluster := Function.update fieldModel.inCluster_
            ((chainCollab (1 / 2)).randInt ((chainCollab (1 / 2)).randVec 0 0 1).2
              (fieldModel.N_ - 1)).1 true,
          cluster := [((chainCollab (1 / 2)).randInt ((chainCollab (1 / 2)).randVec 0 0 1).2
              (fieldModel.N_ - 1)).1],
          buffer := [],
          rng := ((chainCollab (1 / 2)).randInt ((chainCollab (1 / 2)).randVec 0 0 1).2
              (fieldModel.N_ - 1)).2 }) ∧
    fieldModel.wolffUpdate (chainCollab (1 / 2)) 4 0 0 1 false =
      some (ON_Model_Ngeq2.finishCluster (chainCollab (1 / 2))
        { fieldModel with inCluster_ := (Function.update fieldModel.inCluster_
            ((chainCollab (1 / 2)).randInt ((chainCollab (1 / 2)).randVec 0 0 1).2
              (fieldModel.N_ - 1)).1 true) }
        ((chainCollab (1 / 2)).randVec 0 0 1).1
        [((chainCollab (1 / 2)).randInt ((chainCollab (1 / 2)).randVec 0 0 1).2
              (fieldModel.N_ - 1)).1]
        ((chainCollab (1 / 2)).randInt ((chainCollab (1 / 2)).randVec 0 0 1).2
              (fieldModel.N_ - 1)).2 false) ∧
    ON_Model_Ngeq2.onsiteEnergyDiff (chainCollab (1 / 2))
        { fieldModel with inCluster_ := (Function.update fieldModel.inCluster_
            ((chainCollab (1 / 2)).randInt ((chainCollab (1 / 2)).randVec 0 0 1).2
              (fieldModel.N_ - 1)).1 true) }
        [((chainCollab (1 / 2)).randInt ((chainCollab (1 / 2)).randVec 0 0 1).2
              (fieldModel.N_ - 1)).1] ((chainCollab (1 / 2)).randVec 0 0 1).1 =
      (-1) * fieldModel.h_ * (Vector_NDim.getReflectionAndNormalize (chainCollab (1 / 2)).sqrt
          (fieldModel.spins_ ((chainCollab (1 / 2)).randInt
            ((chainCollab (1 / 2)).randVec 0 0 1).2 (fieldModel.N_ - 1)).1)
          ((chainCollab (1 / 2)).randVec 0 0 1).1).v0 -
        (-1) * fieldModel.h_ * (fieldModel.spins_ ((chainCollab (1 / 2)).randInt
            ((chainCollab (1 / 2)).randVec 0 0 1).2 (fieldModel.N_ - 1)).1).v0) :=
  ⟨rfl, by decide,
    wolffUpdate_J0_single_site (chainCollab (1 / 2)) 4 fieldModel 0 0 1 false rfl (by decide)⟩

/-- C17: the growth loop of `wolffUpdate` terminates when entered with
`inCluster_` all false (well-formed collaborators, at least one site): every
iteration pops exactly one site, the loop returns exactly for the bounds of
at least the final cluster size, so the number of pops is the final cluster
size, which is at most `N_`; the measure "number of unmarked sites plus
buffer length" is `N_` after the seeding and decreases by exactly one in
every iteration. -/
theorem growLoop_terminates (c : Collab G K n) (m : ON_Model_Ngeq2 K n) (g : G)
    (start end_ : Nat) (hwf : c.WellFormed m.N_ m.D_) (hN : 0 < m.N_) (hclear : m.AllClear) :
    ∃ s, s.cluster.length ≤ m.N_ ∧
      (∀ fuel, m.growCluster c fuel g start end_ =
        if s.cluster.length ≤ fuel then some ((c.randVec g start end_).1, s) else none) ∧
      GrowState.measure m.N_ (m.seedState (c.randInt (c.randVec g start end_).2 (m.N_ - 1)).1
        (c.randInt (c.randVec g start end_).2 (m.N_ - 1)).2) = m.N_ ∧
      ∀ (a : GrowState G) (x : Nat), GrowInv m.N_ a → a.buffer.getLast? = some x →
        GrowState.measure m.N_ (m.expandSite c (c.randVec g start end_).1 x
          { a with buffer := a.buffer.dropLast }) + 1 = GrowState.measure m.N_ a := by
  have hseed : (c.randInt (c.randVec g start end_).2 (m.N_ - 1)).1 < m.N_ := by
    have := hwf.randInt_le (c.randVec g start end_).2 (m.N_ - 1)
    omega
  have hinv := seedState_inv m (c.randInt (c.randVec g start end_).2 (m.N_ - 1)).1
    (c.randInt (c.randVec g start end_).2 (m.N_ - 1)).2 hclear hseed
  obtain ⟨s1, k, g1, g2, -, g4⟩ := growLoop_iterations c m (c.randVec g start end_).1 hwf m.N_
    _ hinv (by simp [ON_Model_Ngeq2.seedState])
  have hk : k = s1.cluster.length := by
    simp [ON_Model_Ngeq2.seedState] at g1
    exact g1
  subst hk
  refine ⟨s1, length_le_of_nodup_lt g2.nodup g2.lt, fun fuel => ?_, ?_,
    fun a x ha hx => measure_expandSite c m _ hwf a x ha hx⟩
  · rw [growCluster_eq, g4 fuel]
    by_cases hf : s1.cluster.length ≤ fuel
    · rw [if_pos hf, if_pos hf]
      rfl
    · rw [if_neg hf, if_neg hf]
      rfl
  · have hu := unmarked_add_length hinv
    unfold GrowState.measure
    simp [ON_Model_Ngeq2.seedState] at hu ⊢
    exact hu

/-- Witness of C17 on the chain of four sites. -/
theorem growLoop_terminates_witness :
    (chainCollab (1 / 2)).WellFormed chainModel.N_ chainModel.D_ ∧ 0 < chainModel.N_ ∧
    chainModel.AllClear ∧
    ∃ s, s.cluster.length ≤ chainModel.N_ ∧
      (∀ fuel, chainModel.growCluster (chainCollab (1 / 2)) fuel 0 0 1 =
        if s.cluster.length ≤ fuel then some (((chainCollab (1 / 2)).randVec 0 0 1).1, s)
        else none) ∧
      GrowState.measure chainModel.N_ (chainModel.seedState
        ((chainCollab (1 / 2)).randInt ((chainCollab (1 / 2)).randVec 0 0 1).2
          (chainModel.N_ - 1)).1
        ((chainCollab (1 / 2)).randInt ((chainCollab (1 / 2)).randVec 0 0 1).2
          (chainModel.N_ - 1)).2) = chainModel.N_ ∧
      ∀ (a : GrowState Nat) (x : Nat), GrowInv chainModel.N_ a → a.buffer.getLast? = some x →
        GrowState.measure chainModel.N_ (chainModel.expandSite (chainCollab (1 / 2))
          ((chainCollab (1 / 2)).randVec 0 0 1).1 x
          { a with buffer := a.buffer.dropLast }) + 1 = GrowState.measure chainModel.N_ a :=
  ⟨chainCollab_wf _, by decide, chainModel_allClear,
    growLoop_terminates (chainCollab (1 / 2)) chainModel 0 0 1 (chainCollab_wf _) (by decide)
      chainModel_allClear⟩

/-- C18: the cluster grown by `wolffUpdate` (standing assumptions) is
connected through lattice bonds: the first element of the cluster list is
the seed site, and every later element is `neighbour (s, i)` for some
direction `i` in `[0, 2 D)` and some site `s` that appears earlier in the
cluster list. -/
theorem wolffUpdate_cluster_connected (c : Collab G K n) (fuel : Nat)
    (m : ON_Model_Ngeq2 K n) (g : G) (start end_ : Nat) (h : m.Ready c fuel) :
    ∃ s, m.growCluster c fuel g start end_ = some ((c.randVec g start end_).1, s) ∧
      ClusterConnected c.getNeighbour m.D_
        (c.randInt (c.randVec g start end_).2 (m.N_ - 1)).1 s.cluster := by
  obtain ⟨s, h1, -, h3, -, -⟩ := growCluster_run c m g start end_ fuel h.wf h.pos h.clear
    h.fuel_ge
    (fun a => ClusterConnected c.getNeighbour m.D_
      (c.randInt (c.randVec g start end_).2 (m.N_ - 1)).1 a.cluster)
    (fun a _ ha => ha)
    (fun a site i rDotRef _ hsite hi ha => by
      rcases tryNeighbour_cases c m (c.randVec g start end_).1 rDotRef site i a with
        ⟨-, h2, -⟩ | ⟨-, -, h2, -⟩
      · rw [h2]; exact ha
      · rw [h2]; exact ha.append site i hsite hi)
    ⟨rfl, fun k x hk hx => by
      have hnone : (m.seedState (c.randInt (c.randVec g start end_).2 (m.N_ - 1)).1
          (c.randInt (c.randVec g start end_).2 (m.N_ - 1)).2).cluster[k]? = none :=
        List.getElem?_eq_none (by simp [ON_Model_Ngeq2.seedState]; omega)
      rw [hnone] at hx
      exact Option.noConfusion hx⟩
  exact ⟨s, h1, h3⟩

/-- Witness of C18 on the chain of four sites. -/
theorem wolffUpdate_cluster_connected_witness :
    chainModel.Ready (chainCollab (1 / 2)) 4 ∧
    ∃ s, chainModel.growCluster (chainCollab (1 / 2)) 4 0 0 1 =
        some (((chainCollab (1 / 2)).randVec 0 0 1).1, s) ∧
      ClusterConnected (chainCollab (1 / 2)).getNeighbour chainModel.D_
        ((chainCollab (1 / 2)).randInt ((chainCollab (1 / 2)).randVec 0 0 1).2
          (chainModel.N_ - 1)).1 s.cluster :=
  ⟨chainModel_ready _,
    wolffUpdate_cluster_connected (chainCollab (1 / 2)) 4 chainModel 0 0 1
      (chainModel_ready _)⟩

/-- C13: unit length is an invariant of the lattice under every update
(standing assumptions, `sqrt 1 = 1`): if every spin of the lattice has unit
length before a call of `localUpdate`, `wolffUpdate` or `sweep`, and every
freshly drawn candidate spin and reflection axis has unit length, then every
spin of the lattice has unit length after the call, on accepted and on
rejected moves. -/
theorem updates_keep_unit_spins (c : Collab G K n) (fuel : Nat) (m : ON_Model_Ngeq2 K n)
    (g : G) (h : m.Ready c fuel) (hsqrt : c.sqrt 1 = 1) (hdraw : c.UnitDraws)
    (hu : m.UnitSpins) :
    (m.localUpdate c g).1.UnitSpins ∧
    (∀ start end_ pr, ∃ res, m.wolffUpdate c fuel g start end_ pr = some res ∧
      res.1.UnitSpins) ∧
    ∀ pr, ∃ res, m.sweep c fuel g pr = some res ∧ res.1.UnitSpins := by
  have hwolff : ∀ (a : ON_Model_Ngeq2 K n) (g1 : G) (start end_ : Nat) (pr : Bool)
      (res : ON_Model_Ngeq2 K n × G), a.Ready c fuel → a.UnitSpins →
      a.wolffUpdate c fuel g1 start end_ pr = some res → res.1.UnitSpins := by
    intro a g1 start end_ pr res ha hau hres
    obtain ⟨s, w1, -, w3⟩ := wolffUpdate_result c fuel a g1 start end_ pr res ha hres
    rw [w3]
    exact finishCluster_unit c { a with inCluster_ := s.inCluster } _ s.cluster s.rng pr hsqrt
      (hdraw g1 start end_) w1.nodup hau
  refine ⟨localUpdate_unit c m g hdraw hu, fun start end_ pr => ?_, fun pr => ?_⟩
  · obtain ⟨s, -, -, -, -, w5, -⟩ := Ready.wolffUpdate h g start end_ pr
    exact ⟨_, w5, hwolff m g start end_ pr _ h hu w5⟩
  · obtain ⟨res, r1, -, r3, -⟩ := runCalls_inv c fuel ON_Model_Ngeq2.UnitSpins
      (fun a g1 _ hau => localUpdate_unit c a g1 hdraw hau) hwolff (sweepTrace m.N_ n pr) m g
      h hu
    exact ⟨res, by rw [sweep_eq_runCalls]; exact r1, r3⟩

/-- Witness of C13 on the chain of four sites. -/
theorem updates_keep_unit_spins_witness :
    chainModel.Ready (chainCollab (1 / 2)) 4 ∧ (chainCollab (1 / 2)).sqrt 1 = 1 ∧
    (chainCollab (1 / 2)).UnitDraws ∧ chainModel.UnitSpins ∧
    ((chainModel.localUpdate (chainCollab (1 / 2)) 0).1.UnitSpins ∧
    (∀ start end_ pr, ∃ res,
      chainModel.wolffUpdate (chainCollab (1 / 2)) 4 0 start end_ pr = some res ∧
      res.1.UnitSpins) ∧
    ∀ pr, ∃ res, chainModel.sweep (chainCollab (1 / 2)) 4 0 pr = some res ∧
      res.1.UnitSpins) :=
  ⟨chainModel_ready _, chainCollab_sqrt_one _, chainCollab_unit _,
    fun i _ => chainModel_unit i,
    updates_keep_unit_spins (chainCollab (1 / 2)) 4 chainModel 0 (chainModel_ready _)
      (chainCollab_sqrt_one _) (chainCollab_unit _) (fun i _ => chainModel_unit i)⟩

/-- C20: with cluster-size tracking enabled (well-formed collaborators, at
least one site, loop bound at least `N_`), the per-bucket equation
`clustSizes_[k] = clustSizes_accepted_[k] + clustSizes_rejected_[k]` for every
`k` in `[0, N_)` holds after the initialisation of the constructor and after
`markWarmupDone`, and is kept by every `wolffUpdate`, `localUpdate` and
`sweep`; each `wolffUpdate` adds exactly 1 to `clustSizes_[clustSize − 1]`
and to exactly one of `clustSizes_accepted_[clustSize − 1]` and
`clustSizes_rejected_[clustSize − 1]`, the other one being unchanged, where
`clustSize − 1` lies in `[0, N_)`, and leaves every other bucket of the
three histograms unchanged. -/
theorem buckets_agree (c : Collab G K n) (fuel : Nat) (m : ON_Model_Ngeq2 K n) (g : G)
    (hwf : c.WellFormed m.N_ m.D_) (hN : 0 < m.N_) (hfuel : m.N_ ≤ fuel)
    (hw : m.writeClusts_ = true) :
    m.construct.BucketsAgree ∧ m.markWarmupDone.BucketsAgree ∧
    (m.BucketsAgree → (m.localUpdate c g).1.BucketsAgree) ∧
    (m.AllClear → m.BucketsAgree → ∀ start end_ pr,
      ∃ s res, m.growCluster c fuel g start end_ = some ((c.randVec g start end_).1, s) ∧
        m.wolffUpdate c fuel g start end_ pr = some res ∧ res.1.BucketsAgree ∧
        res.1.clustSizes_ = bump m.clustSizes_ s.cluster.length ∧
        ((res.1.clustSizes_accepted_ = bump m.clustSizes_accepted_ s.cluster.length ∧
            res.1.clustSizes_rejected_ = m.clustSizes_rejected_) ∨
          (res.1.clustSizes_accepted_ = m.clustSizes_accepted_ ∧
            res.1.clustSizes_rejected_ = bump m.clustSizes_rejected_ s.cluster.length)) ∧
        (∀ a : Nat → Nat, ∀ k, k ≠ s.cluster.length - 1 → bump a s.cluster.length k = a k) ∧
        1 ≤ s.cluster.length ∧ s.cluster.length - 1 < m.N_ ∧
        res.1.clustSizes_ (s.cluster.length - 1) =
          m.clustSizes_ (s.cluster.length - 1) + 1 ∧
        ((res.1.clustSizes_accepted_ (s.cluster.length - 1) =
              m.clustSizes_accepted_ (s.cluster.length - 1) + 1 ∧
            res.1.clustSizes_rejected_ (s.cluster.length - 1) =
              m.clustSizes_rejected_ (s.cluster.length - 1)) ∨
          (res.1.clustSizes_accepted_ (s.cluster.length - 1) =
              m.clustSizes_accepted_ (s.cluster.length - 1) ∧
            res.1.clustSizes_rejected_ (s.cluster.length - 1) =
              m.clustSizes_rejected_ (s.cluster.length - 1) + 1)) ∧
        ∀ k, k ≠ s.cluster.length - 1 →
          res.1.clustSizes_ k = m.clustSizes_ k ∧
          res.1.clustSizes_accepted_ k = m.clustSizes_accepted_ k ∧
          res.1.clustSizes_rejected_ k = m.clustSizes_rejected_ k) ∧
    (m.AllClear → m.BucketsAgree → ∀ pr,
      ∃ res, m.sweep c fuel g pr = some res ∧ res.1.BucketsAgree) := by
  refine ⟨construct_buckets m hw, markWarmupDone_buckets m hw,
    fun hb => (localUpdate_buckets c m g hw hb).2, fun hclear hb start end_ pr => ?_,
    fun hclear hb pr => ?_⟩
  · obtain ⟨s, w1, -, w3, w4, w5, -⟩ :=
      Ready.wolffUpdate (⟨hwf, hN, hclear, hfuel⟩ : m.Ready c fuel) g start end_ pr
    obtain ⟨e0, ecase⟩ := (finishCluster_histo c { m with inCluster_ := s.inCluster }
      (c.randVec g start end_).1 s.cluster s.rng pr).2 hw
    have hlen1 : 1 ≤ s.cluster.length := by
      have := w3.length_le
      simpa using this
    have hlen2 : s.cluster.length ≤ m.N_ := length_le_of_nodup_lt w1.nodup w1.lt
    have hsame : ∀ a : Nat → Nat,
        bump a s.cluster.length (s.cluster.length - 1) = a (s.cluster.length - 1) + 1 :=
      fun a => by rw [bump_apply, if_pos rfl]
    have hother : ∀ a : Nat → Nat, ∀ k, k ≠ s.cluster.length - 1 →
        bump a s.cluster.length k = a k :=
      fun a k hk => by rw [bump_apply, if_neg hk]
    refine ⟨s, _, w4, w5, (finishCluster_buckets c { m with inCluster_ := s.inCluster }
      (c.randVec g start end_).1 s.cluster s.rng pr hw hb).2, e0, ecase, hother, hlen1,
      by omega, ?_, ?_, fun k hk => ?_⟩
    · rw [e0]
      exact hsame _
    · rcases ecase with ⟨e1, e2⟩ | ⟨e1, e2⟩
      · exact Or.inl ⟨by rw [e1]; exact hsame _, by rw [e2]⟩
      · exact Or.inr ⟨by rw [e1], by rw [e2]; exact hsame _⟩
    · rcases ecase with ⟨e1, e2⟩ | ⟨e1, e2⟩
      · exact ⟨by rw [e0]; exact hother _ k hk, by rw [e1]; exact hother _ k hk, by rw [e2]⟩
      · exact ⟨by rw [e0]; exact hother _ k hk, by rw [e1], by rw [e2]; exact hother _ k hk⟩
  · obtain ⟨res, r1, -, r3, -⟩ := runCalls_inv c fuel
      (fun a => a.writeClusts_ = true ∧ a.BucketsAgree)
      (fun a g1 _ ha => localUpdate_buckets c a g1 ha.1 ha.2)
      (fun a g1 start end_ pr1 res ha hab hres => by
        obtain ⟨s, -, -, w3⟩ := wolffUpdate_result c fuel a g1 start end_ pr1 res ha hres
        rw [w3]
        exact finishCluster_buckets c { a with inCluster_ := s.inCluster } _ s.cluster s.rng
          pr1 hab.1 hab.2)
      (sweepTrace m.N_ n pr) m g ⟨hwf, hN, hclear, hfuel⟩ ⟨hw, hb⟩
    exact ⟨res, by rw [sweep_eq_runCalls]; exact r1, r3.2⟩

/-- Witness of C20 on the chain of four sites. -/
theorem buckets_agree_witness :
    (chainCollab (1 / 2)).WellFormed chainModel.N_ chainModel.D_ ∧ 0 < chainModel.N_ ∧
    chainModel.N_ ≤ 4 ∧ chainModel.writeClusts_ = true ∧
    (chainModel.construct.BucketsAgree ∧ chainModel.markWarmupDone.BucketsAgree ∧
    (chainModel.BucketsAgree → (chainModel.localUpdate (chainCollab (1 / 2)) 0).1.BucketsAgree) ∧
    (chainModel.AllClear → chainModel.BucketsAgree → ∀ start end_ pr,
      ∃ s res, chainModel.growCluster (chainCollab (1 / 2)) 4 0 start end_ = some (((chainCollab (1 / 2)).randVec 0 start end_).1, s) ∧
        chainModel.wolffUpdate (chainCollab (1 / 2)) 4 0 start end_ pr = some res ∧ res.1.BucketsAgree ∧
        res.1.clustSizes_ = bump chainModel.clustSizes_ s.cluster.length ∧
        ((res.1.clustSizes_accepted_ = bump chainModel.clustSizes_accepted_ s.cluster.length ∧
            res.1.clustSizes_rejected_ = chainModel.clustSizes_rejected_) ∨
          (res.1.clustSizes_accepted_ = chainModel.clustSizes_accepted_ ∧
            res.1.clustSizes_rejected_ = bump chainModel.clustSizes_rejected_ s.cluster.length)) ∧
        (∀ a : Nat → Nat, ∀ k, k ≠ s.cluster.length - 1 → bump a s.cluster.length k = a k) ∧
        1 ≤ s.cluster.length ∧ s.cluster.length - 1 < chainModel.N_ ∧
        res.1.clustSizes_ (s.cluster.length - 1) =
          chainModel.clustSizes_ (s.cluster.length - 1) + 1 ∧
        ((res.1.clustSizes_accepted_ (s.cluster.length - 1) =
              chainModel.clustSizes_accepted_ (s.cluster.length - 1) + 1 ∧
            res.1.clustSizes_rejected_ (s.cluster.length - 1) =
              chainModel.clustSizes_rejected_ (s.cluster.length - 1)) ∨
          (res.1.clustSizes_accepted_ (s.cluster.length - 1) =
              chainModel.clustSizes_accepted_ (s.cluster.length - 1) ∧
            res.1.clustSizes_rejected_ (s.cluster.length - 1) =
              chainModel.clustSizes_rejected_ (s.cluster.length - 1) + 1)) ∧
        ∀ k, k ≠ s.cluster.length - 1 →
          res.1.clustSizes_ k = chainModel.clustSizes_ k ∧
          res.1.clustSizes_accepted_ k = chainModel.clustSizes_accepted_ k ∧
          res.1.clustSizes_rejected_ k = chainModel.clustSizes_rejected_ k) ∧
    (chainModel.AllClear → chainModel.BucketsAgree → ∀ pr,
      ∃ res, chainModel.sweep (chainCollab (1 / 2)) 4 0 pr = some res ∧ res.1.BucketsAgree)) :=
  ⟨chainCollab_wf _, by decide, by decide, rfl,
    buckets_agree (chainCollab (1 / 2)) 4 chainModel 0 (chainCollab_wf _) (by decide)
      (by decide) rfl⟩

/-- C14, evaluation of the code: on the chain of four sites with `h = 0`, a
bin of one measurement of one sweep that starts with `zeroMeasurements` makes
four local updates and one Wolff update, and this Wolff update is accepted
(`numAccept_clust_ = 1`). The average written for `AccRate_local` is
`numAccept_local_ / 4`, the accepted local moves over the attempted ones;
the average written for `AccRate_clust` is `1 / 4` and not `1`, the accepted
cluster moves over `N_` times the attempted ones. -/
theorem writeBin_accRate_clust_chain :
    (sweepTrace chainModel.N_ 2 false).count Call.localUpdate = 4 ∧
    (sweepTrace chainModel.N_ 2 false).countP Call.isWolff = 1 ∧
    ∃ res, chainModel.runBin (chainCollab (1 / 2)) 4 false 1 1 0 = some res ∧
      res.1.numAccept_clust_ = 1 ∧
      (res.1.writtenAccRates 1 1 : ℚ × ℚ).1 = (res.1.numAccept_local_ : ℚ) / 4 ∧
      (res.1.writtenAccRates 1 1 : ℚ × ℚ).2 = 1 / 4 ∧
      (res.1.writtenAccRates 1 1 : ℚ × ℚ).2 ≠ 1 := by
  have hready : chainModel.zeroMeasurements.Ready (chainCollab (1 / 2)) 4 :=
    ⟨chainCollab_wf _, by decide, fun _ _ => rfl, by decide⟩
  obtain ⟨res, r1, r2, r3⟩ := sweeps_accept_h0 (chainCollab (1 / 2)) 4 false 1
    chainModel.zeroMeasurements 0 hready rfl
  have hN : res.1.N_ = 4 := r3
  have hc : res.1.numAccept_clust_ = 1 := r2
  have hrate : (res.1.writtenAccRates 1 1 : ℚ × ℚ).2 = 1 / 4 := by
    unfold ON_Model_Ngeq2.writtenAccRates ON_Model_Ngeq2.accRateClust Measure.average
      Measure.accumulate
    simp only
    rw [hN, hc]
    norm_num
  refine ⟨?_, ?_, res, r1, hc, ?_, hrate, ?_⟩
  · rw [sweepTrace_eq]
    decide
  · rw [sweepTrace_eq]
    decide
  · unfold ON_Model_Ngeq2.writtenAccRates ON_Model_Ngeq2.accRateLocal Measure.average
      Measure.accumulate
    simp only
    rw [hN]
    norm_num
  · rw [hrate]
    norm_num

end Claims

end OPE
